import Mathlib

/-!
# CarrierEnv: matching and aggregation engine of `src/CarrierEnv.cc`

A shallow embedding of `CarrierEnv::updateLocation`, `CarrierEnv::getPrediction`,
`CarrierEnv::updateCell`, `getDistance`, `findNearest` and `LocCmp`, followed by the theorems
that settle the specification's claims about them.

Conventions of the embedding.

* `double` is `Dbl`: an exact rational, or one of the IEEE-754 special values `+inf`, `-inf`,
  `NaN`.  Arithmetic on finite values is exact (no rounding, no overflow, no signed zero); the
  special values follow IEEE-754.
* `std::cos`, `std::asin`, `std::sqrt` and `std::sort` are library code; they are the fields of
  a `Platform`, and `Platform.Conforming` states what the theorems need of them.
* The tabular store (`DataFrame`, `Datablock`) is not part of the source file; it is modelled
  from the specification's description of it.
* An out-of-bounds `operator[]` is a fault: the embedded function returns `none`.
* The lock around the prediction is studied on a separate step model of the two methods that
  touch it (`Lock`).
* The engine is embedded a second time in binary64 arithmetic, in the namespace `F64`: every
  `+`, `-`, `*`, `/` of the source is the exact operation followed by `Dbl.round64` (round to
  nearest, ties to even, 53 bits, gradual underflow below `2^-1022`, overflow to an infinity
  from `2^1024`), every operation is rounded on its own (no fused multiply-add, no extended
  precision), and every decimal literal is the double nearest to it (`Dbl.lit`).  The doubles
  are the values that the rounding leaves unchanged (`Dbl.IsDouble`).  The theorems about the
  values that the arithmetic of the code produces (distances, the bounds of the match window,
  rebased times, means, the times of the rows) are stated over `F64`.
* What a theorem needs of the accuracy of libm beyond `Platform.Conforming` is an explicit
  hypothesis (`Platform.Accurate`, `Platform.Libm`), proved for the reference platform.
-/

namespace M3

/-! ## Doubles -/

/-- A `double`: a finite value (an exact rational), an infinity, or NaN. -/
inductive Dbl where
  | fin (q : ℚ)
  | pinf
  | ninf
  | nan
deriving DecidableEq

namespace Dbl

instance : Inhabited Dbl := ⟨fin 0⟩

instance (n : Nat) : OfNat Dbl n := ⟨fin n⟩

/-- Conversion of an integer (`int`, `unsigned`, `size_t`, `Cid_t`) to `double`. -/
def ofInt (z : Int) : Dbl := fin z

/-- Conversion of a natural number to `double`. -/
def ofNat (n : Nat) : Dbl := fin n

/-- Unary minus. -/
def neg : Dbl → Dbl
  | fin a => fin (-a)
  | pinf => ninf
  | ninf => pinf
  | nan => nan

/-- IEEE addition. -/
def add : Dbl → Dbl → Dbl
  | fin a, fin b => fin (a + b)
  | nan, _ => nan
  | _, nan => nan
  | pinf, ninf => nan
  | ninf, pinf => nan
  | pinf, _ => pinf
  | _, pinf => pinf
  | ninf, _ => ninf
  | _, ninf => ninf

/-- IEEE subtraction. -/
def sub (a b : Dbl) : Dbl := add a (neg b)

/-- The product of an infinity of sign `pos` with the finite value `q`. -/
def infMul (pos : Bool) (q : ℚ) : Dbl :=
  if q = 0 then nan else if (decide (0 < q)) = pos then pinf else ninf

/-- IEEE multiplication. -/
def mul : Dbl → Dbl → Dbl
  | fin a, fin b => fin (a * b)
  | nan, _ => nan
  | _, nan => nan
  | pinf, fin b => infMul true b
  | ninf, fin b => infMul false b
  | fin a, pinf => infMul true a
  | fin a, ninf => infMul false a
  | pinf, pinf => pinf
  | pinf, ninf => ninf
  | ninf, pinf => ninf
  | ninf, ninf => pinf

/-- IEEE division; a zero divisor is `+0` (there is no signed zero in the model). -/
def div : Dbl → Dbl → Dbl
  | fin a, fin b =>
    if b = 0 then (if a = 0 then nan else if 0 < a then pinf else ninf) else fin (a / b)
  | nan, _ => nan
  | _, nan => nan
  | fin _, pinf => fin 0
  | fin _, ninf => fin 0
  | pinf, fin b => if 0 ≤ b then pinf else ninf
  | ninf, fin b => if 0 ≤ b then ninf else pinf
  | pinf, pinf => nan
  | pinf, ninf => nan
  | ninf, pinf => nan
  | ninf, ninf => nan

instance : Neg Dbl := ⟨neg⟩
instance : Add Dbl := ⟨add⟩
instance : Sub Dbl := ⟨sub⟩
instance : Mul Dbl := ⟨mul⟩
instance : Div Dbl := ⟨div⟩

/-- The comparison `a < b` (false as soon as one side is NaN). -/
def lt : Dbl → Dbl → Bool
  | fin a, fin b => decide (a < b)
  | nan, _ => false
  | _, nan => false
  | ninf, ninf => false
  | ninf, _ => true
  | pinf, _ => false
  | fin _, pinf => true
  | fin _, ninf => false

/-- The comparison `a <= b` (false as soon as one side is NaN). -/
def le : Dbl → Dbl → Bool
  | fin a, fin b => decide (a ≤ b)
  | nan, _ => false
  | _, nan => false
  | ninf, _ => true
  | pinf, pinf => true
  | pinf, _ => false
  | fin _, pinf => true
  | fin _, ninf => false

/-- The comparison `a > b`. -/
def gt (a b : Dbl) : Bool := lt b a

/-- The comparison `a >= b`. -/
def ge (a b : Dbl) : Bool := le b a

/-- The comparison `a == b` (NaN is not equal to itself). -/
def eq : Dbl → Dbl → Bool
  | fin a, fin b => decide (a = b)
  | pinf, pinf => true
  | ninf, ninf => true
  | _, _ => false

/-- The comparison `a != b`. -/
def ne (a b : Dbl) : Bool := !(eq a b)

/-- The function `std::fabs`. -/
def fabs : Dbl → Dbl
  | fin a => fin |a|
  | pinf => pinf
  | ninf => pinf
  | nan => nan

/-- Rounding of a rational to the nearest integer, halves away from zero. -/
def roundHalfAway (q : ℚ) : Int :=
  if 0 ≤ q then ⌊q + 1 / 2⌋ else -⌊-q + 1 / 2⌋

/-- The function `std::round`: nearest integer, halves away from zero. -/
def round : Dbl → Dbl
  | fin a => fin (roundHalfAway a)
  | pinf => pinf
  | ninf => ninf
  | nan => nan

/-- Truncation of a rational toward zero. -/
def truncate (q : ℚ) : Int :=
  if 0 ≤ q then ⌊q⌋ else -⌊-q⌋

/-- The smallest value of the 32-bit `int`. -/
def INT_MIN : Int := -2147483648

/-- The largest value of the 32-bit `int`. -/
def INT_MAX : Int := 2147483647

/-- The cast `(int)v`: truncation toward zero.  When the truncated value is not an `int`
(or `v` is an infinity or NaN) C++ leaves the result undefined; the model returns what the
x86-64 conversion instruction returns then, `INT_MIN`. -/
def toInt : Dbl → Int
  | fin a => if INT_MIN ≤ truncate a ∧ truncate a ≤ INT_MAX then truncate a else INT_MIN
  | _ => INT_MIN

/-- A value that is neither an infinity nor NaN. -/
def isFinite : Dbl → Bool
  | fin _ => true
  | _ => false

/-- The test for NaN. -/
def isNaN : Dbl → Bool
  | nan => true
  | _ => false

end Dbl

/-! ## The tabular store -/

/-- Modelled from the spec: the column labels `src::Label` (declared with the tabular store,
which is not part of the source), under the names the source file uses, and the label of the
added column `"day"`. -/
inductive Label where
  | INDEX
  | LONGTITUDE
  | LATITIDE
  | SPEED
  | THROUGHPUT
  | RTT
  | LOSS
  | RSRP
  | TIME
  | HANDOVER
  | CELLID
  | DAY
deriving DecidableEq, Repr

/-- Modelled from the spec: the row type `Datablock` of the tabular store (declared in
`DataFrame.hh`, which is not part of the source): "a flat mapping from column label to numeric
value".  A column handle is the label itself. -/
abbrev Datablock : Type := Label → Dbl

/-- Modelled from the spec: `Datablock::get`, "direct get of a cell value by column handle". -/
def Datablock.get (b : Datablock) (col : Label) : Dbl := b col

/-- Modelled from the spec: `Datablock::set`, "direct set of a cell value by column handle". -/
def Datablock.set (b : Datablock) (col : Label) (v : Dbl) : Datablock :=
  fun l => if l = col then v else b l

/-- Modelled from the spec: the table type `DataFrame` of the tabular store: its labels and
its rows, in order. -/
structure DataFrame where
  labels : List Label
  data : List Datablock

namespace DataFrame

/-- Modelled from the spec: a default-constructed `DataFrame`: no label, no row. -/
def empty : DataFrame := ⟨[], []⟩

/-- Modelled from the spec: `DataFrame::setLabels`. -/
def setLabels (df : DataFrame) (ls : List Label) : DataFrame := { df with labels := ls }

/-- Modelled from the spec: `DataFrame::getLabels`. -/
def getLabels (df : DataFrame) : List Label := df.labels

/-- Modelled from the spec: `DataFrame::getColumn`, "retrieving a column handle by label". -/
def getColumn (_df : DataFrame) (l : Label) : Label := l

/-- Modelled from the spec: `DataFrame::getData`, the rows in order. -/
def getData (df : DataFrame) : List Datablock := df.data

/-- Modelled from the spec: `DataFrame::rows`, the row count. -/
def rows (df : DataFrame) : Nat := df.data.length

/-- Modelled from the spec: `DataFrame::where` on rows, "filtering rows by a predicate over
column values, producing a new table". -/
def where_ (df : DataFrame) (p : Datablock → Bool) : DataFrame :=
  { df with data := df.data.filter p }

/-- Modelled from the spec: `DataFrame::where` on one column. -/
def whereCol (df : DataFrame) (col : Label) (p : Dbl → Bool) : DataFrame :=
  { df with data := df.data.filter (fun b => p (b.get col)) }

/-- Modelled from the spec: `DataFrame::select`, "selecting a subset of columns, producing a
new table"; the columns left out read as zero. -/
def select (df : DataFrame) (ls : List Label) : DataFrame :=
  { labels := ls, data := df.data.map (fun b l => if l ∈ ls then b l else 0) }

/-- Modelled from the spec: `DataFrame::addColumn`, "appending a new column with a constant
value". -/
def addColumn (df : DataFrame) (name : Label) (v : Dbl) : DataFrame :=
  { labels := df.labels ++ [name], data := df.data.map (fun b => b.set name v) }

/-- Modelled from the spec: `DataFrame::extend`, "extending one table with another's rows". -/
def extend (df other : DataFrame) : DataFrame :=
  { df with data := df.data ++ other.data }

/-- Modelled from the spec: `DataFrame::addRow`, a new last row, every cell zero. -/
def addRow (df : DataFrame) : DataFrame :=
  { df with data := df.data ++ [((fun _ => 0) : Datablock)] }

/-- Modelled from the spec: the update `df.getData().back().set(col, v)` of the last row
("direct set of a cell value by row and column handle"). -/
def setBack (df : DataFrame) (col : Label) (v : Dbl) : DataFrame :=
  match df.data.getLast? with
  | none => df
  | some b => { df with data := df.data.dropLast ++ [b.set col v] }

/-- Modelled from the spec: the handle of the column at position `i` of a table
(`record.get(0)` reads the column at position 0). -/
def columnAt (df : DataFrame) (i : Nat) : Label := df.labels.getD i Label.INDEX

end DataFrame

/-! ## Library code: libm and `std::sort` -/

/-- The type `Loc_t`: first is lng, second is lat. -/
abbrev Loc_t : Type := Dbl × Dbl

/-- Modelled from the spec: the type `Cid_t` of the current cell, "a single mutable scalar
identifying the serving cell" (declared in `CarrierEnv.hh`, which is not part of the source):
an integer. -/
abbrev Cid_t : Type := Int

/-- The library functions the source calls: `std::cos`, `std::asin`, `std::sqrt`, and
`std::sort` on a vector of locations with a comparison object. -/
structure Platform where
  cos : Dbl → Dbl
  asin : Dbl → Dbl
  sqrt : Dbl → Dbl
  sort : (Loc_t → Loc_t → Bool) → List Loc_t → List Loc_t

/-- The requirement `std::sort` puts on its comparison object, restricted to the elements that
are sorted: a strict weak ordering (irreflexive, transitive, with a transitive
incomparability). -/
structure StrictWeakOn (cmp : Loc_t → Loc_t → Bool) (l : List Loc_t) : Prop where
  irrefl : ∀ a ∈ l, cmp a a = false
  trans : ∀ a ∈ l, ∀ b ∈ l, ∀ c ∈ l, cmp a b = true → cmp b c = true → cmp a c = true
  incomp : ∀ a ∈ l, ∀ b ∈ l, ∀ c ∈ l, cmp a b = false → cmp b a = false →
    cmp b c = false → cmp c b = false → cmp a c = false ∧ cmp c a = false

/-- What the theorems assume of the library: `asin 1` and the cosine of a finite value are
finite, the square root of a finite non-negative value is finite and non-negative, and
`std::sort` with a strict weak ordering returns a permutation of its input in which no element
is less than an earlier one.  Nothing is assumed about the order of equivalent elements. -/
structure Platform.Conforming (P : Platform) : Prop where
  asin_one : ∃ p, P.asin 1 = Dbl.fin p
  cos_fin : ∀ q, ∃ c, P.cos (Dbl.fin q) = Dbl.fin c
  sqrt_fin : ∀ q, 0 ≤ q → ∃ s, P.sqrt (Dbl.fin q) = Dbl.fin s ∧ 0 ≤ s
  sort_perm : ∀ cmp l, StrictWeakOn cmp l → (P.sort cmp l).Perm l
  sort_sorted : ∀ cmp l, StrictWeakOn cmp l →
    (P.sort cmp l).Pairwise (fun a b => cmp b a = false)

/-! ## The helpers of `CarrierEnv.cc`

Here and in the engine below the arithmetic on finite values is exact; the same code with the
arithmetic of doubles is in the namespace `F64`. -/

/-- The function `getDistance`: the estimated distance (meters) between two locations. -/
def getDistance (P : Platform) (l1 l2 : Loc_t) : Dbl :=
  let r : Dbl := Dbl.fin 6371 * 1000
  let pi : Dbl := 2 * P.asin 1
  let delta_lng := l1.1 - l2.1
  let delta_lat := l1.2 - l2.2
  let y := 2 * pi * r * delta_lat / 360
  let x := 2 * pi * (r * P.cos (pi * l1.2 / 180)) * delta_lng / 360
  P.sqrt (x * x + y * y)

/-- The comparison object `LocCmp(point)`: compares the distance to `point`. -/
def LocCmp (P : Platform) (point : Loc_t) (l r : Loc_t) : Bool :=
  (getDistance P l point).lt (getDistance P r point)

/-- The function `findNearest`: the nearest location in a dataframe.  The two `operator[]`
(`vec[0]` and `getData()[0]`) fault on an empty vector. -/
def findNearest (P : Platform) (loc : Loc_t) (df : DataFrame) : Option Datablock :=
  let col1 := df.getColumn Label.LONGTITUDE
  let col2 := df.getColumn Label.LATITIDE
  let vec : List Loc_t := df.getData.map (fun v => (v.get col1, v.get col2))
  let vec := P.sort (LocCmp P loc) vec
  match vec with
  | [] => none
  | target :: _ =>
    match (df.where_ (fun b => (b.get col1).eq target.1 && (b.get col2).eq target.2)).getData with
    | [] => none
    | b :: _ => some b

/-! ## The engine -/

/-- The state of a `CarrierEnv` object, the members the source file reads and writes: one table
per day (`df`), the current cell, the prediction.  The mutex `pred_lock` has no state in a
sequential execution. -/
structure CarrierEnv where
  df : List DataFrame
  current_cell : Cid_t
  prediction : DataFrame

/-- The labels the constructor gives every day table. -/
def dayLabels : List Label :=
  [Label.INDEX, Label.LONGTITUDE, Label.LATITIDE, Label.SPEED, Label.THROUGHPUT, Label.RTT,
    Label.LOSS, Label.RSRP, Label.TIME, Label.HANDOVER, Label.CELLID]

/-- The labels the constructor gives the prediction. -/
def predictionLabels : List Label :=
  [Label.TIME, Label.THROUGHPUT, Label.RTT, Label.LOSS, Label.HANDOVER]

/-- The constant `SAME_LOCATION_THRESHOLD`. -/
def SAME_LOCATION_THRESHOLD : Dbl := 100

/-- The constant `MATCH_LENGTH`. -/
def MATCH_LENGTH : Dbl := 5

namespace CarrierEnv

/-- The constructor `CarrierEnv::CarrierEnv`; `files` holds the table loaded from each file. -/
def new (files : List DataFrame) : CarrierEnv :=
  { df := files.map (fun f => f.setLabels dayLabels)
    current_cell := 0
    prediction := DataFrame.empty.setLabels predictionLabels }

/-- The method `CarrierEnv::updateCell`. -/
def updateCell (env : CarrierEnv) (new_cell : Cid_t) : CarrierEnv :=
  { env with current_cell := new_cell }

/-- The first `where` of the day loop: the records within 0.2 degrees of the position. -/
def block (lng lat : Dbl) (curr_df : DataFrame) : DataFrame :=
  let col_lng := curr_df.getColumn Label.LONGTITUDE
  let col_lat := curr_df.getColumn Label.LATITIDE
  curr_df.where_ (fun b =>
    let ln := b.get col_lng
    let la := b.get col_lat
    (Dbl.fabs (lng - ln)).lt (Dbl.fin (1 / 5)) && (Dbl.fabs (lat - la)).lt (Dbl.fin (1 / 5)))

/-- The second half of the body of the day loop: the `[t, t+5)` second data of day `i`, its
time changed from `[t, t+5)` to `[0, 5)`, with the column `"day"` added. -/
def next_5sec (curr_df : DataFrame) (start_time : Dbl) (i : Nat) : DataFrame :=
  let col_time := curr_df.getColumn Label.TIME
  let next := curr_df.where_ (fun b =>
    (b.get col_time).lt (start_time + MATCH_LENGTH) && (b.get col_time).ge start_time)
  let next : DataFrame :=
    { next with data := next.getData.map (fun db => db.set col_time (db.get col_time - start_time)) }
  next.addColumn Label.DAY (Dbl.ofNat i)

/-- The body of the day loop for day `i`: `allFrame` after it, or `none` on a fault. -/
def dayStep (P : Platform) (lng lat : Dbl) (curr_cell : Cid_t) (allFrame : DataFrame) (i : Nat)
    (curr_df : DataFrame) : Option DataFrame :=
  let curr_loc : Loc_t := (lng, lat)
  let col_lng := curr_df.getColumn Label.LONGTITUDE
  let col_lat := curr_df.getColumn Label.LATITIDE
  let col_time := curr_df.getColumn Label.TIME
  let col_cell := curr_df.getColumn Label.CELLID
  let blk := block lng lat curr_df
  if blk.rows = 0 then some allFrame
  else
    match findNearest P curr_loc blk with
    | none => none
    | some nearest_record =>
      let nearest_loc : Loc_t := (nearest_record.get col_lng, nearest_record.get col_lat)
      if (getDistance P nearest_loc curr_loc).gt SAME_LOCATION_THRESHOLD
          || (nearest_record.get col_cell).ne (Dbl.ofInt curr_cell) then some allFrame
      else
        let start_time := nearest_record.get col_time
        some (allFrame.extend (next_5sec curr_df start_time i))

/-- The day loop `for(unsigned i = 0; i < df.size(); i++)`, from day `i` on. -/
def dayLoop (P : Platform) (lng lat : Dbl) (curr_cell : Cid_t) :
    Nat → List DataFrame → DataFrame → Option DataFrame
  | _, [], allFrame => some allFrame
  | i, curr_df :: rest, allFrame =>
    match dayStep P lng lat curr_cell allFrame i curr_df with
    | none => none
    | some allFrame => dayLoop P lng lat curr_cell (i + 1) rest allFrame

/-- The first half of `updateLocation`: the dataframe for all matched data.  Reading
`this->df[0]` faults when there is no day. -/
def combinedFrame (P : Platform) (env : CarrierEnv) (lng lat : Dbl) : Option DataFrame :=
  match env.df with
  | [] => none
  | df0 :: _ =>
    let allFrame := (DataFrame.empty.setLabels df0.getLabels).addColumn Label.DAY 0
    dayLoop P lng lat env.current_cell 0 env.df allFrame

/-- The conversion `!!x` of an `int` to 0 or 1. -/
def notnot (x : Int) : Int := if x = 0 then 0 else 1

/-- The body of the loop over the labels of `tdf`: the average of one column. -/
def labelMean (tdf : DataFrame) (label : Label) : Dbl :=
  let label_df := tdf.select [label]
  let sum : Dbl := label_df.getData.foldl (fun sum record =>
    if label = Label.HANDOVER then sum + Dbl.ofInt (notnot (record.get (label_df.columnAt 0)).toInt)
    else sum + record.get (label_df.columnAt 0)) 0
  sum / Dbl.ofNat label_df.rows

/-- The body of the loop over the seconds: the row of second `t` is added to `temp_pred`. -/
def secondStep (allFrame : DataFrame) (time : Dbl) (temp_pred : DataFrame) (t : Nat) :
    DataFrame :=
  let temp_pred := temp_pred.addRow
  let temp_pred := temp_pred.setBack (temp_pred.getColumn Label.TIME) (time + Dbl.ofNat t)
  let time_col := allFrame.getColumn Label.TIME
  let tdf := (allFrame.whereCol time_col (fun v => v.round.eq (Dbl.ofNat t))).select
    [Label.THROUGHPUT, Label.RTT, Label.LOSS, Label.HANDOVER]
  tdf.getLabels.foldl
    (fun temp_pred label => temp_pred.setBack (temp_pred.getColumn label) (labelMean tdf label))
    temp_pred

/-- The second half of `updateLocation`: `temp_pred` after the loop
`for(int t = 0; t < MATCH_LENGTH; t++)`, which runs for `t = 0, 1, 2, 3, 4`. -/
def predict (allFrame : DataFrame) (labels : List Label) (time : Dbl) : DataFrame :=
  (List.range 5).foldl (secondStep allFrame time) (DataFrame.empty.setLabels labels)

/-- The method `CarrierEnv::updateLocation`: the state after the call, or `none` on a fault. -/
def updateLocation (P : Platform) (env : CarrierEnv) (lng lat time : Dbl) : Option CarrierEnv :=
  match combinedFrame P env lng lat with
  | none => none
  | some allFrame =>
    some { env with prediction := predict allFrame env.prediction.getLabels time }

end CarrierEnv

/-! ## A reference platform

The theorems below hold for every conforming `Platform`.  To evaluate the engine on concrete
tables a platform is fixed here: rational stand-ins for the three libm functions, and the
insertion sort that the GNU `std::sort` runs on a vector of at most 16 elements. -/

/-- Newton iteration for the integer square root of `n`, from the guess `x`. -/
def isqrtAux (n : Nat) : Nat → Nat → Nat
  | 0, x => x
  | fuel + 1, x =>
    let y := (x + n / x) / 2
    if y < x then isqrtAux n fuel y else x

/-- The integer square root, by at most 256 steps of the Newton iteration from `n`. -/
def isqrt (n : Nat) : Nat := if n = 0 then 0 else isqrtAux n 256 n

/-- A rational stand-in for `std::sqrt`: the square root rounded down to six decimals. -/
def refSqrt : Dbl → Dbl
  | Dbl.fin q =>
    if q < 0 then Dbl.nan else Dbl.fin ((isqrt ⌊q * 10 ^ 12⌋.toNat : ℚ) / 10 ^ 6)
  | Dbl.pinf => Dbl.pinf
  | _ => Dbl.nan

/-- A rational stand-in for `std::cos`: the Taylor polynomial of degree 8. -/
def refCos : Dbl → Dbl
  | Dbl.fin x => Dbl.fin (1 - x ^ 2 / 2 + x ^ 4 / 24 - x ^ 6 / 720 + x ^ 8 / 40320)
  | _ => Dbl.nan

/-- A rational stand-in for `std::asin`, which the source calls at 1 only: the chord through
`asin 0 = 0` and `asin 1 = pi / 2`, with `pi / 2` taken as `355 / 226`. -/
def refAsin : Dbl → Dbl
  | Dbl.fin x => Dbl.fin (x * (355 / 226))
  | _ => Dbl.nan

/-- Insertion of `x` into a sorted list, behind the elements that are not greater. -/
def orderedInsert (cmp : Loc_t → Loc_t → Bool) (x : Loc_t) : List Loc_t → List Loc_t
  | [] => [x]
  | y :: ys => if cmp x y then x :: y :: ys else y :: orderedInsert cmp x ys

/-- Insertion sort; it keeps equivalent elements in their order of arrival. -/
def insertionSort (cmp : Loc_t → Loc_t → Bool) (l : List Loc_t) : List Loc_t :=
  l.foldl (fun acc x => orderedInsert cmp x acc) []

/-- The reference platform: the rational stand-ins and insertion sort. -/
def refPlatform : Platform :=
  { cos := refCos, asin := refAsin, sqrt := refSqrt, sort := insertionSort }

/-! ## The `std::sort` of the GNU library

A transcription of `std::__sort` of libstdc++ (`bits/stl_algo.h`): an introspective quicksort
down to ranges of 16 elements, then one insertion sort.  A vector is a list; an iterator is a
position.  Every `while` loop is given as many steps as the vector has elements. -/

namespace Gnu

/-- The element at position `i`. -/
def nth (v : List Loc_t) (i : Nat) : Loc_t := v.getD i default

/-- The call `std::iter_swap(i, j)`. -/
def iterSwap (v : List Loc_t) (i j : Nat) : List Loc_t := (v.set i (nth v j)).set j (nth v i)

/-- The loop of `__unguarded_linear_insert`: `val` moves down from `last` past the elements
that are greater. -/
def linearInsertLoop (cmp : Loc_t → Loc_t → Bool) (val : Loc_t) :
    Nat → List Loc_t → Nat → List Loc_t
  | 0, v, last => v.set last val
  | fuel + 1, v, last =>
    if last = 0 then v.set last val
    else if cmp val (nth v (last - 1)) then
      linearInsertLoop cmp val fuel (v.set last (nth v (last - 1))) (last - 1)
    else v.set last val

/-- The function `__unguarded_linear_insert(last)`. -/
def unguardedLinearInsert (cmp : Loc_t → Loc_t → Bool) (v : List Loc_t) (last : Nat) :
    List Loc_t :=
  linearInsertLoop cmp (nth v last) v.length v last

/-- The loop of `__insertion_sort(first, last)`, from position `i`, for `count` positions. -/
def insertionLoop (cmp : Loc_t → Loc_t → Bool) (first : Nat) :
    Nat → List Loc_t → Nat → List Loc_t
  | 0, v, _ => v
  | count + 1, v, i =>
    let v :=
      if cmp (nth v i) (nth v first) then
        v.take first ++ [nth v i] ++ (v.drop first).take (i - first) ++ v.drop (i + 1)
      else unguardedLinearInsert cmp v i
    insertionLoop cmp first count v (i + 1)

/-- The function `__insertion_sort(first, last)`. -/
def insertionSort (cmp : Loc_t → Loc_t → Bool) (v : List Loc_t) (first last : Nat) :
    List Loc_t :=
  if first = last then v else insertionLoop cmp first (last - (first + 1)) v (first + 1)

/-- The function `__unguarded_insertion_sort(first, last)`, from position `i`. -/
def unguardedInsertionSort (cmp : Loc_t → Loc_t → Bool) : Nat → List Loc_t → Nat → List Loc_t
  | 0, v, _ => v
  | count + 1, v, i => unguardedInsertionSort cmp count (unguardedLinearInsert cmp v i) (i + 1)

/-- The function `__final_insertion_sort(first, last)`. -/
def finalInsertionSort (cmp : Loc_t → Loc_t → Bool) (v : List Loc_t) (first last : Nat) :
    List Loc_t :=
  if last - first > 16 then
    unguardedInsertionSort cmp (last - (first + 16)) (insertionSort cmp v first (first + 16))
      (first + 16)
  else insertionSort cmp v first last

/-- The function `__move_median_to_first(result, a, b, c)`. -/
def moveMedianToFirst (cmp : Loc_t → Loc_t → Bool) (v : List Loc_t) (result a b c : Nat) :
    List Loc_t :=
  if cmp (nth v a) (nth v b) then
    if cmp (nth v b) (nth v c) then iterSwap v result b
    else if cmp (nth v a) (nth v c) then iterSwap v result c
    else iterSwap v result a
  else if cmp (nth v a) (nth v c) then iterSwap v result a
  else if cmp (nth v b) (nth v c) then iterSwap v result c
  else iterSwap v result b

/-- The loop `while (comp(first, pivot)) ++first`. -/
def scanUp (cmp : Loc_t → Loc_t → Bool) (v : List Loc_t) (pivot : Nat) : Nat → Nat → Nat
  | 0, first => first
  | fuel + 1, first =>
    if cmp (nth v first) (nth v pivot) then scanUp cmp v pivot fuel (first + 1) else first

/-- The loop `while (comp(pivot, last)) --last`. -/
def scanDown (cmp : Loc_t → Loc_t → Bool) (v : List Loc_t) (pivot : Nat) : Nat → Nat → Nat
  | 0, last => last
  | fuel + 1, last =>
    if cmp (nth v pivot) (nth v last) then scanDown cmp v pivot fuel (last - 1) else last

/-- The function `__unguarded_partition(first, last, pivot)`: the vector and the cut. -/
def unguardedPartition (cmp : Loc_t → Loc_t → Bool) (pivot : Nat) :
    Nat → List Loc_t → Nat → Nat → List Loc_t × Nat
  | 0, v, first, _ => (v, first)
  | fuel + 1, v, first, last =>
    let first := scanUp cmp v pivot v.length first
    let last := scanDown cmp v pivot v.length (last - 1)
    if first < last then unguardedPartition cmp pivot fuel (iterSwap v first last) (first + 1) last
    else (v, first)

/-- The function `__unguarded_partition_pivot(first, last)`: the vector and the cut. -/
def unguardedPartitionPivot (cmp : Loc_t → Loc_t → Bool) (v : List Loc_t) (first last : Nat) :
    List Loc_t × Nat :=
  let mid := first + (last - first) / 2
  let v := moveMedianToFirst cmp v first (first + 1) mid (last - 1)
  unguardedPartition cmp first v.length v (first + 1) last

/-- The function `__introsort_loop(first, last, depth_limit)`.  Where the library falls back to
heap sort (the depth limit is exhausted, which takes a vector of at least 25 elements) the
range is left to the final insertion sort. -/
def introsortLoop (cmp : Loc_t → Loc_t → Bool) :
    Nat → List Loc_t → Nat → Nat → Nat → List Loc_t
  | 0, v, _, _, _ => v
  | fuel + 1, v, first, last, depth_limit =>
    if last - first > 16 then
      if depth_limit = 0 then v
      else
        let r := unguardedPartitionPivot cmp v first last
        let v := introsortLoop cmp fuel r.1 r.2 last (depth_limit - 1)
        introsortLoop cmp fuel v first r.2 (depth_limit - 1)
    else v

/-- The function `std::__lg`: the binary logarithm, rounded down. -/
def lg : Nat → Nat → Nat
  | 0, _ => 0
  | fuel + 1, n => if n ≤ 1 then 0 else 1 + lg fuel (n / 2)

/-- The function `std::__sort(first, last, comp)` on the whole vector. -/
def sort (cmp : Loc_t → Loc_t → Bool) (v : List Loc_t) : List Loc_t :=
  if v.length = 0 then v
  else
    finalInsertionSort cmp (introsortLoop cmp v.length v 0 v.length (lg v.length v.length * 2))
      0 v.length

end Gnu

/-- The platform of the GNU library's `std::sort` (with the rational stand-ins for libm). -/
def gnuPlatform : Platform :=
  { cos := refCos, asin := refAsin, sqrt := refSqrt, sort := Gnu.sort }

/-! ## Example tables -/

/-- A record of a day table, from its eleven values in the order of the day labels. -/
def record (index lng lat speed thr rtt loss rsrp time handover cell : Dbl) : Datablock
  | Label.INDEX => index
  | Label.LONGTITUDE => lng
  | Label.LATITIDE => lat
  | Label.SPEED => speed
  | Label.THROUGHPUT => thr
  | Label.RTT => rtt
  | Label.LOSS => loss
  | Label.RSRP => rsrp
  | Label.TIME => time
  | Label.HANDOVER => handover
  | Label.CELLID => cell
  | Label.DAY => 0

/-- Day 1 of the end-to-end scenario: the anchor at time 100, throughput 70 a second later. -/
def day1 : DataFrame :=
  ⟨dayLabels, [record 0 10 20 0 50 1 0 0 100 0 5, record 1 10 20 0 70 2 0 0 101 1 5]⟩

/-- Day 2 of the end-to-end scenario: the anchor at time 200, throughput 110 a second later. -/
def day2 : DataFrame :=
  ⟨dayLabels,
    [record 0 (Dbl.fin (100005 / 10000)) (Dbl.fin (200004 / 10000)) 0 90 3 0 0 200 0 5,
     record 1 (Dbl.fin (100005 / 10000)) (Dbl.fin (200004 / 10000)) 0 110 4 0 0 201 0 5]⟩

/-- The longitudes of seventeen candidates on the equator: the two nearest to `(0, 0)`, at the
same distance, are the sixth (0.0001 degrees east) and the last (0.0001 degrees west). -/
def tieLongitudes : List ℚ :=
  [2 / 1000, 3 / 1000, 4 / 1000, 5 / 1000, 6 / 1000, 1 / 10000, 8 / 1000, 9 / 1000, 10 / 1000,
    11 / 1000, 12 / 1000, 13 / 1000, 14 / 1000, 15 / 1000, 16 / 1000, 17 / 1000, -1 / 10000]

/-! ## The specification's words -/

/-- The sum of a list of values, from the left, starting from zero. -/
def sum (vs : List Dbl) : Dbl := vs.foldl (fun s v => s + v) 0

/-- The arithmetic mean: the sum divided by the count. -/
def mean (vs : List Dbl) : Dbl := sum vs / Dbl.ofNat vs.length

/-- The combined-frame records whose rebased time, rounded to the nearest integer, is `t`. -/
def selected (allFrame : DataFrame) (t : Nat) : List Datablock :=
  allFrame.data.filter (fun b => (b Label.TIME).round.eq (Dbl.ofNat t))

/-- The indicator the code computes from a raw handover value, `!!((int)v)`. -/
def castIndicator (v : Dbl) : Dbl := Dbl.ofInt (CarrierEnv.notnot v.toInt)

/-- The distance of a record to a position. -/
def distanceTo (P : Platform) (loc : Loc_t) (b : Datablock) : Dbl :=
  getDistance P (b Label.LONGTITUDE, b Label.LATITIDE) loc

/-- A table whose records all have finite coordinates. -/
def FiniteCoords (df : DataFrame) : Prop :=
  ∀ b ∈ df.data, (b Label.LONGTITUDE).isFinite = true ∧ (b Label.LATITIDE).isFinite = true

/-- The specification's window test: the time of the record lies in `[t0, t0 + 5)`. -/
def inWindow (t0 : Dbl) (b : Datablock) : Bool :=
  t0.le (b Label.TIME) && (b Label.TIME).lt (t0 + 5)

/-- The specification's rebased record of day `i`: the time replaced by `time - t0`, the column
`"day"` holding `i`, every other field unchanged. -/
def rebased (t0 : Dbl) (i : Nat) (b : Datablock) : Datablock :=
  fun l => if l = Label.DAY then Dbl.ofNat i else if l = Label.TIME then b Label.TIME - t0 else b l

/-- The indices of the candidates of a table that are nearest to the position. -/
def nearestIndices (P : Platform) (loc : Loc_t) (df : DataFrame) : List Dbl :=
  (df.data.filter (fun b => df.data.all
    (fun c => (distanceTo P loc b).le (distanceTo P loc c)))).map (fun b => b Label.INDEX)

/-- The value of column `l` in row `t` of a table, when the table has that row. -/
def cell? (df : DataFrame) (t : Nat) (l : Label) : Option Dbl :=
  (df.data[t]?).map (fun row => row l)

/-! ## The snapshot lock

The two methods that touch `this->prediction`, as sequences of steps that a scheduler
interleaves.  A table is copied and assigned row by row; a row is named by a number.

* `getPrediction`: lock; copy the five rows of `this->prediction` into `ret`; unlock; copy the
  five rows of `this->prediction` into the returned table (`return this->prediction;`).
* the end of `updateLocation`: lock; assign the five rows of `temp_pred` to `this->prediction`;
  unlock. -/

namespace Lock

/-- The two threads. -/
inductive Thread where
  | reader
  | writer
deriving DecidableEq

/-- The shared prediction, the holder of `pred_lock`, and the locals of the two threads. -/
structure State where
  holder : Option Thread
  prediction : List Nat
  ret : List Nat
  returned : List Nat
  readerPc : Nat
  writerPc : Nat
deriving DecidableEq

/-- One step of `getPrediction`; the step that takes the lock waits while the lock is held. -/
def readerStep (s : State) : State :=
  if s.readerPc = 0 then
    if s.holder = none then { s with holder := some Thread.reader, readerPc := 1 } else s
  else if s.readerPc ≤ 5 then
    { s with ret := s.ret ++ [s.prediction.getD (s.readerPc - 1) 0], readerPc := s.readerPc + 1 }
  else if s.readerPc = 6 then { s with holder := none, readerPc := 7 }
  else if s.readerPc ≤ 11 then
    { s with returned := s.returned ++ [s.prediction.getD (s.readerPc - 7) 0],
             readerPc := s.readerPc + 1 }
  else s

/-- One step of the publication of `temp_pred` at the end of `updateLocation`. -/
def writerStep (temp_pred : List Nat) (s : State) : State :=
  if s.writerPc = 0 then
    if s.holder = none then { s with holder := some Thread.writer, writerPc := 1 } else s
  else if s.writerPc ≤ 5 then
    { s with prediction := s.prediction.set (s.writerPc - 1) (temp_pred.getD (s.writerPc - 1) 0),
             writerPc := s.writerPc + 1 }
  else if s.writerPc = 6 then { s with holder := none, writerPc := 7 }
  else s

/-- The execution of a schedule: the thread named at each position takes one step. -/
def run (temp_pred : List Nat) : List Thread → State → State
  | [], s => s
  | Thread.reader :: rest, s => run temp_pred rest (readerStep s)
  | Thread.writer :: rest, s => run temp_pred rest (writerStep temp_pred s)

/-- The state before the two calls: the old snapshot is held, nobody holds the lock. -/
def init (old : List Nat) : State :=
  { holder := none, prediction := old, ret := [], returned := [], readerPc := 0, writerPc := 0 }

/-- The old snapshot of the example. -/
def oldRows : List Nat := [10, 11, 12, 13, 14]

/-- The new snapshot of the example. -/
def newRows : List Nat := [20, 21, 22, 23, 24]

/-- A schedule: the reader runs until it has copied the first row of its returned table (after
it released the lock), the writer then publishes, the reader then finishes. -/
def tornSchedule : List Thread :=
  List.replicate 8 Thread.reader ++ List.replicate 7 Thread.writer ++
    List.replicate 4 Thread.reader

/-- The part of a state that the steps under the lock read and write: everything but the
returned table. -/
structure Core where
  holder : Option Thread
  prediction : List Nat
  ret : List Nat
  readerPc : Nat
  writerPc : Nat
deriving DecidableEq

/-- The core of a state. -/
def core (s : State) : Core := ⟨s.holder, s.prediction, s.ret, s.readerPc, s.writerPc⟩

/-- A state with the given core (and nothing returned yet). -/
def ofCore (c : Core) : State := ⟨c.holder, c.prediction, c.ret, [], c.readerPc, c.writerPc⟩

/-- The core of the example in which the reader is at step `r`, the writer at step `w`, and the
reader has copied under the lock from the old snapshot (`sawOld`) or from the new one. -/
def coreAt (r w : Nat) (sawOld : Bool) : Core :=
  { holder := if 1 ≤ w ∧ w ≤ 6 then some Thread.writer
      else if 1 ≤ r ∧ r ≤ 6 then some Thread.reader else none
    prediction := newRows.take (min (w - 1) 5) ++ oldRows.drop (min (w - 1) 5)
    ret := (if sawOld then oldRows else newRows).take (min (r - 1) 5)
    readerPc := r
    writerPc := w }

/-- The positions of the two threads that exclude each other from the critical section, with a
reader that copies under the lock from the snapshot held at that time. -/
def consistent (r w : Nat) (sawOld : Bool) : Bool :=
  !(decide (1 ≤ r ∧ r ≤ 6) && decide (1 ≤ w ∧ w ≤ 6)) &&
    (if sawOld then decide (1 ≤ r ∧ r ≤ 6 → w = 0) else decide (1 ≤ r → w = 7))

/-- The cores of the example that the two threads can reach. -/
def reachable : List Core :=
  (List.range 13).flatMap (fun r => (List.range 8).flatMap (fun w =>
    ([true, false].filter (consistent r w)).map (coreAt r w)))

end Lock

/-! ## Auxiliary definitions of the proofs -/

/-- The row that one pass of the loop over the seconds adds for second `t`. -/
def secondRow (allFrame : DataFrame) (time : Dbl) (t : Nat) : Datablock :=
  let tdf := (allFrame.whereCol Label.TIME (fun v => v.round.eq (Dbl.ofNat t))).select
    [Label.THROUGHPUT, Label.RTT, Label.LOSS, Label.HANDOVER]
  ((((Datablock.set (fun _ => 0) Label.TIME (time + Dbl.ofNat t)).set
    Label.THROUGHPUT (CarrierEnv.labelMean tdf Label.THROUGHPUT)).set
    Label.RTT (CarrierEnv.labelMean tdf Label.RTT)).set
    Label.LOSS (CarrierEnv.labelMean tdf Label.LOSS)).set
    Label.HANDOVER (CarrierEnv.labelMean tdf Label.HANDOVER)

/-- The finite value of a distance (zero when it is not finite). -/
def finiteValue : Dbl → ℚ
  | Dbl.fin q => q
  | _ => 0

/-- The test of the validity gate on the nearest record: too far away, or not in the cell. -/
def gateRejects (P : Platform) (lng lat : Dbl) (curr_cell : Cid_t) (nearest : Datablock) :
    Bool :=
  (getDistance P (nearest Label.LONGTITUDE, nearest Label.LATITIDE) (lng, lat)).gt
      SAME_LOCATION_THRESHOLD
    || (nearest Label.CELLID).ne (Dbl.ofInt curr_cell)

/-! ## Anchors and the rows of the combined frame -/

/-- The anchor record of a day: the nearest bounding-box candidate when the day passes the
validity gate, no record when the day has no candidate, when `findNearest` faults, or when the
gate rejects the nearest candidate. -/
def anchor? (P : Platform) (lng lat : Dbl) (curr_cell : Cid_t) (curr_df : DataFrame) :
    Option Datablock :=
  if (CarrierEnv.block lng lat curr_df).rows = 0 then none
  else
    match findNearest P (lng, lat) (CarrierEnv.block lng lat curr_df) with
    | none => none
    | some nearest => if gateRejects P lng lat curr_cell nearest then none else some nearest

/-- The rows that day `i` adds to the combined frame: its match window when it passes the
validity gate, no row otherwise. -/
def dayRows (P : Platform) (lng lat : Dbl) (curr_cell : Cid_t) (i : Nat) (curr_df : DataFrame) :
    List Datablock :=
  match anchor? P lng lat curr_cell curr_df with
  | none => []
  | some nearest => (CarrierEnv.next_5sec curr_df (nearest Label.TIME) i).data

/-- The rows that the days from day `i` on add to the combined frame, in order. -/
def allRows (P : Platform) (lng lat : Dbl) (curr_cell : Cid_t) : Nat → List DataFrame →
    List Datablock
  | _, [] => []
  | i, curr_df :: rest =>
    dayRows P lng lat curr_cell i curr_df ++ allRows P lng lat curr_cell (i + 1) rest

/-- The engine of the end-to-end scenario, the current cell set to 7: no day has a record of
cell 7. -/
def env7 : CarrierEnv := (CarrierEnv.new [day1, day2]).updateCell 7

/-! ## Further example tables and engines -/

/-- An engine of three days, each of one record at `(0, 0)`, at time 0, in cell 0; the raw
handover values of the three records are 0, 0 and 3. -/
def envThree : CarrierEnv :=
  CarrierEnv.new [⟨dayLabels, [record 0 0 0 0 1 1 0 0 0 0 0]⟩,
    ⟨dayLabels, [record 0 0 0 0 1 1 0 0 0 0 0]⟩,
    ⟨dayLabels, [record 0 0 0 0 1 1 0 0 0 3 0]⟩]

/-- An engine with one day of one record, at `(0, 0)` in cell 0 at time 0, whose throughput is
NaN. -/
def envNanThroughput : CarrierEnv :=
  CarrierEnv.new [⟨dayLabels, [record 0 0 0 0 Dbl.nan 1 0 0 0 0 0]⟩]

/-! ## The day loop without the bounding-box filter -/

namespace Dbl

/-- The number of times a natural number can be halved before it is below 2, that is
`⌊log2 n⌋` for `n ≥ 1`; `fuel` bounds the number of halvings. -/
def log2Fuel : Nat → Nat → Nat
  | 0, _ => 0
  | fuel + 1, n => if n < 2 then 0 else log2Fuel fuel (n / 2) + 1

/-- The power `2 ^ e` for an integer exponent. -/
def pow2 (e : Int) : ℚ :=
  if 0 ≤ e then (2 : ℚ) ^ e.toNat else 1 / (2 : ℚ) ^ (-e).toNat

/-- The exponent of a positive rational: `⌊log2 q⌋`. -/
def floorLog2 (q : ℚ) : Int :=
  let e0 : Int := (log2Fuel q.num.toNat q.num.toNat : Int) - (log2Fuel q.den q.den : Int)
  if pow2 e0 ≤ q then e0 else e0 - 1

/-- Rounding of a non-negative rational to the nearest integer, ties to the even one. -/
def roundHalfEven (q : ℚ) : Int :=
  if q - ⌊q⌋ < 1 / 2 then ⌊q⌋
  else if 1 / 2 < q - ⌊q⌋ then ⌊q⌋ + 1
  else if ⌊q⌋ % 2 = 0 then ⌊q⌋ else ⌊q⌋ + 1

/-- The exponent of the last place of a positive rational in binary64: 52 below its own
exponent, and not below -1074. -/
def ulpExp (q : ℚ) : Int := max (floorLog2 q - 52) (-1074)

/-- Rounding of a positive rational to the nearest multiple of its last place, ties to even:
a significand of 53 bits, exponent not bounded above. -/
def roundPos (q : ℚ) : ℚ := (roundHalfEven (q / pow2 (ulpExp q)) : ℚ) * pow2 (ulpExp q)

/-- Rounding of a rational to the nearest binary64 number, ties to even; a rounded magnitude
of `2 ^ 1024` or more is an infinity. -/
def round64 (q : ℚ) : Dbl :=
  if q = 0 then fin 0
  else if 0 < q then (if pow2 1024 ≤ roundPos q then pinf else fin (roundPos q))
  else (if pow2 1024 ≤ roundPos (-q) then ninf else fin (-roundPos (-q)))

/-- Rounding of the exact result of an operation. -/
def rnd : Dbl → Dbl
  | fin q => round64 q
  | v => v

/-- A value that a `double` can hold: an infinity, NaN, or a binary64 number. -/
def IsDouble (v : Dbl) : Prop := rnd v = v

instance (v : Dbl) : Decidable (IsDouble v) := by unfold IsDouble; infer_instance

/-- The operation `a + b` on doubles. -/
def fadd (a b : Dbl) : Dbl := rnd (add a b)

/-- The operation `a - b` on doubles. -/
def fsub (a b : Dbl) : Dbl := rnd (sub a b)

/-- The operation `a * b` on doubles. -/
def fmul (a b : Dbl) : Dbl := rnd (mul a b)

/-- The operation `a / b` on doubles. -/
def fdiv (a b : Dbl) : Dbl := rnd (div a b)

/-- Conversion of a natural number (`unsigned`, `size_t`) to `double`. -/
def ofNat64 (n : Nat) : Dbl := round64 n

/-- The literal `c`, a decimal fraction: the double nearest to it. -/
def lit (c : ℚ) : Dbl := round64 c

end Dbl

/-! ## The engine in binary64 arithmetic

The helpers and the methods of `CarrierEnv.cc` once more, every arithmetic operation of the
source being the operation on doubles (`Dbl.fadd`, `Dbl.fsub`, `Dbl.fmul`, `Dbl.fdiv`) and
every decimal literal the double nearest to it.  The tables, the platform, the faults and the
control flow are those of the embedding above. -/

namespace F64

/-- The function `getDistance`: the estimated distance (meters) between two locations. -/
def getDistance (P : Platform) (l1 l2 : Loc_t) : Dbl :=
  let r : Dbl := Dbl.fmul (Dbl.fin 6371) 1000
  let pi : Dbl := Dbl.fmul 2 (P.asin 1)
  let delta_lng := Dbl.fsub l1.1 l2.1
  let delta_lat := Dbl.fsub l1.2 l2.2
  let y := Dbl.fdiv (Dbl.fmul (Dbl.fmul (Dbl.fmul 2 pi) r) delta_lat) 360
  let x := Dbl.fdiv (Dbl.fmul (Dbl.fmul (Dbl.fmul 2 pi)
    (Dbl.fmul r (P.cos (Dbl.fdiv (Dbl.fmul pi l1.2) 180)))) delta_lng) 360
  P.sqrt (Dbl.fadd (Dbl.fmul x x) (Dbl.fmul y y))

/-- The comparison object `LocCmp(point)`: compares the distance to `point`. -/
def LocCmp (P : Platform) (point : Loc_t) (l r : Loc_t) : Bool :=
  (getDistance P l point).lt (getDistance P r point)

/-- The function `findNearest`: the nearest location in a dataframe.  The two `operator[]`
(`vec[0]` and `getData()[0]`) fault on an empty vector. -/
def findNearest (P : Platform) (loc : Loc_t) (df : DataFrame) : Option Datablock :=
  let col1 := df.getColumn Label.LONGTITUDE
  let col2 := df.getColumn Label.LATITIDE
  let vec : List Loc_t := df.getData.map (fun v => (v.get col1, v.get col2))
  let vec := P.sort (LocCmp P loc) vec
  match vec with
  | [] => none
  | target :: _ =>
    match (df.where_ (fun b => (b.get col1).eq target.1 && (b.get col2).eq target.2)).getData with
    | [] => none
    | b :: _ => some b

/-- The first `where` of the day loop: the records within 0.2 degrees of the position. -/
def block (lng lat : Dbl) (curr_df : DataFrame) : DataFrame :=
  let col_lng := curr_df.getColumn Label.LONGTITUDE
  let col_lat := curr_df.getColumn Label.LATITIDE
  curr_df.where_ (fun b =>
    let ln := b.get col_lng
    let la := b.get col_lat
    (Dbl.fabs (Dbl.fsub lng ln)).lt (Dbl.lit (1 / 5)) &&
      (Dbl.fabs (Dbl.fsub lat la)).lt (Dbl.lit (1 / 5)))

/-- The second half of the body of the day loop: the `[t, t+5)` second data of day `i`, its
time changed from `[t, t+5)` to `[0, 5)`, with the column `"day"` added. -/
def next_5sec (curr_df : DataFrame) (start_time : Dbl) (i : Nat) : DataFrame :=
  let col_time := curr_df.getColumn Label.TIME
  let next := curr_df.where_ (fun b =>
    (b.get col_time).lt (Dbl.fadd start_time MATCH_LENGTH) && (b.get col_time).ge start_time)
  let next : DataFrame :=
    { next with
      data := next.getData.map (fun db => db.set col_time (Dbl.fsub (db.get col_time) start_time)) }
  next.addColumn Label.DAY (Dbl.ofNat64 i)

/-- The body of the day loop for day `i`: `allFrame` after it, or `none` on a fault. -/
def dayStep (P : Platform) (lng lat : Dbl) (curr_cell : Cid_t) (allFrame : DataFrame) (i : Nat)
    (curr_df : DataFrame) : Option DataFrame :=
  let curr_loc : Loc_t := (lng, lat)
  let col_lng := curr_df.getColumn Label.LONGTITUDE
  let col_lat := curr_df.getColumn Label.LATITIDE
  let col_time := curr_df.getColumn Label.TIME
  let col_cell := curr_df.getColumn Label.CELLID
  let blk := block lng lat curr_df
  if blk.rows = 0 then some allFrame
  else
    match findNearest P curr_loc blk with
    | none => none
    | some nearest_record =>
      let nearest_loc : Loc_t := (nearest_record.get col_lng, nearest_record.get col_lat)
      if (getDistance P nearest_loc curr_loc).gt SAME_LOCATION_THRESHOLD
          || (nearest_record.get col_cell).ne (Dbl.ofInt curr_cell) then some allFrame
      else
        let start_time := nearest_record.get col_time
        some (allFrame.extend (next_5sec curr_df start_time i))

/-- The day loop `for(unsigned i = 0; i < df.size(); i++)`, from day `i` on. -/
def dayLoop (P : Platform) (lng lat : Dbl) (curr_cell : Cid_t) :
    Nat → List DataFrame → DataFrame → Option DataFrame
  | _, [], allFrame => some allFrame
  | i, curr_df :: rest, allFrame =>
    match dayStep P lng lat curr_cell allFrame i curr_df with
    | none => none
    | some allFrame => dayLoop P lng lat curr_cell (i + 1) rest allFrame

/-- The first half of `updateLocation`: the dataframe for all matched data.  Reading
`this->df[0]` faults when there is no day. -/
def combinedFrame (P : Platform) (env : CarrierEnv) (lng lat : Dbl) : Option DataFrame :=
  match env.df with
  | [] => none
  | df0 :: _ =>
    let allFrame := (DataFrame.empty.setLabels df0.getLabels).addColumn Label.DAY 0
    dayLoop P lng lat env.current_cell 0 env.df allFrame

/-- The body of the loop over the labels of `tdf`: the average of one column. -/
def labelMean (tdf : DataFrame) (label : Label) : Dbl :=
  let label_df := tdf.select [label]
  let sum : Dbl := label_df.getData.foldl (fun sum record =>
    if label = Label.HANDOVER then
      Dbl.fadd sum (Dbl.ofInt (CarrierEnv.notnot (record.get (label_df.columnAt 0)).toInt))
    else Dbl.fadd sum (record.get (label_df.columnAt 0))) 0
  Dbl.fdiv sum (Dbl.ofNat64 label_df.rows)

/-- The body of the loop over the seconds: the row of second `t` is added to `temp_pred`. -/
def secondStep (allFrame : DataFrame) (time : Dbl) (temp_pred : DataFrame) (t : Nat) :
    DataFrame :=
  let temp_pred := temp_pred.addRow
  let temp_pred :=
    temp_pred.setBack (temp_pred.getColumn Label.TIME) (Dbl.fadd time (Dbl.ofNat t))
  let time_col := allFrame.getColumn Label.TIME
  let tdf := (allFrame.whereCol time_col (fun v => v.round.eq (Dbl.ofNat t))).select
    [Label.THROUGHPUT, Label.RTT, Label.LOSS, Label.HANDOVER]
  tdf.getLabels.foldl
    (fun temp_pred label => temp_pred.setBack (temp_pred.getColumn label) (labelMean tdf label))
    temp_pred

/-- The second half of `updateLocation`: `temp_pred` after the loop
`for(int t = 0; t < MATCH_LENGTH; t++)`, which runs for `t = 0, 1, 2, 3, 4`. -/
def predict (allFrame : DataFrame) (labels : List Label) (time : Dbl) : DataFrame :=
  (List.range 5).foldl (secondStep allFrame time) (DataFrame.empty.setLabels labels)

/-- The method `CarrierEnv::updateLocation`: the state after the call, or `none` on a fault. -/
def updateLocation (P : Platform) (env : CarrierEnv) (lng lat time : Dbl) : Option CarrierEnv :=
  match combinedFrame P env lng lat with
  | none => none
  | some allFrame =>
    some { env with prediction := predict allFrame env.prediction.getLabels time }

/-! ### The specification's words, in binary64 arithmetic -/

/-- The sum of a list of doubles, from the left, starting from zero. -/
def sum (vs : List Dbl) : Dbl := vs.foldl (fun s v => Dbl.fadd s v) 0

/-- The mean as the machine computes it: the sum divided by the count. -/
def mean (vs : List Dbl) : Dbl := Dbl.fdiv (sum vs) (Dbl.ofNat64 vs.length)

/-- The arithmetic mean of a list of rationals: the sum divided by the count. -/
def exactMean (qs : List ℚ) : ℚ := qs.sum / qs.length

/-- The distance of a record to a position. -/
def distanceTo (P : Platform) (loc : Loc_t) (b : Datablock) : Dbl :=
  getDistance P (b Label.LONGTITUDE, b Label.LATITIDE) loc

/-- The distance of every record of a table to a position is a number or an infinity, not
NaN: the comparison of distances is then a strict weak ordering, which `std::sort` requires. -/
def NumericDistances (P : Platform) (loc : Loc_t) (df : DataFrame) : Prop :=
  ∀ b ∈ df.data, (distanceTo P loc b).isNaN = false

/-- The window test of the code: `t0 <= time` and `time < t0 + 5`, the sum a double. -/
def inWindow (t0 : Dbl) (b : Datablock) : Bool :=
  t0.le (b Label.TIME) && (b Label.TIME).lt (Dbl.fadd t0 5)

/-- The rebased record of day `i`: the time replaced by the double `time - t0`, the column
`"day"` holding `i`, every other field unchanged. -/
def rebased (t0 : Dbl) (i : Nat) (b : Datablock) : Datablock :=
  fun l => if l = Label.DAY then Dbl.ofNat64 i
    else if l = Label.TIME then Dbl.fsub (b Label.TIME) t0 else b l

/-- The test of the validity gate on the nearest record: too far away, or not in the cell. -/
def gateRejects (P : Platform) (lng lat : Dbl) (curr_cell : Cid_t) (nearest : Datablock) :
    Bool :=
  (getDistance P (nearest Label.LONGTITUDE, nearest Label.LATITIDE) (lng, lat)).gt
      SAME_LOCATION_THRESHOLD
    || (nearest Label.CELLID).ne (Dbl.ofInt curr_cell)

/-- The row that one pass of the loop over the seconds adds for second `t`. -/
def secondRow (allFrame : DataFrame) (time : Dbl) (t : Nat) : Datablock :=
  let tdf := (allFrame.whereCol Label.TIME (fun v => v.round.eq (Dbl.ofNat t))).select
    [Label.THROUGHPUT, Label.RTT, Label.LOSS, Label.HANDOVER]
  ((((Datablock.set (fun _ => 0) Label.TIME (Dbl.fadd time (Dbl.ofNat t))).set
    Label.THROUGHPUT (labelMean tdf Label.THROUGHPUT)).set
    Label.RTT (labelMean tdf Label.RTT)).set
    Label.LOSS (labelMean tdf Label.LOSS)).set
    Label.HANDOVER (labelMean tdf Label.HANDOVER)

/-- The anchor record of a day: the nearest bounding-box candidate when the day passes the
validity gate, no record when the day has no candidate, when `findNearest` faults, or when the
gate rejects the nearest candidate. -/
def anchor? (P : Platform) (lng lat : Dbl) (curr_cell : Cid_t) (curr_df : DataFrame) :
    Option Datablock :=
  if (block lng lat curr_df).rows = 0 then none
  else
    match findNearest P (lng, lat) (block lng lat curr_df) with
    | none => none
    | some nearest => if gateRejects P lng lat curr_cell nearest then none else some nearest

/-- The rows that day `i` adds to the combined frame: its match window when the day passes the
gate, no row otherwise. -/
def dayRows (P : Platform) (lng lat : Dbl) (curr_cell : Cid_t) (i : Nat) (curr_df : DataFrame) :
    List Datablock :=
  match anchor? P lng lat curr_cell curr_df with
  | none => []
  | some nearest => (next_5sec curr_df (nearest Label.TIME) i).data

/-- The rows that the days from day `i` on add to the combined frame, in order. -/
def allRows (P : Platform) (lng lat : Dbl) (curr_cell : Cid_t) : Nat → List DataFrame →
    List Datablock
  | _, [] => []
  | i, curr_df :: rest =>
    dayRows P lng lat curr_cell i curr_df ++ allRows P lng lat curr_cell (i + 1) rest

end F64

/-! ## What the theorems about distances in binary64 arithmetic assume of libm -/

/-- What the theorems about the distance in binary64 arithmetic assume of libm: `asin 1` is
`pi / 2` to four decimals, the cosine of an angle of at most 2 radians lies in `[-1, 1]`, the
square root of 0 is 0, the square root of NaN is NaN, and a square root is NaN, `+inf` or a
non-negative number. -/
structure Platform.Libm (P : Platform) : Prop where
  asin_one : ∃ p, P.asin 1 = Dbl.fin p ∧ 15707 / 10000 ≤ p ∧ p ≤ 15708 / 10000
  cos_range : ∀ z : ℚ, |z| ≤ 2 → ∃ c, P.cos (Dbl.fin z) = Dbl.fin c ∧ |c| ≤ 1
  sqrt_zero : P.sqrt 0 = 0
  sqrt_nan : P.sqrt Dbl.nan = Dbl.nan
  sqrt_range : ∀ v, P.sqrt v = Dbl.nan ∨ P.sqrt v = Dbl.pinf ∨
    ∃ s, P.sqrt v = Dbl.fin s ∧ 0 ≤ s

/-! ## Example tables of doubles -/

/-- Two candidates at the same distance (about 11 m) from `(0, 0)`: the first 0.0001 degrees
east, the second 0.0001 degrees west. -/
def tieTable64 : DataFrame :=
  ⟨dayLabels, [record 0 (Dbl.lit (1 / 10000)) 0 0 0 0 0 0 0 0 0,
    record 1 (Dbl.lit (-1 / 10000)) 0 0 0 0 0 0 0 0 0]⟩

/-- The table of the seventeen candidates of `tieLongitudes`, each longitude the double
nearest to it; the index of a record is its position. -/
def tieTable17d : DataFrame :=
  ⟨dayLabels, tieLongitudes.enum.map
    (fun p => record (Dbl.ofNat p.1) (Dbl.lit p.2) 0 0 0 0 0 0 0 0 0)⟩

/-- Two candidates with finite coordinates: the first at latitude `1e308`, the second at
`(0, 0)`. -/
def overflowTable : DataFrame :=
  ⟨dayLabels, [record 0 0 (Dbl.lit (10 ^ 308)) 0 0 0 0 0 0 0 0,
    record 1 0 0 0 0 0 0 0 0 0 0]⟩

/-- Two candidates: the first at longitude `2 ^ -700` on the equator, the second at
`(0, 0)`. -/
def underflowTable : DataFrame :=
  ⟨dayLabels, [record 0 (Dbl.fin (1 / 2 ^ 700)) 0 0 0 0 0 0 0 0 0,
    record 1 0 0 0 0 0 0 0 0 0 0]⟩

/-- Three candidates near `(10, 20)`; the second lies at `(10, 20)`. -/
def memberTable64 : DataFrame :=
  ⟨dayLabels, [record 0 (Dbl.lit (100005 / 10000)) 20 0 0 0 0 0 0 0 0,
    record 1 10 20 0 0 0 0 0 0 0 0,
    record 2 10 (Dbl.lit (200004 / 10000)) 0 0 0 0 0 0 0 0]⟩

/-- The indices of the candidates of a table that are nearest to the position, the distances
computed in binary64 arithmetic. -/
def F64.nearestIndices (P : Platform) (loc : Loc_t) (df : DataFrame) : List Dbl :=
  (df.data.filter (fun b => df.data.all
    (fun c => (F64.distanceTo P loc b).le (F64.distanceTo P loc c)))).map
      (fun b => b Label.INDEX)

/-- Two candidates at the latitude `1e308`, the first 0.1 degrees east of the second. -/
def overflowPair : DataFrame :=
  ⟨dayLabels, [record 0 (Dbl.lit (1 / 10)) (Dbl.lit (10 ^ 308)) 0 0 0 0 0 0 0 0,
    record 1 0 (Dbl.lit (10 ^ 308)) 0 0 0 0 0 0 0 0]⟩

/-- A day of doubles whose only record lies about 150 m north of `(10, 20)`, in cell 5. -/
def dayFar64 : DataFrame :=
  ⟨dayLabels, [record 0 10 (Dbl.lit (2000135 / 100000)) 0 50 1 0 0 100 0 5]⟩

/-- A day of doubles whose only record lies about 50 m north of `(10, 20)`, in cell 6. -/
def dayOtherCell64 : DataFrame :=
  ⟨dayLabels, [record 0 10 (Dbl.lit (2000045 / 100000)) 0 50 1 0 0 100 0 6]⟩

/-- A day of doubles whose first record lies about 50 m north of `(10, 20)`, in cell 5, at
time 10; the other records are at times 12.3 and 15. -/
def dayNear64 : DataFrame :=
  ⟨dayLabels, [record 0 10 (Dbl.lit (2000045 / 100000)) 0 50 1 0 0 10 0 5,
    record 1 11 21 0 60 1 0 0 (Dbl.lit (123 / 10)) 0 5,
    record 2 11 21 0 70 1 0 0 15 0 5]⟩

/-- A day whose only record lies 0.1 degrees east of the position `(0, 1e308)`, at the same
latitude `1e308`, in cell 5. -/
def dayHuge : DataFrame :=
  ⟨dayLabels, [record 0 (Dbl.lit (1 / 10)) (Dbl.lit (10 ^ 308)) 0 50 1 0 0 100 0 5]⟩

/-- A day of doubles with records at times 2.653 and 7.653. -/
def dayEdge64 : DataFrame :=
  ⟨dayLabels, [record 0 10 20 0 50 1 0 0 (Dbl.lit (2653 / 1000)) 0 5,
    record 1 10 20 0 60 1 0 0 (Dbl.lit (7653 / 1000)) 0 5]⟩

/-- A day of doubles with records at times 0.1 and 5.1. -/
def dayTenth64 : DataFrame :=
  ⟨dayLabels, [record 0 10 20 0 50 1 0 0 (Dbl.lit (1 / 10)) 0 5,
    record 1 10 20 0 60 1 0 0 (Dbl.lit (51 / 10)) 0 5]⟩

/-- Day 2 of the end-to-end scenario, in doubles: the anchor at `(10.0005, 20.0004)` at time
200, throughput 110 a second later. -/
def dayTwo64 : DataFrame :=
  ⟨dayLabels,
    [record 0 (Dbl.lit (100005 / 10000)) (Dbl.lit (200004 / 10000)) 0 90 3 0 0 200 0 5,
     record 1 (Dbl.lit (100005 / 10000)) (Dbl.lit (200004 / 10000)) 0 110 4 0 0 201 0 5]⟩

/-- The engine of the end-to-end scenario, in doubles, the current cell set to 5. -/
def envTwo64 : CarrierEnv := (CarrierEnv.new [day1, dayTwo64]).updateCell 5

/-- The combined frame of `updateLocation(10.0, 20.0, _)` on `envTwo64`. -/
def frameTwo64 : DataFrame :=
  (F64.combinedFrame refPlatform envTwo64 10 20).getD DataFrame.empty

/-- An engine with three days of one record each, at `(0, 0)` in cell 0 at time 0, with the
throughputs 0.1, 0.2 and 0.3. -/
def envMixed64 : CarrierEnv :=
  CarrierEnv.new [⟨dayLabels, [record 0 0 0 0 (Dbl.lit (1 / 10)) 1 0 0 0 0 0]⟩,
    ⟨dayLabels, [record 0 0 0 0 (Dbl.lit (2 / 10)) 1 0 0 0 0 0]⟩,
    ⟨dayLabels, [record 0 0 0 0 (Dbl.lit (3 / 10)) 1 0 0 0 0 0]⟩]

/-- An engine with three days of one record each, at `(0, 0)` in cell 0 at time 0, each with
the throughput 0.1. -/
def envTenth64 : CarrierEnv :=
  CarrierEnv.new [⟨dayLabels, [record 0 0 0 0 (Dbl.lit (1 / 10)) 1 0 0 0 0 0]⟩,
    ⟨dayLabels, [record 0 0 0 0 (Dbl.lit (1 / 10)) 1 0 0 0 0 0]⟩,
    ⟨dayLabels, [record 0 0 0 0 (Dbl.lit (1 / 10)) 1 0 0 0 0 0]⟩]

/-- The combined frame of `updateLocation(0, 0, _)` on `envThree`, in binary64 arithmetic. -/
def frameThree64 : DataFrame :=
  (F64.combinedFrame refPlatform envThree 0 0).getD DataFrame.empty

/-- A day of doubles whose anchor lies at `(10, 20)` in cell 5 at time 2.653, with records
0.4, 0.5, 4.4, 4.5, 4.7 and 5 seconds (in decimals) after the anchor. -/
def dayLate64 : DataFrame :=
  ⟨dayLabels, [record 0 10 20 0 50 1 0 0 (Dbl.lit (2653 / 1000)) 0 5,
    record 1 11 21 0 60 1 0 0 (Dbl.lit (3053 / 1000)) 0 5,
    record 2 11 21 0 70 1 0 0 (Dbl.lit (3153 / 1000)) 0 5,
    record 3 11 21 0 80 1 0 0 (Dbl.lit (7053 / 1000)) 0 5,
    record 4 11 21 0 90 1 0 0 (Dbl.lit (7153 / 1000)) 0 5,
    record 5 11 21 0 95 1 0 0 (Dbl.lit (7353 / 1000)) 0 5,
    record 6 11 21 0 99 1 0 0 (Dbl.lit (7653 / 1000)) 0 5]⟩

/-- An engine with the day `dayLate64`, the current cell set to 5. -/
def envLate64 : CarrierEnv := (CarrierEnv.new [dayLate64]).updateCell 5

/-- The combined frame of `updateLocation(10, 20, _)` on `envLate64`. -/
def frameLate64 : DataFrame :=
  (F64.combinedFrame refPlatform envLate64 10 20).getD DataFrame.empty

/-- An engine with one day of one record, at `(0, 0)` in cell 0, whose time is `1e17`. -/
def envHugeTime : CarrierEnv :=
  CarrierEnv.new [⟨dayLabels, [record 0 0 0 0 50 1 0 0 (Dbl.lit (10 ^ 17)) 0 0]⟩]

/-- The anchor record of day 1 of the end-to-end scenario, in binary64 arithmetic. -/
def anchorOne64 : Datablock :=
  (F64.anchor? refPlatform 10 20 5 day1).getD (fun _ => 0)

open CarrierEnv

/-! ## Doubles: arithmetic on finite values -/

namespace Dbl

theorem ofNat_lit (n : Nat) : (OfNat.ofNat n : Dbl) = fin (n : ℚ) := rfl

theorem zero_def : (0 : Dbl) = fin 0 := by rw [ofNat_lit]; simp
theorem one_def : (1 : Dbl) = fin 1 := by rw [ofNat_lit]; simp

theorem fin_add (a b : ℚ) : fin a + fin b = fin (a + b) := rfl

theorem fin_sub (a b : ℚ) : fin a - fin b = fin (a - b) := by
  show fin (a + -b) = fin (a - b)
  rw [sub_eq_add_neg]

theorem fin_mul (a b : ℚ) : fin a * fin b = fin (a * b) := rfl

theorem fin_div (a b : ℚ) (hb : b ≠ 0) : fin a / fin b = fin (a / b) := by
  show Dbl.div (fin a) (fin b) = fin (a / b)
  simp [Dbl.div, hb]

end Dbl

theorem Datablock.set_same (b : Datablock) (c : Label) (v : Dbl) : (b.set c v) c = v := by
  simp [Datablock.set]

theorem Datablock.set_other (b : Datablock) (c l : Label) (v : Dbl) (h : l ≠ c) :
    (b.set c v) l = b l := by
  simp [Datablock.set, h]

theorem DataFrame.setBack_append (ls : List Label) (rows : List Datablock) (b : Datablock)
    (c : Label) (v : Dbl) :
    DataFrame.setBack ⟨ls, rows ++ [b]⟩ c v = ⟨ls, rows ++ [b.set c v]⟩ := by
  simp [DataFrame.setBack]

theorem whereCol_time (allFrame : DataFrame) (t : Nat) :
    allFrame.whereCol Label.TIME (fun v => v.round.eq (Dbl.ofNat t)) =
      ⟨allFrame.labels, selected allFrame t⟩ := by
  simp [DataFrame.whereCol, selected, Datablock.get]

/-! ## Finite coordinates and `findNearest` -/

namespace Dbl

theorem isFinite_iff (a : Dbl) : a.isFinite = true ↔ ∃ q, a = fin q := by
  cases a <;> simp [isFinite]

theorem finite_of_fabs_sub_lt (a b e : Dbl) (h : (fabs (a - b)).lt e = true) :
    a.isFinite = true ∧ b.isFinite = true := by
  have hs : ∀ x y : Dbl, x - y = Dbl.add x (Dbl.neg y) := fun _ _ => rfl
  cases a <;> cases b <;> cases e <;>
    simp_all [isFinite, hs, Dbl.add, Dbl.neg, fabs, lt]

theorem eq_self_of_finite (a : Dbl) (h : a.isFinite = true) : a.eq a = true := by
  cases a <;> simp_all [isFinite, Dbl.eq]

theorem eq_iff_of_finite (a b : Dbl) (h : a.isFinite = true) : a.eq b = true ↔ a = b := by
  cases a <;> cases b <;> simp_all [isFinite, Dbl.eq]

end Dbl

theorem getDistance_fin (P : Platform) (hP : P.Conforming) (a b c d : ℚ) :
    ∃ s, getDistance P (Dbl.fin a, Dbl.fin b) (Dbl.fin c, Dbl.fin d) = Dbl.fin s ∧ 0 ≤ s := by
  obtain ⟨p, hp⟩ := hP.asin_one
  obtain ⟨k, hk⟩ := hP.cos_fin (((2 : ℕ) : ℚ) * p * b / ((180 : ℕ) : ℚ))
  have hp' : P.asin (Dbl.fin ((1 : ℕ) : ℚ)) = Dbl.fin p := hp
  have h360 : ((360 : ℕ) : ℚ) ≠ 0 := by norm_num
  have h180 : ((180 : ℕ) : ℚ) ≠ 0 := by norm_num
  have key : ∀ x y : ℚ, ∃ s, P.sqrt (Dbl.fin (x * x + y * y)) = Dbl.fin s ∧ 0 ≤ s :=
    fun x y => hP.sqrt_fin _ (by nlinarith [mul_self_nonneg x, mul_self_nonneg y])
  simp only [getDistance, Dbl.ofNat_lit, hp', Dbl.fin_mul, Dbl.fin_sub, Dbl.fin_div _ _ h360,
    Dbl.fin_div _ _ h180, Dbl.fin_add, hk]
  exact key _ _


namespace Dbl
theorem le_of_not_lt_fin (a b : ℚ) (h : (fin a).lt (fin b) = false) : (fin b).le (fin a) = true := by
  simp [lt, le] at *
  exact h
end Dbl

theorem strictWeakOn_of_key (cmp : Loc_t → Loc_t → Bool) (l : List Loc_t) (key : Loc_t → ℚ)
    (h : ∀ a ∈ l, ∀ b ∈ l, cmp a b = decide (key a < key b)) : StrictWeakOn cmp l := by
  refine ⟨?_, ?_, ?_⟩
  · intro a ha
    simp [h a ha a ha]
  · intro a ha b hb c hc hab hbc
    rw [h a ha b hb] at hab
    rw [h b hb c hc] at hbc
    rw [h a ha c hc]
    simp at *
    exact lt_trans hab hbc
  · intro a ha b hb c hc hab hba hbc hcb
    rw [h a ha b hb] at hab
    rw [h b hb a ha] at hba
    rw [h b hb c hc] at hbc
    rw [h c hc b hb] at hcb
    rw [h a ha c hc, h c hc a ha]
    simp at *
    constructor <;> linarith

theorem locCmp_strictWeakOn (P : Platform) (hP : P.Conforming) (x y : ℚ) (l : List Loc_t)
    (hl : ∀ a ∈ l, a.1.isFinite = true ∧ a.2.isFinite = true) :
    StrictWeakOn (LocCmp P (Dbl.fin x, Dbl.fin y)) l := by
  apply strictWeakOn_of_key _ _ (fun a => finiteValue (getDistance P a (Dbl.fin x, Dbl.fin y)))
  intro a ha b hb
  obtain ⟨a1, a2⟩ := a
  obtain ⟨b1, b2⟩ := b
  obtain ⟨ha1, ha2⟩ := hl _ ha
  obtain ⟨hb1, hb2⟩ := hl _ hb
  obtain ⟨p, rfl⟩ := (Dbl.isFinite_iff _).1 ha1
  obtain ⟨q, rfl⟩ := (Dbl.isFinite_iff _).1 ha2
  obtain ⟨r, rfl⟩ := (Dbl.isFinite_iff _).1 hb1
  obtain ⟨s, rfl⟩ := (Dbl.isFinite_iff _).1 hb2
  obtain ⟨da, hda, -⟩ := getDistance_fin P hP p q x y
  obtain ⟨db, hdb, -⟩ := getDistance_fin P hP r s x y
  simp [LocCmp, hda, hdb, finiteValue, Dbl.lt]

theorem findNearest_spec (P : Platform) (hP : P.Conforming) (x y : ℚ) (df : DataFrame)
    (hne : df.data ≠ []) (hfin : FiniteCoords df) :
    ∃ pre b post, df.data = pre ++ b :: post ∧
      findNearest P (Dbl.fin x, Dbl.fin y) df = some b ∧
      (∀ c ∈ df.data,
        (distanceTo P (Dbl.fin x, Dbl.fin y) b).le (distanceTo P (Dbl.fin x, Dbl.fin y) c) = true) ∧
      (∀ c ∈ pre, ¬ (c Label.LONGTITUDE = b Label.LONGTITUDE ∧
        c Label.LATITIDE = b Label.LATITIDE)) := by
  set vec : List Loc_t := df.data.map (fun v => (v Label.LONGTITUDE, v Label.LATITIDE)) with hvec
  have hvfin : ∀ a ∈ vec, a.1.isFinite = true ∧ a.2.isFinite = true := by
    intro a ha
    obtain ⟨v, hv, rfl⟩ := List.mem_map.1 ha
    exact hfin v hv
  have hsw := locCmp_strictWeakOn P hP x y vec hvfin
  have hperm := hP.sort_perm _ _ hsw
  have hsorted := hP.sort_sorted _ _ hsw
  have hfn : findNearest P (Dbl.fin x, Dbl.fin y) df =
      match P.sort (LocCmp P (Dbl.fin x, Dbl.fin y)) vec with
      | [] => none
      | target :: _ =>
        match df.data.filter (fun b => (b Label.LONGTITUDE).eq target.1 &&
          (b Label.LATITIDE).eq target.2) with
        | [] => none
        | b :: _ => some b := rfl
  rw [hfn]
  cases hs : P.sort (LocCmp P (Dbl.fin x, Dbl.fin y)) vec with
  | nil =>
    rw [hs] at hperm
    have := hperm.length_eq
    simp only [hvec, List.length_nil, List.length_map] at this
    exact absurd (List.length_eq_zero.1 this.symm) hne
  | cons target rest =>
    rw [hs] at hperm hsorted
    have htv : target ∈ vec := hperm.subset (List.mem_cons_self _ _)
    obtain ⟨b0, hb0, hb0t⟩ := List.mem_map.1 htv
    have htfin := hvfin target htv
    have hp0 : (fun b : Datablock => (b Label.LONGTITUDE).eq target.1 &&
        (b Label.LATITIDE).eq target.2) b0 = true := by
      simp only [← hb0t]
      simp [Dbl.eq_self_of_finite _ (hfin b0 hb0).1, Dbl.eq_self_of_finite _ (hfin b0 hb0).2]
    cases hf : df.data.filter (fun b => (b Label.LONGTITUDE).eq target.1 &&
        (b Label.LATITIDE).eq target.2) with
    | nil =>
      have : b0 ∈ df.data.filter (fun b => (b Label.LONGTITUDE).eq target.1 &&
        (b Label.LATITIDE).eq target.2) := List.mem_filter.2 ⟨hb0, hp0⟩
      rw [hf] at this
      exact absurd this (List.not_mem_nil _)
    | cons b bs =>
      obtain ⟨pre, post, hsplit, hpre, hpb, -⟩ := List.filter_eq_cons_iff.1 hf
      have hbmem : b ∈ df.data := by rw [hsplit]; simp
      have hbfin := hfin b hbmem
      simp only [Bool.and_eq_true] at hpb
      have hb1 : b Label.LONGTITUDE = target.1 := (Dbl.eq_iff_of_finite _ _ hbfin.1).1 hpb.1
      have hb2 : b Label.LATITIDE = target.2 := (Dbl.eq_iff_of_finite _ _ hbfin.2).1 hpb.2
      refine ⟨pre, b, post, hsplit, ?_, ?_, ?_⟩
      · simp only [hf]
      · intro c hc
        have hcv : (c Label.LONGTITUDE, c Label.LATITIDE) ∈ vec :=
          List.mem_map.2 ⟨c, hc, rfl⟩
        have hcs : (c Label.LONGTITUDE, c Label.LATITIDE) ∈ target :: rest :=
          hperm.symm.subset hcv
        have hcmp : LocCmp P (Dbl.fin x, Dbl.fin y) (c Label.LONGTITUDE, c Label.LATITIDE)
            target = false := by
          rcases List.mem_cons.1 hcs with h | h
          · rw [h]; exact hsw.irrefl _ htv
          · exact (List.pairwise_cons.1 hsorted).1 _ h
        have hcfin := hfin c hc
        obtain ⟨p, hp⟩ := (Dbl.isFinite_iff _).1 hcfin.1
        obtain ⟨q, hq⟩ := (Dbl.isFinite_iff _).1 hcfin.2
        obtain ⟨r, hr⟩ := (Dbl.isFinite_iff _).1 hbfin.1
        obtain ⟨s, hs'⟩ := (Dbl.isFinite_iff _).1 hbfin.2
        obtain ⟨dc, hdc, -⟩ := getDistance_fin P hP p q x y
        obtain ⟨db, hdb, -⟩ := getDistance_fin P hP r s x y
        have ht : target = (Dbl.fin r, Dbl.fin s) := by
          rw [← hr, ← hs', hb1, hb2]
        simp only [distanceTo, hp, hq, hr, hs', hdc, hdb]
        rw [ht, hp, hq] at hcmp
        simp only [LocCmp, hdc, hdb] at hcmp
        exact Dbl.le_of_not_lt_fin _ _ hcmp
      · intro c hc hcb
        have := hpre c hc
        apply this
        have hcfin := hfin c (by rw [hsplit]; simp [hc])
        simp only [Bool.and_eq_true]
        rw [← hb1, ← hb2, ← hcb.1, ← hcb.2]
        exact ⟨Dbl.eq_self_of_finite _ hcfin.1, Dbl.eq_self_of_finite _ hcfin.2⟩

/-! ## The day loop -/

theorem block_finite (lng lat : Dbl) (day : DataFrame) :
    ∀ b ∈ (block lng lat day).data, (lng.isFinite = true ∧ lat.isFinite = true) ∧
      (b Label.LONGTITUDE).isFinite = true ∧ (b Label.LATITIDE).isFinite = true := by
  intro b hb
  simp only [block, DataFrame.where_, DataFrame.getColumn, Datablock.get, List.mem_filter,
    Bool.and_eq_true] at hb
  obtain ⟨-, h1, h2⟩ := hb
  have f1 := Dbl.finite_of_fabs_sub_lt _ _ _ h1
  have f2 := Dbl.finite_of_fabs_sub_lt _ _ _ h2
  exact ⟨⟨f1.1, f2.1⟩, f1.2, f2.2⟩

theorem dayStep_of_nearest (P : Platform) (lng lat : Dbl) (cell : Cid_t) (allFrame : DataFrame)
    (i : Nat) (day : DataFrame) (nearest : Datablock)
    (hne : (block lng lat day).rows ≠ 0)
    (hnear : findNearest P (lng, lat) (block lng lat day) = some nearest) :
    dayStep P lng lat cell allFrame i day =
      if gateRejects P lng lat cell nearest = true then some allFrame
      else some (allFrame.extend (next_5sec day (nearest Label.TIME) i)) := by
  simp only [dayStep, hne, hnear, if_false, gateRejects, DataFrame.getColumn, Datablock.get]

theorem findNearest_block (P : Platform) (hP : P.Conforming) (lng lat : Dbl) (day : DataFrame)
    (hne : (block lng lat day).rows ≠ 0) :
    ∃ nearest ∈ (block lng lat day).data,
      findNearest P (lng, lat) (block lng lat day) = some nearest ∧
      ∀ c ∈ (block lng lat day).data,
        (distanceTo P (lng, lat) nearest).le (distanceTo P (lng, lat) c) = true := by
  have hdata : (block lng lat day).data ≠ [] := by
    intro h
    exact hne (by simp [DataFrame.rows, h])
  obtain ⟨b0, hb0⟩ := List.exists_mem_of_ne_nil _ hdata
  obtain ⟨⟨hlng, hlat⟩, -⟩ := block_finite lng lat day b0 hb0
  obtain ⟨x, rfl⟩ := (Dbl.isFinite_iff _).1 hlng
  obtain ⟨y, rfl⟩ := (Dbl.isFinite_iff _).1 hlat
  have hfin : FiniteCoords (block (Dbl.fin x) (Dbl.fin y) day) :=
    fun b hb => (block_finite _ _ day b hb).2
  obtain ⟨pre, b, post, hsplit, hfn, hmin, -⟩ := findNearest_spec P hP x y _ hdata hfin
  exact ⟨b, by rw [hsplit]; simp, hfn, hmin⟩

theorem dayStep_total (P : Platform) (hP : P.Conforming) (lng lat : Dbl) (cell : Cid_t)
    (allFrame : DataFrame) (i : Nat) (day : DataFrame) :
    ∃ next, dayStep P lng lat cell allFrame i day = some next := by
  by_cases hne : (block lng lat day).rows = 0
  · exact ⟨allFrame, by simp [dayStep, hne]⟩
  · obtain ⟨nearest, -, hnear, -⟩ := findNearest_block P hP lng lat day hne
    rw [dayStep_of_nearest P lng lat cell allFrame i day nearest hne hnear]
    by_cases hg : gateRejects P lng lat cell nearest = true
    · exact ⟨_, by rw [if_pos hg]⟩
    · exact ⟨_, by rw [if_neg hg]⟩

theorem dayLoop_total (P : Platform) (hP : P.Conforming) (lng lat : Dbl) (cell : Cid_t)
    (days : List DataFrame) :
    ∀ (i : Nat) (allFrame : DataFrame),
      ∃ out, dayLoop P lng lat cell i days allFrame = some out := by
  induction days with
  | nil => intro i allFrame; exact ⟨allFrame, rfl⟩
  | cons day rest ih =>
    intro i allFrame
    obtain ⟨next, hnext⟩ := dayStep_total P hP lng lat cell allFrame i day
    obtain ⟨out, hout⟩ := ih (i + 1) next
    exact ⟨out, by simp [dayLoop, hnext, hout]⟩

theorem combinedFrame_total (P : Platform) (hP : P.Conforming) (env : CarrierEnv)
    (hdf : env.df ≠ []) (lng lat : Dbl) :
    ∃ allFrame, combinedFrame P env lng lat = some allFrame := by
  cases hd : env.df with
  | nil => exact absurd hd hdf
  | cons df0 rest =>
    obtain ⟨out, hout⟩ := dayLoop_total P hP lng lat env.current_cell (df0 :: rest) 0
      ((DataFrame.empty.setLabels df0.getLabels).addColumn Label.DAY 0)
    exact ⟨out, by simp [combinedFrame, hd, hout]⟩

theorem updateLocation_of_frame (P : Platform) (env : CarrierEnv) (lng lat time : Dbl)
    (allFrame : DataFrame) (h : combinedFrame P env lng lat = some allFrame) :
    updateLocation P env lng lat time =
      some { env with prediction := predict allFrame env.prediction.labels time } := by
  simp [updateLocation, h, DataFrame.getLabels]

/-! ## The reference platforms conform -/

theorem orderedInsert_perm (cmp : Loc_t → Loc_t → Bool) (x : Loc_t) (l : List Loc_t) :
    (orderedInsert cmp x l).Perm (x :: l) := by
  induction l with
  | nil => exact List.Perm.refl _
  | cons y ys ih =>
    simp only [orderedInsert]
    split
    · exact List.Perm.refl _
    · exact (List.Perm.cons y ih).trans (List.Perm.swap x y ys)

theorem insertionSort_foldl_perm (cmp : Loc_t → Loc_t → Bool) (l : List Loc_t) :
    ∀ acc : List Loc_t,
      (l.foldl (fun acc x => orderedInsert cmp x acc) acc).Perm (acc ++ l) := by
  induction l with
  | nil => intro acc; simp
  | cons x xs ih =>
    intro acc
    simp only [List.foldl_cons]
    refine (ih _).trans ?_
    have h1 : (orderedInsert cmp x acc ++ xs).Perm ((x :: acc) ++ xs) :=
      List.Perm.append_right xs (orderedInsert_perm cmp x acc)
    refine h1.trans ?_
    simpa using (@List.perm_middle _ x acc xs).symm

theorem insertionSort_perm (cmp : Loc_t → Loc_t → Bool) (l : List Loc_t) :
    (insertionSort cmp l).Perm l := by
  simpa [insertionSort] using insertionSort_foldl_perm cmp l []

theorem orderedInsert_sorted (cmp : Loc_t → Loc_t → Bool) (S : List Loc_t)
    (hS : StrictWeakOn cmp S) (x : Loc_t) (hx : x ∈ S) (l : List Loc_t) (hl : ∀ a ∈ l, a ∈ S)
    (hsorted : l.Pairwise (fun a b => cmp b a = false)) :
    (orderedInsert cmp x l).Pairwise (fun a b => cmp b a = false) := by
  induction l with
  | nil => simp [orderedInsert]
  | cons y ys ih =>
    have hy : y ∈ S := hl y (List.mem_cons_self _ _)
    have hys : ∀ a ∈ ys, a ∈ S := fun a ha => hl a (List.mem_cons_of_mem _ ha)
    obtain ⟨hhead, htail⟩ := List.pairwise_cons.1 hsorted
    simp only [orderedInsert]
    by_cases hxy : cmp x y = true
    · rw [if_pos hxy]
      refine List.pairwise_cons.2 ⟨?_, hsorted⟩
      intro z hz
      cases hzx : cmp z x with
      | false => rfl
      | true =>
        have hzS : z ∈ S := hl z hz
        have hzy : cmp z y = true := hS.trans z hzS x hx y hy hzx hxy
        rcases List.mem_cons.1 hz with h | h
        · rw [h, hS.irrefl y hy] at hzy
          exact absurd hzy (by simp)
        · rw [hhead z h] at hzy
          exact absurd hzy (by simp)
    · rw [if_neg hxy]
      refine List.pairwise_cons.2 ⟨?_, ih hys htail⟩
      intro z hz
      have hz' : z ∈ x :: ys := (orderedInsert_perm cmp x ys).subset hz
      rcases List.mem_cons.1 hz' with h | h
      · rw [h]; simpa using hxy
      · exact hhead z h

theorem insertionSort_foldl_sorted (cmp : Loc_t → Loc_t → Bool) (S : List Loc_t)
    (hS : StrictWeakOn cmp S) (l : List Loc_t) (hl : ∀ a ∈ l, a ∈ S) :
    ∀ acc : List Loc_t, (∀ a ∈ acc, a ∈ S) → acc.Pairwise (fun a b => cmp b a = false) →
      (l.foldl (fun acc x => orderedInsert cmp x acc) acc).Pairwise
        (fun a b => cmp b a = false) := by
  induction l with
  | nil => intro acc _ h; simpa using h
  | cons x xs ih =>
    intro acc hacc hsorted
    simp only [List.foldl_cons]
    have hx : x ∈ S := hl x (List.mem_cons_self _ _)
    apply ih (fun a ha => hl a (List.mem_cons_of_mem _ ha))
    · intro a ha
      rcases List.mem_cons.1 ((orderedInsert_perm cmp x acc).subset ha) with h | h
      · rw [h]; exact hx
      · exact hacc a h
    · exact orderedInsert_sorted cmp S hS x hx acc hacc hsorted

theorem insertionSort_sorted (cmp : Loc_t → Loc_t → Bool) (S l : List Loc_t)
    (hS : StrictWeakOn cmp S) (hl : ∀ a ∈ l, a ∈ S) :
    (insertionSort cmp l).Pairwise (fun a b => cmp b a = false) :=
  insertionSort_foldl_sorted cmp S hS l hl [] (by simp) List.Pairwise.nil

theorem refSqrt_fin (q : ℚ) (hq : 0 ≤ q) : ∃ s, refSqrt (Dbl.fin q) = Dbl.fin s ∧ 0 ≤ s := by
  refine ⟨(isqrt ⌊q * 10 ^ 12⌋.toNat : ℚ) / 10 ^ 6, ?_, by positivity⟩
  simp [refSqrt, not_lt.2 hq]

theorem refPlatform_conforming : refPlatform.Conforming where
  asin_one := ⟨_, rfl⟩
  cos_fin := fun _ => ⟨_, rfl⟩
  sqrt_fin := refSqrt_fin
  sort_perm := fun cmp l _ => insertionSort_perm cmp l
  sort_sorted := fun cmp l h => insertionSort_sorted cmp l l h (fun _ ha => ha)

/-! ## The rows of the prediction -/

theorem updateLocation_frame (P : Platform) (env : CarrierEnv) (lng lat time : Dbl)
    (allFrame : DataFrame) (h : combinedFrame P env lng lat = some allFrame) :
    ∃ env', updateLocation P env lng lat time = some env' ∧
      env'.prediction = predict allFrame env.prediction.labels time ∧
      env'.df = env.df ∧ env'.current_cell = env.current_cell := by
  refine ⟨{ env with prediction := predict allFrame env.prediction.labels time }, ?_, ?_, ?_, ?_⟩
  · exact updateLocation_of_frame P env lng lat time allFrame h
  · simp only
  · simp only
  · simp only

theorem eq_some_getD_of_isSome {α : Type} (o : Option α) (d : α) (h : o.isSome = true) :
    o = some (o.getD d) := by
  cases o <;> simp_all

theorem ne_nil_of_length_pos {α : Type} (l : List α) (h : 0 < l.length) : l ≠ [] := by
  intro hl
  rw [hl] at h
  exact absurd h (by simp)

namespace Dbl

theorem lt_false_of_le (a b : Dbl) (h : a.le b = true) : b.lt a = false := by
  cases a <;> cases b <;> simp_all [Dbl.le, Dbl.lt]

theorem ne_false_of_eq (a b : Dbl) (h : a.eq b = true) : a.ne b = false := by
  simp [Dbl.ne, h]

theorem lt_irrefl (a : Dbl) : a.lt a = false := by
  cases a <;> simp [Dbl.lt]

end Dbl

namespace Dbl

end Dbl

theorem castIndicator_cases (v : Dbl) : castIndicator v = Dbl.fin 0 ∨ castIndicator v = Dbl.fin 1 := by
  simp only [castIndicator, notnot]
  split <;> simp [Dbl.ofInt]

/-- C8 (the code's fault): an engine constructed from no file has no day dataset, and every
call of `updateLocation` on it faults: `this->df[0]` is read out of bounds while the labels of
the combined frame are set. -/
theorem updateLocation_no_day_fault (P : Platform) (lng lat time : Dbl) :
    (CarrierEnv.new []).df = [] ∧
    updateLocation P (CarrierEnv.new []) lng lat time = none := by
  simp [updateLocation, combinedFrame, CarrierEnv.new]

/-- With at least one day dataset, on a conforming platform, `updateLocation` completes: every
index it performs is in bounds and a prediction is published. -/
theorem updateLocation_total (P : Platform) (hP : P.Conforming) (env : CarrierEnv)
    (hdf : env.df ≠ []) (lng lat time : Dbl) :
    ∃ env', updateLocation P env lng lat time = some env' := by
  obtain ⟨allFrame, hframe⟩ := combinedFrame_total P hP env hdf lng lat
  obtain ⟨env', h, -⟩ := updateLocation_frame P env lng lat time allFrame hframe
  exact ⟨env', h⟩

/-! ## The prediction snapshot -/

namespace Lock

theorem core_readerStep (s : State) :
    core (readerStep s) = core (readerStep (ofCore (core s))) := by
  cases s
  simp only [readerStep, core, ofCore]
  split_ifs <;> rfl

theorem core_writerStep (t : List Nat) (s : State) :
    core (writerStep t s) = core (writerStep t (ofCore (core s))) := by
  cases s
  simp only [writerStep, core, ofCore]
  split_ifs <;> rfl

theorem reachable_closed : ∀ c ∈ reachable,
    core (readerStep (ofCore c)) ∈ reachable ∧
      core (writerStep newRows (ofCore c)) ∈ reachable := by
  decide!

theorem reachable_ret : ∀ c ∈ reachable,
    7 ≤ c.readerPc → c.ret = oldRows ∨ c.ret = newRows := by
  decide!

theorem reachable_init : core (init oldRows) ∈ reachable := by
  decide!

theorem run_reachable (sched : List Thread) :
    ∀ s, core s ∈ reachable → core (run newRows sched s) ∈ reachable := by
  induction sched with
  | nil => intro s h; exact h
  | cons t rest ih =>
    intro s h
    cases t with
    | reader =>
      apply ih
      rw [core_readerStep]
      exact (reachable_closed _ h).1
    | writer =>
      apply ih
      rw [core_writerStep]
      exact (reachable_closed _ h).2

theorem ret_of_reachable (s : State) (hs : core s ∈ reachable) (h : 7 ≤ s.readerPc) :
    s.ret = oldRows ∨ s.ret = newRows := by
  have := reachable_ret (core s) hs
  simp only [core] at this
  exact this h

theorem locked_copy_whole (sched : List Thread)
    (h : 7 ≤ (run newRows sched (init oldRows)).readerPc) :
    (run newRows sched (init oldRows)).ret = oldRows ∨
      (run newRows sched (init oldRows)).ret = newRows :=
  ret_of_reachable _ (run_reachable sched _ reachable_init) h

end Lock

/-- C10 (the code's fault): the table `getPrediction` returns is copied from
`this->prediction` after the lock is released.  In the schedule `tornSchedule` both calls run
to their end, the copy `ret` made under the lock is the old snapshot, and the returned table
holds the first row of the old snapshot followed by four rows of the new one.  The copy made
under the lock is whole in every schedule: once the reader has released the lock, `ret` is the
old snapshot or the new one. -/
theorem getPrediction_torn_read :
    (Lock.run Lock.newRows Lock.tornSchedule (Lock.init Lock.oldRows)).readerPc = 12 ∧
    (Lock.run Lock.newRows Lock.tornSchedule (Lock.init Lock.oldRows)).writerPc = 7 ∧
    (Lock.run Lock.newRows Lock.tornSchedule (Lock.init Lock.oldRows)).prediction =
      [20, 21, 22, 23, 24] ∧
    (Lock.run Lock.newRows Lock.tornSchedule (Lock.init Lock.oldRows)).ret =
      [10, 11, 12, 13, 14] ∧
    (Lock.run Lock.newRows Lock.tornSchedule (Lock.init Lock.oldRows)).returned =
      [10, 21, 22, 23, 24] ∧
    ∀ sched : List Lock.Thread,
      7 ≤ (Lock.run Lock.newRows sched (Lock.init Lock.oldRows)).readerPc →
      (Lock.run Lock.newRows sched (Lock.init Lock.oldRows)).ret = Lock.oldRows ∨
        (Lock.run Lock.newRows sched (Lock.init Lock.oldRows)).ret = Lock.newRows :=
  ⟨by decide, by decide, by decide, by decide, by decide, Lock.locked_copy_whole⟩

/-! ## The rows of the combined frame -/

theorem env7_df_ne_nil : env7.df ≠ [] := by
  simp [env7, CarrierEnv.new, CarrierEnv.updateCell]

theorem roundHalfAway_eq_iff (q : ℚ) (hq : 0 ≤ q) (t : Nat) :
    (t : Int) = Dbl.roundHalfAway q ↔ (t : ℚ) - 1 / 2 ≤ q ∧ q < t + 1 / 2 := by
  simp only [Dbl.roundHalfAway, hq, if_true]
  rw [eq_comm, Int.floor_eq_iff]
  push_cast
  constructor
  · rintro ⟨h1, h2⟩; exact ⟨by linarith, by linarith⟩
  · rintro ⟨h1, h2⟩; exact ⟨by linarith, by linarith⟩

theorem mem_selected (allFrame : DataFrame) (r : Datablock) (hr : r ∈ allFrame.data) (q : ℚ)
    (hq : r Label.TIME = Dbl.fin q) (t : Nat) :
    r ∈ selected allFrame t ↔ (t : Int) = Dbl.roundHalfAway q := by
  simp only [selected, List.mem_filter, hr, true_and, hq, Dbl.round, Dbl.ofNat, Dbl.eq,
    decide_eq_true_eq]
  constructor
  · intro h
    have : ((Dbl.roundHalfAway q : Int) : ℚ) = ((t : Int) : ℚ) := by simpa using h
    exact (Int.cast_injective this).symm
  · intro h
    rw [← h]
    simp

/-! ## Constant lists -/

theorem eq_replicate_of_const (vs : List Dbl) (v : Dbl) (h : ∀ w ∈ vs, w = v) :
    vs = List.replicate vs.length v :=
  List.eq_replicate_iff.2 ⟨rfl, h⟩

/-! ## The bounding-box filter and the distance of 100 m -/

namespace Dbl

end Dbl

namespace Dbl

theorem log2Fuel_spec : ∀ fuel n : Nat, 1 ≤ n → n ≤ fuel →
    2 ^ log2Fuel fuel n ≤ n ∧ n < 2 ^ (log2Fuel fuel n + 1) := by
  intro fuel
  induction fuel with
  | zero => intro n h1 h2; omega
  | succ fuel ih =>
    intro n h1 h2
    by_cases hn : n < 2
    · have : n = 1 := by omega
      subst this
      simp [log2Fuel]
    · simp only [log2Fuel, hn, if_false]
      obtain ⟨ha, hb⟩ := ih (n / 2) (by omega) (by omega)
      constructor
      · rw [pow_succ]; omega
      · rw [pow_succ]; omega

theorem pow2_eq_zpow (e : Int) : pow2 e = (2 : ℚ) ^ e := by
  unfold pow2
  split_ifs with h
  · conv_rhs => rw [← Int.toNat_of_nonneg h]
    rw [zpow_natCast]
  · have h' : 0 ≤ -e := by omega
    have : e = -((-e).toNat : Int) := by rw [Int.toNat_of_nonneg h']; ring
    conv_rhs => rw [this]
    rw [zpow_neg, zpow_natCast, one_div]

theorem pow2_pos (e : Int) : 0 < pow2 e := by
  rw [pow2_eq_zpow]; positivity

theorem pow2_le (a b : Int) (h : a ≤ b) : pow2 a ≤ pow2 b := by
  rw [pow2_eq_zpow, pow2_eq_zpow]
  exact zpow_le_zpow_right₀ (by norm_num) h

theorem pow2_lt (a b : Int) (h : a < b) : pow2 a < pow2 b := by
  rw [pow2_eq_zpow, pow2_eq_zpow]
  exact zpow_lt_zpow_right₀ (by norm_num) h

theorem pow2_add (a b : Int) : pow2 (a + b) = pow2 a * pow2 b := by
  rw [pow2_eq_zpow, pow2_eq_zpow, pow2_eq_zpow, zpow_add₀ (by norm_num)]

theorem pow2_natCast (n : Nat) : pow2 (n : Int) = (2 : ℚ) ^ n := by
  rw [pow2_eq_zpow, zpow_natCast]

theorem floorLog2_spec (q : ℚ) (hq : 0 < q) :
    pow2 (floorLog2 q) ≤ q ∧ q < pow2 (floorLog2 q + 1) := by
  have hnum : 0 < q.num := Rat.num_pos.2 hq
  have ha1 : 1 ≤ q.num.toNat := by omega
  have hb1 : 1 ≤ q.den := q.den_pos
  obtain ⟨ha, ha'⟩ := log2Fuel_spec q.num.toNat q.num.toNat ha1 (le_refl _)
  obtain ⟨hb, hb'⟩ := log2Fuel_spec q.den q.den hb1 (le_refl _)
  set la := log2Fuel q.num.toNat q.num.toNat with hla
  set lb := log2Fuel q.den q.den with hlb
  have hqe : q = (q.num.toNat : ℚ) / (q.den : ℚ) := by
    have h1 : ((q.num.toNat : Int) : ℚ) = (q.num : ℚ) := by
      rw [Int.toNat_of_nonneg (le_of_lt hnum)]
    have h2 : ((q.num.toNat : Nat) : ℚ) = (q.num : ℚ) := by exact_mod_cast h1
    rw [h2]
    exact (Rat.num_div_den q).symm
  have hden : (0 : ℚ) < q.den := by exact_mod_cast hb1
  have haQ : (2 : ℚ) ^ la ≤ (q.num.toNat : ℚ) := by exact_mod_cast ha
  have haQ' : (q.num.toNat : ℚ) < (2 : ℚ) ^ (la + 1) := by exact_mod_cast ha'
  have hbQ : (2 : ℚ) ^ lb ≤ (q.den : ℚ) := by exact_mod_cast hb
  have hbQ' : (q.den : ℚ) < (2 : ℚ) ^ (lb + 1) := by exact_mod_cast hb'
  have hlow : pow2 ((la : Int) - lb - 1) < q := by
    have : pow2 ((la : Int) - lb - 1) = (2 : ℚ) ^ la / (2 : ℚ) ^ (lb + 1) := by
      rw [pow2_eq_zpow, show ((la : Int) - lb - 1) = (la : Int) - ((lb + 1 : Nat) : Int) by
        push_cast; ring, zpow_sub₀ (by norm_num), zpow_natCast, zpow_natCast]
    rw [this, hqe, div_lt_div_iff (by positivity) hden]
    calc (2 : ℚ) ^ la * (q.den : ℚ) < (2 : ℚ) ^ la * (2 : ℚ) ^ (lb + 1) := by
          apply mul_lt_mul_of_pos_left hbQ' (by positivity)
      _ ≤ (q.num.toNat : ℚ) * (2 : ℚ) ^ (lb + 1) := by
          apply mul_le_mul_of_nonneg_right haQ (by positivity)
  have hhigh : q < pow2 ((la : Int) - lb + 1) := by
    have : pow2 ((la : Int) - lb + 1) = (2 : ℚ) ^ (la + 1) / (2 : ℚ) ^ lb := by
      rw [pow2_eq_zpow, show ((la : Int) - lb + 1) = ((la + 1 : Nat) : Int) - (lb : Int) by
        push_cast; ring, zpow_sub₀ (by norm_num), zpow_natCast, zpow_natCast]
    rw [this, hqe, div_lt_div_iff hden (by positivity)]
    calc (q.num.toNat : ℚ) * (2 : ℚ) ^ lb < (2 : ℚ) ^ (la + 1) * (2 : ℚ) ^ lb := by
          apply mul_lt_mul_of_pos_right haQ' (by positivity)
      _ ≤ (2 : ℚ) ^ (la + 1) * (q.den : ℚ) := by
          apply mul_le_mul_of_nonneg_left hbQ (by positivity)
  unfold floorLog2
  simp only [← hla, ← hlb]
  split_ifs with h
  · exact ⟨h, hhigh⟩
  · refine ⟨le_of_lt hlow, ?_⟩
    rw [sub_add_cancel]
    exact not_le.1 h

end Dbl

namespace Dbl

theorem roundHalfEven_mono (x y : ℚ) (h : x ≤ y) : roundHalfEven x ≤ roundHalfEven y := by
  have hfl : ⌊x⌋ ≤ ⌊y⌋ := Int.floor_mono h
  have hx1 : roundHalfEven x ≤ ⌊x⌋ + 1 := by unfold roundHalfEven; split_ifs <;> omega
  have hy0 : ⌊y⌋ ≤ roundHalfEven y := by unfold roundHalfEven; split_ifs <;> omega
  rcases lt_or_eq_of_le hfl with hlt | heq
  · omega
  · have hfr : x - ⌊x⌋ ≤ y - ⌊y⌋ := by rw [heq]; linarith
    unfold roundHalfEven
    rw [heq]
    split_ifs <;> first | omega | (exfalso; linarith)

theorem roundHalfEven_int (n : Int) : roundHalfEven (n : ℚ) = n := by
  unfold roundHalfEven
  simp

theorem roundHalfEven_le (x : ℚ) (n : Int) (h : x ≤ n) : roundHalfEven x ≤ n := by
  have := roundHalfEven_mono x n h
  rwa [roundHalfEven_int] at this

theorem le_roundHalfEven (x : ℚ) (n : Int) (h : (n : ℚ) ≤ x) : n ≤ roundHalfEven x := by
  have := roundHalfEven_mono n x h
  rwa [roundHalfEven_int] at this

theorem roundPos_nonneg (q : ℚ) (hq : 0 < q) : 0 ≤ roundPos q := by
  unfold roundPos
  apply mul_nonneg _ (le_of_lt (pow2_pos _))
  have : (0 : Int) ≤ roundHalfEven (q / pow2 (ulpExp q)) :=
    le_roundHalfEven _ 0 (by simpa using le_of_lt (div_pos hq (pow2_pos _)))
  exact_mod_cast this

theorem roundPos_le_pow2 (q : ℚ) (hq : 0 < q) : roundPos q ≤ pow2 (floorLog2 q + 1) := by
  obtain ⟨-, hlt⟩ := floorLog2_spec q hq
  unfold roundPos
  by_cases he : ulpExp q ≤ floorLog2 q + 1
  · obtain ⟨n, hn⟩ : ∃ n : Nat, floorLog2 q + 1 - ulpExp q = n :=
      ⟨(floorLog2 q + 1 - ulpExp q).toNat, by omega⟩
    have hsplit : pow2 (floorLog2 q + 1) = ((2 ^ n : Int) : ℚ) * pow2 (ulpExp q) := by
      rw [show floorLog2 q + 1 = (n : Int) + ulpExp q by omega, pow2_add, pow2_natCast]
      push_cast
      rfl
    rw [hsplit]
    apply mul_le_mul_of_nonneg_right _ (le_of_lt (pow2_pos _))
    have : roundHalfEven (q / pow2 (ulpExp q)) ≤ (2 ^ n : Int) := by
      apply roundHalfEven_le
      rw [div_le_iff₀ (pow2_pos _), ← hsplit]
      exact le_of_lt hlt
    exact_mod_cast this
  · have he' : floorLog2 q + 1 < ulpExp q := not_le.1 he
    have hsmall : q / pow2 (ulpExp q) < 1 / 2 := by
      rw [div_lt_iff₀ (pow2_pos _)]
      have h1 : pow2 (floorLog2 q + 1) ≤ pow2 (ulpExp q - 1) := pow2_le _ _ (by omega)
      have h2 : pow2 (ulpExp q - 1) = 1 / 2 * pow2 (ulpExp q) := by
        rw [show ulpExp q - 1 = -1 + ulpExp q by ring, pow2_add]
        congr 1
      linarith
    have hz : roundHalfEven (q / pow2 (ulpExp q)) = 0 := by
      have hpos : 0 ≤ q / pow2 (ulpExp q) := le_of_lt (div_pos hq (pow2_pos _))
      have hfloor : ⌊q / pow2 (ulpExp q)⌋ = 0 := by
        rw [Int.floor_eq_iff]
        constructor
        · simpa using hpos
        · push_cast; linarith
      unfold roundHalfEven
      rw [hfloor]
      simp only [Int.cast_zero, sub_zero, hsmall, if_true]
    rw [hz]
    simp only [Int.cast_zero, zero_mul]
    exact le_of_lt (pow2_pos _)

theorem pow2_le_roundPos (q : ℚ) (hq : 0 < q) (hk : -1074 ≤ floorLog2 q) :
    pow2 (floorLog2 q) ≤ roundPos q := by
  obtain ⟨hle, -⟩ := floorLog2_spec q hq
  unfold roundPos
  have he : ulpExp q ≤ floorLog2 q := by unfold ulpExp; omega
  obtain ⟨n, hn⟩ : ∃ n : Nat, floorLog2 q - ulpExp q = n :=
    ⟨(floorLog2 q - ulpExp q).toNat, by omega⟩
  have hsplit : pow2 (floorLog2 q) = ((2 ^ n : Int) : ℚ) * pow2 (ulpExp q) := by
    rw [show floorLog2 q = (n : Int) + ulpExp q by omega, pow2_add, pow2_natCast]
    push_cast
    rfl
  rw [hsplit]
  apply mul_le_mul_of_nonneg_right _ (le_of_lt (pow2_pos _))
  have : (2 ^ n : Int) ≤ roundHalfEven (q / pow2 (ulpExp q)) := by
    apply le_roundHalfEven
    rw [le_div_iff₀ (pow2_pos _), ← hsplit]
    exact hle
  exact_mod_cast this

theorem floorLog2_mono (p q : ℚ) (hp : 0 < p) (h : p ≤ q) : floorLog2 p ≤ floorLog2 q := by
  obtain ⟨h1, -⟩ := floorLog2_spec p hp
  obtain ⟨-, h2⟩ := floorLog2_spec q (lt_of_lt_of_le hp h)
  by_contra hc
  have : pow2 (floorLog2 q + 1) ≤ pow2 (floorLog2 p) := pow2_le _ _ (by omega)
  linarith

theorem roundPos_mono (p q : ℚ) (hp : 0 < p) (h : p ≤ q) : roundPos p ≤ roundPos q := by
  have hq : 0 < q := lt_of_lt_of_le hp h
  have hk := floorLog2_mono p q hp h
  by_cases he : ulpExp p = ulpExp q
  · unfold roundPos
    rw [he]
    apply mul_le_mul_of_nonneg_right _ (le_of_lt (pow2_pos _))
    have := roundHalfEven_mono (p / pow2 (ulpExp q)) (q / pow2 (ulpExp q))
      (div_le_div_of_nonneg_right h (le_of_lt (pow2_pos _)))
    exact_mod_cast this
  · have hlt : floorLog2 p < floorLog2 q := by
      rcases lt_or_eq_of_le hk with h1 | h1
      · exact h1
      · exact absurd (by unfold ulpExp; rw [h1]) he
    have hq1074 : -1074 ≤ floorLog2 q := by
      by_contra hc
      apply he
      unfold ulpExp
      omega
    calc roundPos p ≤ pow2 (floorLog2 p + 1) := roundPos_le_pow2 p hp
      _ ≤ pow2 (floorLog2 q) := pow2_le _ _ (by omega)
      _ ≤ roundPos q := pow2_le_roundPos q hq hq1074

theorem round64_ne_nan (q : ℚ) : round64 q ≠ nan := by
  unfold round64
  split_ifs <;> simp

theorem round64_zero : round64 0 = fin 0 := by simp [round64]

theorem round64_mono (p q : ℚ) (h : p ≤ q) : (round64 p).le (round64 q) = true := by
  unfold round64
  rcases lt_trichotomy p 0 with hp | hp | hp
  · have hnp : 0 < -p := by linarith
    have hp0 : ¬ p = 0 := ne_of_lt hp
    have hp1 : ¬ 0 < p := by linarith
    simp only [hp0, hp1, if_false]
    rcases lt_trichotomy q 0 with hq | hq | hq
    · have hnq : 0 < -q := by linarith
      have hq0 : ¬ q = 0 := ne_of_lt hq
      have hq1 : ¬ 0 < q := by linarith
      simp only [hq0, hq1, if_false]
      have hm := roundPos_mono (-q) (-p) hnq (by linarith)
      split_ifs with h1 h2 h2
      · rfl
      · rfl
      · exfalso; linarith
      · simp only [Dbl.le, decide_eq_true_eq]; linarith
    · subst hq
      simp only [if_true]
      have := roundPos_nonneg (-p) hnp
      split_ifs
      · rfl
      · simp only [Dbl.le, decide_eq_true_eq]; linarith
    · have hq0 : ¬ q = 0 := ne_of_gt hq
      simp only [hq0, hq, if_false, if_true]
      have h1 := roundPos_nonneg (-p) hnp
      have h2 := roundPos_nonneg q hq
      split_ifs
      · rfl
      · rfl
      · rfl
      · simp only [Dbl.le, decide_eq_true_eq]; linarith
  · subst hp
    simp only [if_true]
    rcases lt_or_eq_of_le h with hq | hq
    · have hq0 : ¬ q = 0 := ne_of_gt hq
      simp only [hq0, hq, if_false, if_true]
      have h2 := roundPos_nonneg q hq
      split_ifs
      · rfl
      · simp only [Dbl.le, decide_eq_true_eq]; exact h2
    · rw [← hq]
      simp [Dbl.le]
  · have hq : 0 < q := lt_of_lt_of_le hp h
    have hp0 : ¬ p = 0 := ne_of_gt hp
    have hq0 : ¬ q = 0 := ne_of_gt hq
    simp only [hp0, hq0, hp, hq, if_false, if_true]
    have hm := roundPos_mono p q hp h
    split_ifs with h1 h2 h2
    · rfl
    · exfalso; linarith
    · rfl
    · simp only [Dbl.le, decide_eq_true_eq]; exact hm

end Dbl

/-! ## The engine in binary64 arithmetic: rows, tables and loops -/

theorem f64_secondStep_eq (allFrame : DataFrame) (time : Dbl) (temp_pred : DataFrame) (t : Nat) :
    F64.secondStep allFrame time temp_pred t =
      ⟨temp_pred.labels, temp_pred.data ++ [F64.secondRow allFrame time t]⟩ := by
  cases temp_pred with
  | mk ls rows =>
    simp only [F64.secondStep, DataFrame.addRow, DataFrame.getColumn, DataFrame.setBack_append,
      DataFrame.select, DataFrame.getLabels, List.foldl_cons, List.foldl_nil, F64.secondRow]

theorem f64_predict_eq (allFrame : DataFrame) (labels : List Label) (time : Dbl) :
    F64.predict allFrame labels time = ⟨labels, (List.range 5).map (F64.secondRow allFrame time)⟩ := by
  simp [F64.predict, List.range, List.range.loop, f64_secondStep_eq, DataFrame.empty, DataFrame.setLabels]

theorem f64_labelMean_metric (ls : List Label) (rows : List Datablock) (L : List Label)
    (label : Label) (hmem : label ∈ L) (hne : label ≠ Label.HANDOVER) :
    F64.labelMean (DataFrame.select ⟨ls, rows⟩ L) label = F64.mean (rows.map (fun b => b label)) := by
  simp [F64.labelMean, DataFrame.select, DataFrame.columnAt, DataFrame.getData, DataFrame.rows,
    Datablock.get, F64.mean, F64.sum, List.foldl_map, hmem, hne]

theorem f64_labelMean_handover (ls : List Label) (rows : List Datablock) (L : List Label)
    (hmem : Label.HANDOVER ∈ L) :
    F64.labelMean (DataFrame.select ⟨ls, rows⟩ L) Label.HANDOVER =
      F64.mean (rows.map (fun b => castIndicator (b Label.HANDOVER))) := by
  simp [F64.labelMean, DataFrame.select, DataFrame.columnAt, DataFrame.getData, DataFrame.rows,
    Datablock.get, F64.mean, F64.sum, List.foldl_map, hmem, castIndicator]

theorem f64_secondRow_time (allFrame : DataFrame) (time : Dbl) (t : Nat) :
    F64.secondRow allFrame time t Label.TIME = Dbl.fadd time (Dbl.ofNat t) := by
  simp [F64.secondRow, Datablock.set]

theorem f64_secondRow_metric (allFrame : DataFrame) (time : Dbl) (t : Nat) (m : Label)
    (hm : m = Label.THROUGHPUT ∨ m = Label.RTT ∨ m = Label.LOSS) :
    F64.secondRow allFrame time t m = F64.mean ((selected allFrame t).map (fun b => b m)) := by
  rcases hm with rfl | rfl | rfl <;>
    simp [F64.secondRow, Datablock.set, whereCol_time, f64_labelMean_metric]

theorem f64_secondRow_handover (allFrame : DataFrame) (time : Dbl) (t : Nat) :
    F64.secondRow allFrame time t Label.HANDOVER =
      F64.mean ((selected allFrame t).map (fun b => castIndicator (b Label.HANDOVER))) := by
  simp [F64.secondRow, Datablock.set, whereCol_time, f64_labelMean_handover]

theorem f64_predict_length (allFrame : DataFrame) (labels : List Label) (time : Dbl) :
    (F64.predict allFrame labels time).data.length = 5 := by
  simp [f64_predict_eq]

theorem f64_predict_row (allFrame : DataFrame) (labels : List Label) (time : Dbl) (t : Nat)
    (ht : t < 5) :
    (F64.predict allFrame labels time).data[t]? = some (F64.secondRow allFrame time t) := by
  simp [f64_predict_eq, List.getElem?_map, List.getElem?_range ht]

theorem f64_cell?_predict (allFrame : DataFrame) (labels : List Label) (time : Dbl) (t : Nat)
    (ht : t < 5) (l : Label) :
    cell? (F64.predict allFrame labels time) t l = some (F64.secondRow allFrame time t l) := by
  simp [cell?, f64_predict_row allFrame labels time t ht]

theorem f64_updateLocation_of_frame (P : Platform) (env : CarrierEnv) (lng lat time : Dbl)
    (allFrame : DataFrame) (h : F64.combinedFrame P env lng lat = some allFrame) :
    F64.updateLocation P env lng lat time =
      some { env with prediction := F64.predict allFrame env.prediction.labels time } := by
  simp [F64.updateLocation, h, DataFrame.getLabels]

theorem f64_updateLocation_frame (P : Platform) (env : CarrierEnv) (lng lat time : Dbl)
    (allFrame : DataFrame) (h : F64.combinedFrame P env lng lat = some allFrame) :
    ∃ env', F64.updateLocation P env lng lat time = some env' ∧
      env'.prediction = F64.predict allFrame env.prediction.labels time ∧
      env'.df = env.df ∧ env'.current_cell = env.current_cell := by
  refine ⟨{ env with prediction := F64.predict allFrame env.prediction.labels time }, ?_, ?_, ?_, ?_⟩
  · exact f64_updateLocation_of_frame P env lng lat time allFrame h
  · simp only
  · simp only
  · simp only

theorem f64_updateLocation_inv (P : Platform) (env env' : CarrierEnv) (lng lat time : Dbl)
    (h : F64.updateLocation P env lng lat time = some env') :
    ∃ allFrame, F64.combinedFrame P env lng lat = some allFrame ∧
      env'.prediction = F64.predict allFrame env.prediction.labels time ∧
      env'.df = env.df ∧ env'.current_cell = env.current_cell := by
  cases hf : F64.combinedFrame P env lng lat with
  | none => simp [F64.updateLocation, hf] at h
  | some allFrame =>
    obtain ⟨e, he, hp, hd, hc⟩ := f64_updateLocation_frame P env lng lat time allFrame hf
    rw [h] at he
    cases he
    exact ⟨allFrame, rfl, hp, hd, hc⟩

theorem f64_next_5sec_data (day : DataFrame) (t0 : Dbl) (i : Nat) :
    (F64.next_5sec day t0 i).data = (day.data.filter (F64.inWindow t0)).map (F64.rebased t0 i) := by
  simp only [F64.next_5sec, DataFrame.addColumn, DataFrame.where_, DataFrame.getData,
    DataFrame.getColumn, Datablock.get, List.map_map]
  have hf : (fun b : Datablock => (b Label.TIME).lt (Dbl.fadd t0 MATCH_LENGTH) && (b Label.TIME).ge t0)
      = F64.inWindow t0 := by
    funext b
    simp only [F64.inWindow, Dbl.ge, MATCH_LENGTH, Bool.and_comm]
  rw [hf]
  congr 1

theorem f64_dayStep_of_nearest (P : Platform) (lng lat : Dbl) (cell : Cid_t) (allFrame : DataFrame)
    (i : Nat) (day : DataFrame) (nearest : Datablock)
    (hne : (F64.block lng lat day).rows ≠ 0)
    (hnear : F64.findNearest P (lng, lat) (F64.block lng lat day) = some nearest) :
    F64.dayStep P lng lat cell allFrame i day =
      if F64.gateRejects P lng lat cell nearest = true then some allFrame
      else some (allFrame.extend (F64.next_5sec day (nearest Label.TIME) i)) := by
  simp only [F64.dayStep, hne, hnear, if_false, F64.gateRejects, DataFrame.getColumn, Datablock.get]

theorem f64_dayStep_data (P : Platform) (lng lat : Dbl) (cell : Cid_t) (allFrame : DataFrame)
    (i : Nat) (day out : DataFrame) (h : F64.dayStep P lng lat cell allFrame i day = some out) :
    out = ⟨allFrame.labels, allFrame.data ++ F64.dayRows P lng lat cell i day⟩ := by
  by_cases hne : (F64.block lng lat day).rows = 0
  · have h1 : F64.dayStep P lng lat cell allFrame i day = some allFrame := by simp [F64.dayStep, hne]
    rw [h1] at h
    cases h
    simp [F64.dayRows, F64.anchor?, hne]
  · cases hnear : F64.findNearest P (lng, lat) (F64.block lng lat day) with
    | none =>
      have h1 : F64.dayStep P lng lat cell allFrame i day = none := by
        simp [F64.dayStep, hne, hnear]
      rw [h1] at h
      cases h
    | some nearest =>
      rw [f64_dayStep_of_nearest P lng lat cell allFrame i day nearest hne hnear] at h
      by_cases hg : F64.gateRejects P lng lat cell nearest = true
      · rw [if_pos hg] at h
        cases h
        simp [F64.dayRows, F64.anchor?, hne, hnear, hg]
      · rw [if_neg hg] at h
        cases h
        simp [F64.dayRows, F64.anchor?, hne, hnear, hg, DataFrame.extend]

theorem f64_dayLoop_data (P : Platform) (lng lat : Dbl) (cell : Cid_t) (days : List DataFrame) :
    ∀ (i : Nat) (allFrame out : DataFrame),
      F64.dayLoop P lng lat cell i days allFrame = some out →
      out = ⟨allFrame.labels, allFrame.data ++ F64.allRows P lng lat cell i days⟩ := by
  induction days with
  | nil =>
    intro i allFrame out h
    simp only [F64.dayLoop, Option.some.injEq] at h
    subst h
    simp [F64.allRows]
  | cons day rest ih =>
    intro i allFrame out h
    cases hstep : F64.dayStep P lng lat cell allFrame i day with
    | none => simp [F64.dayLoop, hstep] at h
    | some next =>
      simp only [F64.dayLoop, hstep] at h
      have h1 := f64_dayStep_data P lng lat cell allFrame i day next hstep
      have h2 := ih (i + 1) next out h
      rw [h2, h1]
      simp [F64.allRows]

theorem f64_combinedFrame_data (P : Platform) (env : CarrierEnv) (lng lat : Dbl)
    (allFrame : DataFrame) (h : F64.combinedFrame P env lng lat = some allFrame) :
    allFrame.data = F64.allRows P lng lat env.current_cell 0 env.df := by
  cases hd : env.df with
  | nil => simp [F64.combinedFrame, hd] at h
  | cons df0 rest =>
    simp only [F64.combinedFrame, hd] at h
    have := f64_dayLoop_data P lng lat env.current_cell (df0 :: rest) 0 _ allFrame h
    rw [this]
    simp [DataFrame.addColumn, DataFrame.empty, DataFrame.setLabels]

theorem f64_mem_dayRows (P : Platform) (lng lat : Dbl) (cell : Cid_t) (i : Nat) (day : DataFrame)
    (r : Datablock) :
    r ∈ F64.dayRows P lng lat cell i day ↔
      ∃ nearest, F64.anchor? P lng lat cell day = some nearest ∧
        ∃ b ∈ day.data, F64.inWindow (nearest Label.TIME) b = true ∧
          r = F64.rebased (nearest Label.TIME) i b := by
  cases ha : F64.anchor? P lng lat cell day with
  | none => simp [F64.dayRows, ha]
  | some nearest =>
    simp only [F64.dayRows, ha, f64_next_5sec_data, List.mem_map, List.mem_filter, Option.some.injEq,
      exists_eq_left']
    constructor
    · rintro ⟨b, ⟨hb, hw⟩, rfl⟩
      exact ⟨b, hb, hw, rfl⟩
    · rintro ⟨b, hb, hw, rfl⟩
      exact ⟨b, ⟨hb, hw⟩, rfl⟩

theorem f64_mem_allRows (P : Platform) (lng lat : Dbl) (cell : Cid_t) (r : Datablock)
    (days : List DataFrame) :
    ∀ i, r ∈ F64.allRows P lng lat cell i days ↔
      ∃ j day, days[j]? = some day ∧ r ∈ F64.dayRows P lng lat cell (i + j) day := by
  induction days with
  | nil => intro i; simp [F64.allRows]
  | cons d rest ih =>
    intro i
    simp only [F64.allRows, List.mem_append, ih (i + 1)]
    constructor
    · rintro (h | ⟨j, day, hj, hr⟩)
      · exact ⟨0, d, by simp, h⟩
      · exact ⟨j + 1, day, by simpa using hj, by rw [← add_assoc, add_right_comm]; exact hr⟩
    · rintro ⟨j, day, hj, hr⟩
      cases j with
      | zero =>
        simp only [List.getElem?_cons_zero, Option.some.injEq] at hj
        subst hj
        exact Or.inl hr
      | succ j =>
        refine Or.inr ⟨j, day, by simpa using hj, ?_⟩
        rw [add_right_comm, add_assoc]
        exact hr

theorem f64_combinedFrame_source (P : Platform) (env : CarrierEnv) (lng lat : Dbl)
    (allFrame : DataFrame) (h : F64.combinedFrame P env lng lat = some allFrame) (r : Datablock) :
    r ∈ allFrame.data ↔
      ∃ j day nearest, env.df[j]? = some day ∧
        F64.anchor? P lng lat env.current_cell day = some nearest ∧
        ∃ b ∈ day.data, F64.inWindow (nearest Label.TIME) b = true ∧
          r = F64.rebased (nearest Label.TIME) j b := by
  rw [f64_combinedFrame_data P env lng lat allFrame h, f64_mem_allRows]
  constructor
  · rintro ⟨j, day, hj, hr⟩
    rw [zero_add, f64_mem_dayRows] at hr
    obtain ⟨nearest, ha, hb⟩ := hr
    exact ⟨j, day, nearest, hj, ha, hb⟩
  · rintro ⟨j, day, nearest, hj, ha, hb⟩
    refine ⟨j, day, hj, ?_⟩
    rw [zero_add, f64_mem_dayRows]
    exact ⟨nearest, ha, hb⟩

theorem f64_findNearest_mem (P : Platform) (loc : Loc_t) (df : DataFrame) (b : Datablock)
    (h : F64.findNearest P loc df = some b) : b ∈ df.data := by
  simp only [F64.findNearest, DataFrame.getColumn, DataFrame.getData, DataFrame.where_,
    Datablock.get] at h
  split at h
  · exact absurd h (by simp)
  · split at h
    · exact absurd h (by simp)
    · rename_i b' rest hfilter
      simp only [Option.some.injEq] at h
      subst h
      have hmem := List.mem_cons_self b' rest
      rw [← hfilter] at hmem
      exact (List.mem_filter.1 hmem).1

theorem f64_anchor?_mem (P : Platform) (lng lat : Dbl) (cell : Cid_t) (day : DataFrame)
    (nearest : Datablock) (h : F64.anchor? P lng lat cell day = some nearest) :
    nearest ∈ day.data := by
  simp only [F64.anchor?] at h
  split at h
  · exact absurd h (by simp)
  · split at h
    · exact absurd h (by simp)
    · rename_i n hn
      split at h
      · exact absurd h (by simp)
      · simp only [Option.some.injEq] at h
        subst h
        have := f64_findNearest_mem P _ _ _ hn
        simp only [F64.block, DataFrame.where_, DataFrame.getColumn] at this
        exact (List.mem_filter.1 this).1

theorem f64_predict_labels (allFrame : DataFrame) (labels : List Label) (time : Dbl) :
    (F64.predict allFrame labels time).labels = labels := by
  rw [f64_predict_eq]

/-! ## The engine in binary64 arithmetic: the nearest candidate -/

namespace Dbl

theorem lt_trans_dbl (a b c : Dbl) (h1 : a.lt b = true) (h2 : b.lt c = true) :
    a.lt c = true := by
  cases a <;> cases b <;> cases c <;> simp_all [Dbl.lt]
  exact lt_trans h1 h2

theorem incomp_dbl (a b c : Dbl) (ha : a.isNaN = false) (hb : b.isNaN = false)
    (hc : c.isNaN = false) (h1 : a.lt b = false) (h2 : b.lt a = false) (h3 : b.lt c = false)
    (h4 : c.lt b = false) : a.lt c = false ∧ c.lt a = false := by
  cases a <;> cases b <;> cases c <;> simp_all [Dbl.lt, Dbl.isNaN]
  constructor <;> linarith

theorem le_of_not_lt_dbl (a b : Dbl) (ha : a.isNaN = false) (hb : b.isNaN = false)
    (h : a.lt b = false) : b.le a = true := by
  cases a <;> cases b <;> simp_all [Dbl.lt, Dbl.le, Dbl.isNaN]

theorem rnd_isFinite (v : Dbl) (h : (rnd v).isFinite = true) : v.isFinite = true := by
  cases v <;> simp_all [rnd, isFinite]

theorem rnd_ne_nan (v : Dbl) (h : v.isNaN = false) : (rnd v).isNaN = false := by
  cases v with
  | fin q =>
    simp only [rnd]
    have := round64_ne_nan q
    cases hq : round64 q <;> simp_all [isNaN]
  | pinf => rfl
  | ninf => rfl
  | nan => simp [isNaN] at h

theorem finite_of_fabs_fsub_lt (a b : Dbl) (e : ℚ)
    (h : (fabs (fsub a b)).lt (fin e) = true) : a.isFinite = true ∧ b.isFinite = true := by
  have hf : (fsub a b).isFinite = true := by
    cases hx : fsub a b <;> simp_all [fabs, Dbl.lt, isFinite]
  have hs := rnd_isFinite _ hf
  have hs' : ∀ x y : Dbl, Dbl.sub x y = Dbl.add x (Dbl.neg y) := fun _ _ => rfl
  rw [hs'] at hs
  cases a <;> cases b <;> simp_all [isFinite, Dbl.add, Dbl.neg]

end Dbl

theorem lit_fifth : Dbl.lit (1 / 5) = Dbl.fin (3602879701896397 / 18014398509481984) := by
  decide!

theorem f64_locCmp_strictWeakOn (P : Platform) (loc : Loc_t) (l : List Loc_t)
    (h : ∀ a ∈ l, (F64.getDistance P a loc).isNaN = false) :
    StrictWeakOn (F64.LocCmp P loc) l := by
  refine ⟨?_, ?_, ?_⟩
  · intro a _
    exact Dbl.lt_irrefl _
  · intro a _ b _ c _ hab hbc
    exact Dbl.lt_trans_dbl _ _ _ hab hbc
  · intro a ha b hb c hc h1 h2 h3 h4
    exact Dbl.incomp_dbl _ _ _ (h a ha) (h b hb) (h c hc) h1 h2 h3 h4

theorem f64_findNearest_spec (P : Platform) (hP : P.Conforming) (loc : Loc_t) (df : DataFrame)
    (hne : df.data ≠ []) (hfin : FiniteCoords df) (hnum : F64.NumericDistances P loc df) :
    ∃ pre b post, df.data = pre ++ b :: post ∧
      F64.findNearest P loc df = some b ∧
      (∀ c ∈ df.data, (F64.distanceTo P loc b).le (F64.distanceTo P loc c) = true) ∧
      (∀ c ∈ pre, ¬ (c Label.LONGTITUDE = b Label.LONGTITUDE ∧
        c Label.LATITIDE = b Label.LATITIDE)) := by
  set vec : List Loc_t := df.data.map (fun v => (v Label.LONGTITUDE, v Label.LATITIDE)) with hvec
  have hvnum : ∀ a ∈ vec, (F64.getDistance P a loc).isNaN = false := by
    intro a ha
    obtain ⟨v, hv, rfl⟩ := List.mem_map.1 ha
    exact hnum v hv
  have hsw := f64_locCmp_strictWeakOn P loc vec hvnum
  have hperm := hP.sort_perm _ _ hsw
  have hsorted := hP.sort_sorted _ _ hsw
  have hfn : F64.findNearest P loc df =
      match P.sort (F64.LocCmp P loc) vec with
      | [] => none
      | target :: _ =>
        match df.data.filter (fun b => (b Label.LONGTITUDE).eq target.1 &&
          (b Label.LATITIDE).eq target.2) with
        | [] => none
        | b :: _ => some b := rfl
  rw [hfn]
  cases hs : P.sort (F64.LocCmp P loc) vec with
  | nil =>
    rw [hs] at hperm
    have := hperm.length_eq
    simp only [hvec, List.length_nil, List.length_map] at this
    exact absurd (List.length_eq_zero.1 this.symm) hne
  | cons target rest =>
    rw [hs] at hperm hsorted
    have htv : target ∈ vec := hperm.subset (List.mem_cons_self _ _)
    obtain ⟨b0, hb0, hb0t⟩ := List.mem_map.1 htv
    have hp0 : (fun b : Datablock => (b Label.LONGTITUDE).eq target.1 &&
        (b Label.LATITIDE).eq target.2) b0 = true := by
      simp only [← hb0t]
      simp [Dbl.eq_self_of_finite _ (hfin b0 hb0).1, Dbl.eq_self_of_finite _ (hfin b0 hb0).2]
    cases hf : df.data.filter (fun b => (b Label.LONGTITUDE).eq target.1 &&
        (b Label.LATITIDE).eq target.2) with
    | nil =>
      have : b0 ∈ df.data.filter (fun b => (b Label.LONGTITUDE).eq target.1 &&
        (b Label.LATITIDE).eq target.2) := List.mem_filter.2 ⟨hb0, hp0⟩
      rw [hf] at this
      exact absurd this (List.not_mem_nil _)
    | cons b bs =>
      obtain ⟨pre, post, hsplit, hpre, hpb, -⟩ := List.filter_eq_cons_iff.1 hf
      have hbmem : b ∈ df.data := by rw [hsplit]; simp
      have hbfin := hfin b hbmem
      simp only [Bool.and_eq_true] at hpb
      have hb1 : b Label.LONGTITUDE = target.1 := (Dbl.eq_iff_of_finite _ _ hbfin.1).1 hpb.1
      have hb2 : b Label.LATITIDE = target.2 := (Dbl.eq_iff_of_finite _ _ hbfin.2).1 hpb.2
      have ht : target = (b Label.LONGTITUDE, b Label.LATITIDE) := by
        rw [hb1, hb2]
      refine ⟨pre, b, post, hsplit, ?_, ?_, ?_⟩
      · simp only [hf]
      · intro c hc
        have hcv : (c Label.LONGTITUDE, c Label.LATITIDE) ∈ vec :=
          List.mem_map.2 ⟨c, hc, rfl⟩
        have hcs : (c Label.LONGTITUDE, c Label.LATITIDE) ∈ target :: rest :=
          hperm.symm.subset hcv
        have hcmp : F64.LocCmp P loc (c Label.LONGTITUDE, c Label.LATITIDE) target = false := by
          rcases List.mem_cons.1 hcs with h | h
          · rw [h]; exact hsw.irrefl _ htv
          · exact (List.pairwise_cons.1 hsorted).1 _ h
        rw [ht] at hcmp
        exact Dbl.le_of_not_lt_dbl _ _ (hnum c hc) (hnum b hbmem) hcmp
      · intro c hc hcb
        have := hpre c hc
        apply this
        have hcfin := hfin c (by rw [hsplit]; simp [hc])
        simp only [Bool.and_eq_true]
        rw [← hb1, ← hb2, ← hcb.1, ← hcb.2]
        exact ⟨Dbl.eq_self_of_finite _ hcfin.1, Dbl.eq_self_of_finite _ hcfin.2⟩

theorem f64_block_data (lng lat : Dbl) (day : DataFrame) :
    (F64.block lng lat day).data = day.data.filter (fun b =>
      (Dbl.fabs (Dbl.fsub lng (b Label.LONGTITUDE))).lt (Dbl.lit (1 / 5)) &&
        (Dbl.fabs (Dbl.fsub lat (b Label.LATITIDE))).lt (Dbl.lit (1 / 5))) := by
  simp only [F64.block, DataFrame.where_, DataFrame.getColumn, Datablock.get]

theorem f64_block_finite (lng lat : Dbl) (day : DataFrame) :
    ∀ b ∈ (F64.block lng lat day).data, (lng.isFinite = true ∧ lat.isFinite = true) ∧
      (b Label.LONGTITUDE).isFinite = true ∧ (b Label.LATITIDE).isFinite = true := by
  intro b hb
  rw [f64_block_data, List.mem_filter, Bool.and_eq_true, lit_fifth] at hb
  obtain ⟨-, h1, h2⟩ := hb
  have f1 := Dbl.finite_of_fabs_fsub_lt _ _ _ h1
  have f2 := Dbl.finite_of_fabs_fsub_lt _ _ _ h2
  exact ⟨⟨f1.1, f2.1⟩, f1.2, f2.2⟩

theorem f64_block_finiteCoords (lng lat : Dbl) (day : DataFrame) :
    FiniteCoords (F64.block lng lat day) :=
  fun b hb => (f64_block_finite lng lat day b hb).2

theorem f64_findNearest_block (P : Platform) (hP : P.Conforming) (lng lat : Dbl)
    (day : DataFrame) (hne : (F64.block lng lat day).rows ≠ 0)
    (hnum : F64.NumericDistances P (lng, lat) (F64.block lng lat day)) :
    ∃ nearest ∈ (F64.block lng lat day).data,
      F64.findNearest P (lng, lat) (F64.block lng lat day) = some nearest ∧
      ∀ c ∈ (F64.block lng lat day).data,
        (F64.distanceTo P (lng, lat) nearest).le (F64.distanceTo P (lng, lat) c) = true := by
  have hdata : (F64.block lng lat day).data ≠ [] := by
    intro h
    exact hne (by simp [DataFrame.rows, h])
  obtain ⟨pre, b, post, hsplit, hfn, hmin, -⟩ :=
    f64_findNearest_spec P hP (lng, lat) _ hdata (f64_block_finiteCoords lng lat day) hnum
  exact ⟨b, by rw [hsplit]; simp, hfn, hmin⟩

theorem f64_dayStep_total (P : Platform) (hP : P.Conforming) (lng lat : Dbl) (cell : Cid_t)
    (allFrame : DataFrame) (i : Nat) (day : DataFrame)
    (hnum : F64.NumericDistances P (lng, lat) (F64.block lng lat day)) :
    ∃ next, F64.dayStep P lng lat cell allFrame i day = some next := by
  by_cases hne : (F64.block lng lat day).rows = 0
  · exact ⟨allFrame, by simp [F64.dayStep, hne]⟩
  · obtain ⟨nearest, -, hnear, -⟩ := f64_findNearest_block P hP lng lat day hne hnum
    rw [f64_dayStep_of_nearest P lng lat cell allFrame i day nearest hne hnear]
    by_cases hg : F64.gateRejects P lng lat cell nearest = true
    · exact ⟨_, by rw [if_pos hg]⟩
    · exact ⟨_, by rw [if_neg hg]⟩

theorem f64_dayLoop_total (P : Platform) (hP : P.Conforming) (lng lat : Dbl) (cell : Cid_t)
    (days : List DataFrame)
    (hnum : ∀ day ∈ days, F64.NumericDistances P (lng, lat) (F64.block lng lat day)) :
    ∀ (i : Nat) (allFrame : DataFrame),
      ∃ out, F64.dayLoop P lng lat cell i days allFrame = some out := by
  induction days with
  | nil => intro i allFrame; exact ⟨allFrame, rfl⟩
  | cons day rest ih =>
    intro i allFrame
    obtain ⟨next, hnext⟩ := f64_dayStep_total P hP lng lat cell allFrame i day
      (hnum day (List.mem_cons_self _ _))
    obtain ⟨out, hout⟩ := ih (fun d hd => hnum d (List.mem_cons_of_mem _ hd)) (i + 1) next
    exact ⟨out, by simp [F64.dayLoop, hnext, hout]⟩

theorem f64_combinedFrame_total (P : Platform) (hP : P.Conforming) (env : CarrierEnv)
    (hdf : env.df ≠ []) (lng lat : Dbl)
    (hnum : ∀ day ∈ env.df, F64.NumericDistances P (lng, lat) (F64.block lng lat day)) :
    ∃ allFrame, F64.combinedFrame P env lng lat = some allFrame := by
  cases hd : env.df with
  | nil => exact absurd hd hdf
  | cons df0 rest =>
    rw [hd] at hnum
    obtain ⟨out, hout⟩ := f64_dayLoop_total P hP lng lat env.current_cell (df0 :: rest) hnum 0
      ((DataFrame.empty.setLabels df0.getLabels).addColumn Label.DAY 0)
    exact ⟨out, by simp [F64.combinedFrame, hd, hout]⟩

/-! ## Bounds that survive rounding -/

namespace Dbl

theorem round64_between (q A B : ℚ) (hA : round64 A = fin A) (hB : round64 B = fin B)
    (h1 : A ≤ q) (h2 : q ≤ B) : ∃ r, round64 q = fin r ∧ A ≤ r ∧ r ≤ B := by
  have m1 := round64_mono A q h1
  have m2 := round64_mono q B h2
  rw [hA] at m1
  rw [hB] at m2
  cases hq : round64 q with
  | fin r =>
    rw [hq] at m1 m2
    simp only [Dbl.le, decide_eq_true_eq] at m1 m2
    exact ⟨r, rfl, m1, m2⟩
  | pinf => rw [hq] at m2; simp [Dbl.le] at m2
  | ninf => rw [hq] at m1; simp [Dbl.le] at m1
  | nan => exact absurd hq (round64_ne_nan q)

theorem round64_abs_le (q B : ℚ) (hB : round64 B = fin B) (hB' : round64 (-B) = fin (-B))
    (h : |q| ≤ B) : ∃ r, round64 q = fin r ∧ |r| ≤ B := by
  obtain ⟨h1, h2⟩ := abs_le.1 h
  obtain ⟨r, hr, r1, r2⟩ := round64_between q (-B) B hB' hB h1 h2
  exact ⟨r, hr, abs_le.2 ⟨r1, r2⟩⟩

theorem lt_of_lt_round64 (a z : ℚ) (ha : round64 a = fin a)
    (h : (fin a).lt (round64 z) = true) : a < z := by
  by_contra hc
  have m := round64_mono z a (not_lt.1 hc)
  rw [ha] at m
  have := Dbl.lt_false_of_le _ _ m
  rw [this] at h
  exact absurd h (by simp)

theorem fadd_fin (a b : ℚ) : fadd (fin a) (fin b) = round64 (a + b) := rfl

theorem fsub_fin (a b : ℚ) : fsub (fin a) (fin b) = round64 (a - b) := by
  simp only [fsub, Dbl.sub, Dbl.neg, Dbl.add, rnd, sub_eq_add_neg]

theorem fmul_fin (a b : ℚ) : fmul (fin a) (fin b) = round64 (a * b) := rfl

theorem fdiv_fin (a b : ℚ) (hb : b ≠ 0) : fdiv (fin a) (fin b) = round64 (a / b) := by
  simp only [fdiv, Dbl.div, hb, if_false, rnd]

end Dbl

/-! ## The distance of a position to itself -/

theorem round64_consts :
    Dbl.round64 3 = Dbl.fin 3 ∧ Dbl.round64 4 = Dbl.fin 4 ∧ Dbl.round64 6 = Dbl.fin 6 ∧
    Dbl.round64 8 = Dbl.fin 8 ∧ Dbl.round64 2 = Dbl.fin 2 ∧ Dbl.round64 (-2) = Dbl.fin (-2) ∧
    Dbl.round64 360 = Dbl.fin 360 ∧ Dbl.round64 (-360) = Dbl.fin (-360) ∧
    Dbl.round64 6371000 = Dbl.fin 6371000 ∧ Dbl.round64 (-6371000) = Dbl.fin (-6371000) ∧
    Dbl.round64 50968000 = Dbl.fin 50968000 ∧
    Dbl.round64 (-50968000) = Dbl.fin (-50968000) := by
  decide!

theorem refCos_range (z : ℚ) (hz : |z| ≤ 2) :
    |1 - z ^ 2 / 2 + z ^ 4 / 24 - z ^ 6 / 720 + z ^ 8 / 40320| ≤ 1 := by
  have hw : z ^ 2 ≤ 4 := by
    have := abs_nonneg z
    calc z ^ 2 = |z| ^ 2 := (sq_abs z).symm
      _ ≤ 2 ^ 2 := by gcongr
      _ = 4 := by norm_num
  have hw0 : 0 ≤ z ^ 2 := sq_nonneg z
  have e4 : z ^ 4 = (z ^ 2) ^ 2 := by ring
  have e6 : z ^ 6 = (z ^ 2) ^ 3 := by ring
  have e8 : z ^ 8 = (z ^ 2) ^ 4 := by ring
  rw [e4, e6, e8]
  generalize z ^ 2 = w at hw hw0
  have h2 : 0 ≤ w ^ 2 := by positivity
  have h3 : 0 ≤ w ^ 3 := by positivity
  have h4 : 0 ≤ w ^ 4 := by positivity
  have h2' : w ^ 2 ≤ 4 * w := by nlinarith
  have h3' : w ^ 3 ≤ 4 * w ^ 2 := by nlinarith
  have h4' : w ^ 4 ≤ 4 * w ^ 3 := by nlinarith
  rw [abs_le]
  constructor <;> nlinarith

theorem refPlatform_libm : refPlatform.Libm where
  asin_one := ⟨355 / 226, by decide!, by norm_num, by norm_num⟩
  cos_range := by
    intro z hz
    exact ⟨_, rfl, refCos_range z hz⟩
  sqrt_zero := by decide!
  sqrt_nan := rfl
  sqrt_range := by
    intro v
    cases v with
    | fin q =>
      by_cases hq : q < 0
      · left
        simp [refPlatform, refSqrt, hq]
      · right; right
        exact ⟨(isqrt ⌊q * 10 ^ 12⌋.toNat : ℚ) / 10 ^ 6,
          by simp only [refPlatform, refSqrt, hq, if_false], by positivity⟩
    | pinf => right; left; rfl
    | ninf => left; rfl
    | nan => left; rfl

theorem f64_cos_of_latitude (P : Platform) (hL : P.Libm) (β : ℚ) (hβ : |β| ≤ 90) :
    ∃ c, P.cos (Dbl.fdiv (Dbl.fmul (Dbl.fmul 2 (P.asin 1)) (Dbl.fin β)) 180) = Dbl.fin c ∧
      |c| ≤ 1 := by
  obtain ⟨c3, c4, c6, c8, c2, c2', c360, c360', cr, cr', ck, ck'⟩ := round64_consts
  obtain ⟨p, hp, hp1, hp2⟩ := hL.asin_one
  have hp' : P.asin (Dbl.fin 1) = Dbl.fin p := by
    rw [← hp]; congr 1
  obtain ⟨pi, hpi, pi1, pi2⟩ := Dbl.round64_between (2 * p) 3 4 c3 c4 (by linarith)
    (by linarith)
  have hpiabs : |pi| ≤ 4 := abs_le.2 ⟨by linarith, pi2⟩
  obtain ⟨w, hw, hwb⟩ := Dbl.round64_abs_le (pi * β) 360 c360 c360' (by
    rw [abs_mul]
    calc |pi| * |β| ≤ 4 * 90 := mul_le_mul hpiabs hβ (abs_nonneg _) (by norm_num)
      _ = 360 := by norm_num)
  obtain ⟨z, hz, hzb⟩ := Dbl.round64_abs_le (w / 180) 2 c2 c2' (by
    rw [abs_div, div_le_iff₀ (by norm_num)]
    norm_num
    linarith)
  obtain ⟨c, hc, hcb⟩ := hL.cos_range z hzb
  refine ⟨c, ?_, hcb⟩
  simp only [Dbl.ofNat_lit, Nat.cast_ofNat, Nat.cast_one, hp', Dbl.fmul_fin,
    Dbl.fdiv_fin _ _ (by norm_num : (180 : ℚ) ≠ 0), hpi, hw, hz, hc]

theorem f64_getDistance_same_form (P : Platform) (hL : P.Libm) (x β : ℚ) :
    ∃ tp : ℚ, Dbl.fmul 2 (Dbl.fmul 2 (P.asin 1)) = Dbl.fin tp ∧ |tp| ≤ 8 ∧
      F64.getDistance P (Dbl.fin x, Dbl.fin β) (Dbl.fin x, Dbl.fin β) =
        P.sqrt (Dbl.fadd
          (Dbl.fmul
            (Dbl.fdiv (Dbl.fmul (Dbl.fmul (Dbl.fin tp) (Dbl.fmul (Dbl.fin 6371000)
              (P.cos (Dbl.fdiv (Dbl.fmul (Dbl.fmul 2 (P.asin 1)) (Dbl.fin β)) 180))))
              (Dbl.fin 0)) 360)
            (Dbl.fdiv (Dbl.fmul (Dbl.fmul (Dbl.fin tp) (Dbl.fmul (Dbl.fin 6371000)
              (P.cos (Dbl.fdiv (Dbl.fmul (Dbl.fmul 2 (P.asin 1)) (Dbl.fin β)) 180))))
              (Dbl.fin 0)) 360))
          (Dbl.fin 0)) := by
  obtain ⟨c3, c4, c6, c8, c2, c2', c360, c360', cr, cr', ck, ck'⟩ := round64_consts
  obtain ⟨p, hp, hp1, hp2⟩ := hL.asin_one
  have hp' : P.asin (Dbl.fin 1) = Dbl.fin p := by
    rw [← hp]; congr 1
  have hp'' : P.asin 1 = Dbl.fin p := hp
  obtain ⟨pi, hpi, pi1, pi2⟩ := Dbl.round64_between (2 * p) 3 4 c3 c4 (by linarith)
    (by linarith)
  obtain ⟨tp, htp, tp1, tp2⟩ := Dbl.round64_between (2 * pi) 6 8 c6 c8 (by linarith)
    (by linarith)
  have htpabs : |tp| ≤ 8 := abs_le.2 ⟨by linarith, tp2⟩
  obtain ⟨k2, hk2, -⟩ := Dbl.round64_abs_le (tp * 6371000) 50968000 ck ck' (by
    rw [abs_mul]
    calc |tp| * |(6371000 : ℚ)| ≤ 8 * 6371000 :=
          mul_le_mul htpabs (by norm_num) (abs_nonneg _) (by norm_num)
      _ = 50968000 := by norm_num)
  have hr : Dbl.fmul (Dbl.fin 6371) 1000 = Dbl.fin 6371000 := by decide!
  have h2pi : Dbl.fmul 2 (P.asin 1) = Dbl.fin pi := by
    rw [hp'', Dbl.ofNat_lit, Dbl.fmul_fin]
    simpa using hpi
  have h2tp : Dbl.fmul 2 (Dbl.fmul 2 (P.asin 1)) = Dbl.fin tp := by
    rw [h2pi, Dbl.ofNat_lit, Dbl.fmul_fin]
    simpa using htp
  have hy : Dbl.fdiv (Dbl.fmul (Dbl.fmul (Dbl.fin tp) (Dbl.fin 6371000)) (Dbl.fin 0)) 360 =
      Dbl.fin 0 := by
    rw [Dbl.fmul_fin, hk2, Dbl.fmul_fin, mul_zero, Dbl.round64_zero, Dbl.ofNat_lit,
      Dbl.fdiv_fin _ _ (by norm_num)]
    simp [Dbl.round64_zero]
  have h00 : Dbl.fmul (Dbl.fin 0) (Dbl.fin 0) = Dbl.fin 0 := by
    rw [Dbl.fmul_fin, mul_zero, Dbl.round64_zero]
  refine ⟨tp, h2tp, htpabs, ?_⟩
  simp only [F64.getDistance, Dbl.fsub_fin, sub_self, Dbl.round64_zero, hr, h2tp, hy, h00]

theorem f64_getDistance_same_cases (P : Platform) (hL : P.Libm) (x β : ℚ) :
    F64.getDistance P (Dbl.fin x, Dbl.fin β) (Dbl.fin x, Dbl.fin β) = 0 ∨
      F64.getDistance P (Dbl.fin x, Dbl.fin β) (Dbl.fin x, Dbl.fin β) = Dbl.nan := by
  obtain ⟨tp, -, -, hform⟩ := f64_getDistance_same_form P hL x β
  rw [hform]
  generalize Dbl.fmul (Dbl.fin tp) (Dbl.fmul (Dbl.fin 6371000)
    (P.cos (Dbl.fdiv (Dbl.fmul (Dbl.fmul 2 (P.asin 1)) (Dbl.fin β)) 180))) = M
  have hsq : P.sqrt (Dbl.fin 0) = 0 := by
    have := hL.sqrt_zero
    rwa [Dbl.zero_def] at this
  cases M with
  | fin m =>
    left
    have : Dbl.fdiv (Dbl.fmul (Dbl.fin m) (Dbl.fin 0)) 360 = Dbl.fin 0 := by
      rw [Dbl.fmul_fin, mul_zero, Dbl.round64_zero, Dbl.ofNat_lit,
        Dbl.fdiv_fin _ _ (by norm_num)]
      simp [Dbl.round64_zero]
    rw [this, Dbl.fmul_fin, mul_zero, Dbl.round64_zero, Dbl.fadd_fin, add_zero,
      Dbl.round64_zero, hsq]
  | pinf =>
    right
    have : Dbl.fadd (Dbl.fmul (Dbl.fdiv (Dbl.fmul Dbl.pinf (Dbl.fin 0)) 360)
        (Dbl.fdiv (Dbl.fmul Dbl.pinf (Dbl.fin 0)) 360)) (Dbl.fin 0) = Dbl.nan := by decide!
    rw [this, hL.sqrt_nan]
  | ninf =>
    right
    have : Dbl.fadd (Dbl.fmul (Dbl.fdiv (Dbl.fmul Dbl.ninf (Dbl.fin 0)) 360)
        (Dbl.fdiv (Dbl.fmul Dbl.ninf (Dbl.fin 0)) 360)) (Dbl.fin 0) = Dbl.nan := by decide!
    rw [this, hL.sqrt_nan]
  | nan =>
    right
    have : Dbl.fadd (Dbl.fmul (Dbl.fdiv (Dbl.fmul Dbl.nan (Dbl.fin 0)) 360)
        (Dbl.fdiv (Dbl.fmul Dbl.nan (Dbl.fin 0)) 360)) (Dbl.fin 0) = Dbl.nan := by decide!
    rw [this, hL.sqrt_nan]

theorem f64_getDistance_same_of_cos (P : Platform) (hL : P.Libm) (x β : ℚ)
    (hcos : ∃ c, P.cos (Dbl.fdiv (Dbl.fmul (Dbl.fmul 2 (P.asin 1)) (Dbl.fin β)) 180) =
      Dbl.fin c ∧ |c| ≤ 1) :
    F64.getDistance P (Dbl.fin x, Dbl.fin β) (Dbl.fin x, Dbl.fin β) = 0 := by
  obtain ⟨c3, c4, c6, c8, c2, c2', c360, c360', cr, cr', ck, ck'⟩ := round64_consts
  obtain ⟨tp, -, htpabs, hform⟩ := f64_getDistance_same_form P hL x β
  obtain ⟨c, hc, hcb⟩ := hcos
  obtain ⟨rc, hrc, hrcb⟩ := Dbl.round64_abs_le (6371000 * c) 6371000 cr cr' (by
    rw [abs_mul]
    calc |(6371000 : ℚ)| * |c| ≤ 6371000 * 1 :=
          mul_le_mul (by norm_num) hcb (abs_nonneg _) (by norm_num)
      _ = 6371000 := by norm_num)
  obtain ⟨k, hk, -⟩ := Dbl.round64_abs_le (tp * rc) 50968000 ck ck' (by
    rw [abs_mul]
    calc |tp| * |rc| ≤ 8 * 6371000 := mul_le_mul htpabs hrcb (abs_nonneg _) (by norm_num)
      _ = 50968000 := by norm_num)
  have hsq : P.sqrt (Dbl.fin 0) = 0 := by
    have := hL.sqrt_zero
    rwa [Dbl.zero_def] at this
  rw [hform, hc, Dbl.fmul_fin, hrc, Dbl.fmul_fin, hk, Dbl.fmul_fin, mul_zero, Dbl.round64_zero,
    Dbl.ofNat_lit, Dbl.fdiv_fin _ _ (by norm_num)]
  simp only [zero_div, Dbl.round64_zero, Dbl.fmul_fin, mul_zero, Dbl.fadd_fin, add_zero, hsq]

theorem f64_getDistance_same (P : Platform) (hL : P.Libm) (x β : ℚ) (hβ : |β| ≤ 90) :
    F64.getDistance P (Dbl.fin x, Dbl.fin β) (Dbl.fin x, Dbl.fin β) = 0 :=
  f64_getDistance_same_of_cos P hL x β (f64_cos_of_latitude P hL β hβ)

/-- C12 (amended): for every position whose longitude and latitude are finite,
`getDistance(a, a)` is 0 or NaN (with a libm whose `asin 1` is `pi / 2` to four decimals and
whose `sqrt` maps 0 to 0 and NaN to NaN): it is 0 whenever the factor `cos(pi * latitude / 180)`
is computed as a number in `[-1, 1]`, and so it is for every latitude between -90 and 90
degrees. -/
theorem getDistance_self (P : Platform) (hL : P.Libm) (a : Loc_t)
    (hlng : a.1.isFinite = true) (hlat : a.2.isFinite = true) :
    (F64.getDistance P a a = 0 ∨ F64.getDistance P a a = Dbl.nan) ∧
    ((∃ c, P.cos (Dbl.fdiv (Dbl.fmul (Dbl.fmul 2 (P.asin 1)) a.2) 180) = Dbl.fin c ∧
        |c| ≤ 1) → F64.getDistance P a a = 0) ∧
    ((∃ β : ℚ, a.2 = Dbl.fin β ∧ |β| ≤ 90) → F64.getDistance P a a = 0) := by
  obtain ⟨a1, a2⟩ := a
  obtain ⟨x, hx⟩ := (Dbl.isFinite_iff _).1 hlng
  obtain ⟨β, hβ⟩ := (Dbl.isFinite_iff _).1 hlat
  simp only at hx hβ
  subst hx hβ
  refine ⟨f64_getDistance_same_cases P hL x β, f64_getDistance_same_of_cos P hL x β, ?_⟩
  rintro ⟨β', hβ', hβ90⟩
  have : β = β' := Dbl.fin.inj hβ'
  subst this
  exact f64_getDistance_same P hL x β hβ90

/-- The position `(10.0005, 20.0004)` on the reference platform. -/
theorem getDistance_self_witness :
    refPlatform.Libm ∧ (Dbl.lit (100005 / 10000)).isFinite = true ∧
    (Dbl.lit (200004 / 10000)).isFinite = true ∧
    (∃ β : ℚ, Dbl.lit (200004 / 10000) = Dbl.fin β ∧ |β| ≤ 90) ∧
    F64.getDistance refPlatform (Dbl.lit (100005 / 10000), Dbl.lit (200004 / 10000))
      (Dbl.lit (100005 / 10000), Dbl.lit (200004 / 10000)) = 0 :=
  have hlng : (Dbl.lit (100005 / 10000)).isFinite = true := by decide!
  have hlat : (Dbl.lit (200004 / 10000)).isFinite = true := by decide!
  have hgeo : ∃ β : ℚ, Dbl.lit (200004 / 10000) = Dbl.fin β ∧ |β| ≤ 90 :=
    ⟨1407403031050951 / 70368744177664, by decide!, by rw [abs_le]; constructor <;> norm_num⟩
  ⟨refPlatform_libm, hlng, hlat, hgeo,
    (getDistance_self refPlatform refPlatform_libm
      (Dbl.lit (100005 / 10000), Dbl.lit (200004 / 10000)) hlng hlat).2.2 hgeo⟩

/-- C12 (as stated) fails: the position with longitude 0 and latitude `1e308`, a double.  The
product `pi * latitude` overflows to `+inf`, the cosine of an infinity is NaN, and the distance
of the position to itself is NaN, not 0.  (A record at this position is a bounding-box
candidate of a query at this position: both differences are 0.) -/
theorem getDistance_self_counterexample :
    (Dbl.lit (10 ^ 308)).isFinite = true ∧
    Dbl.fmul (Dbl.fmul 2 (refPlatform.asin 1)) (Dbl.lit (10 ^ 308)) = Dbl.pinf ∧
    refPlatform.cos Dbl.pinf = Dbl.nan ∧
    F64.getDistance refPlatform (0, Dbl.lit (10 ^ 308)) (0, Dbl.lit (10 ^ 308)) = Dbl.nan ∧
    (F64.block 0 (Dbl.lit (10 ^ 308)) ⟨dayLabels,
      [record 0 0 (Dbl.lit (10 ^ 308)) 0 0 0 0 0 0 0 0]⟩).rows = 1 := by
  decide!

/-! ## Distances of bounding-box candidates at geographic latitudes -/

namespace Dbl

theorem abs_le_of_fabs_fsub_lt (a b e : ℚ) (he : e ≤ 1)
    (h : (fabs (fsub (fin a) (fin b))).lt (fin e) = true) : |a - b| ≤ 1 := by
  have c1 : round64 1 = fin 1 ∧ round64 (-1) = fin (-1) := by decide!
  rw [fsub_fin] at h
  by_contra hc
  rw [not_le, lt_abs] at hc
  rcases hc with hc | hc
  · have m := round64_mono 1 (a - b) hc.le
    rw [c1.1] at m
    cases hr : round64 (a - b) with
    | fin r =>
      rw [hr] at m h
      simp only [Dbl.le, decide_eq_true_eq] at m
      simp only [fabs, Dbl.lt, decide_eq_true_eq] at h
      have := le_abs_self r
      linarith
    | pinf => rw [hr] at h; simp [fabs, Dbl.lt] at h
    | ninf => rw [hr] at m; simp [Dbl.le] at m
    | nan => rw [hr] at h; simp [fabs, Dbl.lt] at h
  · have m := round64_mono (a - b) (-1) (by linarith)
    rw [c1.2] at m
    cases hr : round64 (a - b) with
    | fin r =>
      rw [hr] at m h
      simp only [Dbl.le, decide_eq_true_eq] at m
      simp only [fabs, Dbl.lt, decide_eq_true_eq] at h
      have := neg_le_abs r
      linarith
    | pinf => rw [hr] at m; simp [Dbl.le] at m
    | ninf => rw [hr] at h; simp [fabs, Dbl.lt] at h
    | nan => rw [hr] at h; simp [fabs, Dbl.lt] at h

theorem fmul_abs_le (a b A B C : ℚ) (ha : |a| ≤ A) (hb : |b| ≤ B) (hC : A * B ≤ C)
    (c1 : round64 C = fin C) (c2 : round64 (-C) = fin (-C)) :
    ∃ r, fmul (fin a) (fin b) = fin r ∧ |r| ≤ C := by
  rw [fmul_fin]
  refine round64_abs_le (a * b) C c1 c2 ?_
  rw [abs_mul]
  exact le_trans (mul_le_mul ha hb (abs_nonneg _) (le_trans (abs_nonneg _) ha)) hC

theorem fdiv_abs_le (a d C : ℚ) (hd : 1 ≤ d) (ha : |a| ≤ C)
    (c1 : round64 C = fin C) (c2 : round64 (-C) = fin (-C)) :
    ∃ r, fdiv (fin a) (fin d) = fin r ∧ |r| ≤ C := by
  rw [fdiv_fin _ _ (by linarith)]
  refine round64_abs_le (a / d) C c1 c2 ?_
  rw [abs_div, abs_of_pos (by linarith : (0 : ℚ) < d)]
  exact le_trans (div_le_self (abs_nonneg _) hd) ha

end Dbl

theorem round64_consts_sq :
    Dbl.round64 1 = Dbl.fin 1 ∧ Dbl.round64 (-1) = Dbl.fin (-1) ∧
    Dbl.round64 0 = Dbl.fin 0 ∧
    Dbl.round64 2597737024000000 = Dbl.fin 2597737024000000 ∧
    Dbl.round64 5195474048000000 = Dbl.fin 5195474048000000 := by
  decide!

/-- The distance of a bounding-box candidate whose latitude lies between -90 and 90 degrees is
a number: no product overflows, and `std::sort` compares numbers. -/
theorem f64_numericDistances_of_latitudes (P : Platform) (hP : P.Conforming) (hL : P.Libm)
    (lng lat : Dbl) (day : DataFrame)
    (hgeo : ∀ b ∈ day.data, ∀ β : ℚ, b Label.LATITIDE = Dbl.fin β → |β| ≤ 90) :
    F64.NumericDistances P (lng, lat) (F64.block lng lat day) := by
  intro b hb
  obtain ⟨c3, c4, c6, c8, c2, c2', c360, c360', cr, cr', ck, ck'⟩ := round64_consts
  obtain ⟨d1, d1', d0, dsq, dsum⟩ := round64_consts_sq
  have hb' := hb
  rw [f64_block_data, List.mem_filter, Bool.and_eq_true, lit_fifth] at hb'
  obtain ⟨hbd, h1, h2⟩ := hb'
  obtain ⟨⟨fl1, fl2⟩, fb1, fb2⟩ := f64_block_finite lng lat day b hb
  obtain ⟨x0, rfl⟩ := (Dbl.isFinite_iff _).1 fl1
  obtain ⟨y0, rfl⟩ := (Dbl.isFinite_iff _).1 fl2
  obtain ⟨u, hu⟩ := (Dbl.isFinite_iff _).1 fb1
  obtain ⟨β, hβ⟩ := (Dbl.isFinite_iff _).1 fb2
  have hβ90 := hgeo b hbd β hβ
  rw [hu] at h1
  rw [hβ] at h2
  have e1 := Dbl.abs_le_of_fabs_fsub_lt x0 u _ (by norm_num) h1
  have e2 := Dbl.abs_le_of_fabs_fsub_lt y0 β _ (by norm_num) h2
  obtain ⟨dl, hdl, hdlb⟩ := Dbl.round64_abs_le (u - x0) 1 d1 d1' (by rwa [abs_sub_comm])
  obtain ⟨dt, hdt, hdtb⟩ := Dbl.round64_abs_le (β - y0) 1 d1 d1' (by rwa [abs_sub_comm])
  obtain ⟨tp, h2tp, htpabs, -⟩ := f64_getDistance_same_form P hL x0 y0
  obtain ⟨c, hc, hcb⟩ := f64_cos_of_latitude P hL β hβ90
  have hr : Dbl.fmul (Dbl.fin 6371) 1000 = Dbl.fin 6371000 := by decide!
  obtain ⟨k2, hk2, hk2b⟩ := Dbl.fmul_abs_le tp 6371000 8 6371000 50968000 htpabs
    (by norm_num) (by norm_num) ck ck'
  obtain ⟨y1, hy1, hy1b⟩ := Dbl.fmul_abs_le k2 dt 50968000 1 50968000 hk2b hdtb
    (by norm_num) ck ck'
  obtain ⟨y, hy, hyb⟩ := Dbl.fdiv_abs_le y1 360 50968000 (by norm_num) hy1b ck ck'
  obtain ⟨rc, hrc, hrcb⟩ := Dbl.fmul_abs_le 6371000 c 6371000 1 6371000 (by norm_num) hcb
    (by norm_num) cr cr'
  obtain ⟨k, hk, hkb⟩ := Dbl.fmul_abs_le tp rc 8 6371000 50968000 htpabs hrcb
    (by norm_num) ck ck'
  obtain ⟨x1, hx1, hx1b⟩ := Dbl.fmul_abs_le k dl 50968000 1 50968000 hkb hdlb
    (by norm_num) ck ck'
  obtain ⟨x, hx, hxb⟩ := Dbl.fdiv_abs_le x1 360 50968000 (by norm_num) hx1b ck ck'
  have hsqb : ∀ v : ℚ, |v| ≤ 50968000 → 0 ≤ v * v ∧ v * v ≤ 2597737024000000 := by
    intro v hv
    refine ⟨mul_self_nonneg v, ?_⟩
    have := mul_le_mul hv hv (abs_nonneg _) (le_trans (abs_nonneg _) hv)
    rw [← abs_mul, abs_mul_self] at this
    linarith
  obtain ⟨xx, hxx, hxx0, hxxb⟩ := Dbl.round64_between (x * x) 0 2597737024000000 d0 dsq
    (hsqb x hxb).1 (hsqb x hxb).2
  obtain ⟨yy, hyy, hyy0, hyyb⟩ := Dbl.round64_between (y * y) 0 2597737024000000 d0 dsq
    (hsqb y hyb).1 (hsqb y hyb).2
  obtain ⟨s, hs, hs0, -⟩ := Dbl.round64_between (xx + yy) 0 5195474048000000 d0 dsum
    (by linarith) (by linarith)
  obtain ⟨q, hq, -⟩ := hP.sqrt_fin s hs0
  have h360 : (360 : Dbl) = Dbl.fin 360 := by rw [Dbl.ofNat_lit]; norm_num
  have hdist : F64.distanceTo P (Dbl.fin x0, Dbl.fin y0) b = Dbl.fin q := by
    simp only [F64.distanceTo, F64.getDistance, hu, hβ, hr, h2tp, Dbl.fsub_fin, hdl, hdt, hk2,
      hy1, h360, hy, hc, hrc, hk, hx1, hx, Dbl.fmul_fin, hxx, hyy, Dbl.fadd_fin, hs, hq]
  rw [hdist]
  rfl

/-! ## `findNearest` in binary64 arithmetic -/

theorem tieTable64_finite : FiniteCoords tieTable64 := by
  intro b hb
  simp only [tieTable64, List.mem_cons, List.mem_singleton, List.not_mem_nil, or_false] at hb
  rcases hb with rfl | rfl <;> exact ⟨by decide!, by decide!⟩

/-- C7 (amended): for every query position and every non-empty candidate table whose records
have finite longitude and latitude and whose distances to the query position are not NaN,
`findNearest` returns a record of the table whose distance to the query position is less than
or equal to the distance of every candidate, and among the records that have the returned
record's coordinates it returns the first in the table's order.  Which of several locations at
the minimum distance is returned is left to `std::sort`. -/
theorem findNearest_minimum (P : Platform) (hP : P.Conforming) (loc : Loc_t) (df : DataFrame)
    (hne : df.data ≠ []) (hfin : FiniteCoords df) (hnum : F64.NumericDistances P loc df) :
    ∃ pre b post, df.data = pre ++ b :: post ∧
      F64.findNearest P loc df = some b ∧
      (∀ c ∈ df.data, (F64.distanceTo P loc b).le (F64.distanceTo P loc c) = true) ∧
      (∀ c ∈ pre, ¬ (c Label.LONGTITUDE = b Label.LONGTITUDE ∧
        c Label.LATITIDE = b Label.LATITIDE)) :=
  f64_findNearest_spec P hP loc df hne hfin hnum

/-- Two candidates at the same distance from `(0, 0)`: with insertion sort the first is
returned. -/
theorem findNearest_minimum_witness :
    refPlatform.Conforming ∧ tieTable64.data ≠ [] ∧ FiniteCoords tieTable64 ∧
    F64.NumericDistances refPlatform (0, 0) tieTable64 ∧
    F64.nearestIndices refPlatform (0, 0) tieTable64 = [0, 1] ∧
    (F64.findNearest refPlatform (0, 0) tieTable64).map (fun b => b Label.INDEX) = some 0 ∧
    ∃ pre b post, tieTable64.data = pre ++ b :: post ∧
      F64.findNearest refPlatform (0, 0) tieTable64 = some b ∧
      (∀ c ∈ tieTable64.data,
        (F64.distanceTo refPlatform (0, 0) b).le (F64.distanceTo refPlatform (0, 0) c) = true) ∧
      (∀ c ∈ pre, ¬ (c Label.LONGTITUDE = b Label.LONGTITUDE ∧
        c Label.LATITIDE = b Label.LATITIDE)) :=
  have hne : tieTable64.data ≠ [] := ne_nil_of_length_pos _ (by decide)
  have hnum : F64.NumericDistances refPlatform (0, 0) tieTable64 := by
    unfold F64.NumericDistances
    decide!
  ⟨refPlatform_conforming, hne, tieTable64_finite, hnum, by decide!, by decide!,
    findNearest_minimum refPlatform refPlatform_conforming (0, 0) tieTable64 hne
      tieTable64_finite hnum⟩

/-- C7 (as stated) fails in two ways.  (1) Seventeen candidates on the equator; the sixth and
the last are at the same, minimum distance from `(0, 0)`: the `std::sort` of the GNU library
puts the location of the last first, and `findNearest` returns the last record, not the one
that comes first in the table.  (2) Two candidates with finite coordinates, the first at
latitude `1e308`: its distance to `(0, 0)` is NaN (`pi * latitude` overflows), no comparison
with it holds, `std::sort` leaves it first, and `findNearest` returns it although the second
candidate is at distance 0.  (3) Two bounding-box candidates of the position `(0, 1e308)`,
both at latitude `1e308`: both distances are NaN, `findNearest` returns the first, and its
distance is not less than or equal to any distance. -/
theorem findNearest_counterexample :
    (F64.nearestIndices gnuPlatform (0, 0) tieTable17d = [5, 16] ∧
      (F64.findNearest gnuPlatform (0, 0) tieTable17d).map (fun b => b Label.INDEX) =
        some 16) ∧
    (FiniteCoords overflowTable ∧
      overflowTable.data.map (F64.distanceTo refPlatform (0, 0)) = [Dbl.nan, 0] ∧
      (F64.findNearest refPlatform (0, 0) overflowTable).map (fun b => b Label.INDEX) =
        some 0 ∧
      (F64.findNearest gnuPlatform (0, 0) overflowTable).map (fun b => b Label.INDEX) =
        some 0 ∧
      Dbl.nan.le 0 = false) ∧
    ((F64.block 0 (Dbl.lit (10 ^ 308)) overflowPair).data.map (fun b => b Label.INDEX) =
        [0, 1] ∧
      overflowPair.data.map (F64.distanceTo refPlatform (0, Dbl.lit (10 ^ 308))) =
        [Dbl.nan, Dbl.nan] ∧
      (F64.findNearest refPlatform (0, Dbl.lit (10 ^ 308))
        (F64.block 0 (Dbl.lit (10 ^ 308)) overflowPair)).map (fun b => b Label.INDEX) =
        some 0 ∧
      Dbl.nan.le Dbl.nan = false) := by
  refine ⟨by decide!, ⟨?_, by decide!, by decide!, by decide!, by decide!⟩,
    by decide!, by decide!, by decide!, by decide!⟩
  intro b hb
  simp only [overflowTable, List.mem_cons, List.mem_singleton, List.not_mem_nil, or_false] at hb
  rcases hb with rfl | rfl <;> exact ⟨by decide!, by decide!⟩

/-! ## A candidate equal to the query, in binary64 arithmetic -/

theorem f64_distance_nonneg (P : Platform) (hL : P.Libm) (loc : Loc_t) (b : Datablock)
    (h : (F64.distanceTo P loc b).le 0 = true) : F64.distanceTo P loc b = 0 := by
  obtain ⟨v, hv⟩ : ∃ v, F64.distanceTo P loc b = P.sqrt v := ⟨_, rfl⟩
  rw [hv] at h ⊢
  rcases hL.sqrt_range v with hn | hp | ⟨s, hs, hs0⟩
  · rw [hn] at h; simp [Dbl.le] at h
  · rw [hp] at h; simp [Dbl.le, Dbl.ofNat_lit] at h
  · rw [hs] at h ⊢
    simp only [Dbl.le, Dbl.ofNat_lit, decide_eq_true_eq, Nat.cast_zero] at h
    have : s = 0 := le_antisymm h hs0
    rw [this, Dbl.zero_def]

theorem memberTable64_finite : FiniteCoords memberTable64 := by
  intro b hb
  simp only [memberTable64, List.mem_cons, List.mem_singleton, List.not_mem_nil,
    or_false] at hb
  rcases hb with rfl | rfl | rfl <;> exact ⟨by decide!, by decide!⟩

/-- C13 (amended): for every query position `q` with finite coordinates and every candidate
table whose records have finite coordinates and distances to `q` that are not NaN, and which
contains a record with the coordinates `q`, `findNearest` returns a record of the table at
computed distance 0 from `q`; the coordinates of the returned record are `q` whenever no record
with other coordinates is at computed distance 0 from `q`. -/
theorem findNearest_literal (P : Platform) (hP : P.Conforming) (hL : P.Libm) (x β : ℚ)
    (df : DataFrame) (hfin : FiniteCoords df)
    (hnum : F64.NumericDistances P (Dbl.fin x, Dbl.fin β) df)
    (hmem : ∃ c ∈ df.data, c Label.LONGTITUDE = Dbl.fin x ∧ c Label.LATITIDE = Dbl.fin β) :
    ∃ b ∈ df.data, F64.findNearest P (Dbl.fin x, Dbl.fin β) df = some b ∧
      F64.distanceTo P (Dbl.fin x, Dbl.fin β) b = 0 ∧
      ((∀ c ∈ df.data, F64.distanceTo P (Dbl.fin x, Dbl.fin β) c = 0 →
          c Label.LONGTITUDE = Dbl.fin x ∧ c Label.LATITIDE = Dbl.fin β) →
        b Label.LONGTITUDE = Dbl.fin x ∧ b Label.LATITIDE = Dbl.fin β) := by
  obtain ⟨c0, hc0, hc1, hc2⟩ := hmem
  have hne : df.data ≠ [] := List.ne_nil_of_mem hc0
  obtain ⟨pre, b, post, hsplit, hfn, hmin, -⟩ :=
    f64_findNearest_spec P hP (Dbl.fin x, Dbl.fin β) df hne hfin hnum
  have hb : b ∈ df.data := by rw [hsplit]; simp
  have hd0 : F64.distanceTo P (Dbl.fin x, Dbl.fin β) c0 = 0 := by
    have hn := hnum c0 hc0
    simp only [F64.distanceTo, hc1, hc2] at hn ⊢
    rcases f64_getDistance_same_cases P hL x β with h0 | hnan
    · exact h0
    · rw [hnan] at hn
      exact absurd hn (by decide)
  have hle := hmin c0 hc0
  rw [hd0] at hle
  have hd := f64_distance_nonneg P hL _ b hle
  exact ⟨b, hb, hfn, hd, fun h => h b hb hd⟩

/-- Three candidates near `(10, 20)`, the second at `(10, 20)`: it alone is at distance 0 and
it is returned. -/
theorem findNearest_literal_witness :
    refPlatform.Conforming ∧ refPlatform.Libm ∧ FiniteCoords memberTable64 ∧
    F64.NumericDistances refPlatform (Dbl.fin 10, Dbl.fin 20) memberTable64 ∧
    (∃ c ∈ memberTable64.data,
      c Label.LONGTITUDE = Dbl.fin 10 ∧ c Label.LATITIDE = Dbl.fin 20) ∧
    (∀ c ∈ memberTable64.data, F64.distanceTo refPlatform (Dbl.fin 10, Dbl.fin 20) c = 0 →
      c Label.LONGTITUDE = Dbl.fin 10 ∧ c Label.LATITIDE = Dbl.fin 20) ∧
    (F64.findNearest refPlatform (Dbl.fin 10, Dbl.fin 20) memberTable64).map
      (fun b => b Label.INDEX) = some 1 ∧
    ∃ b ∈ memberTable64.data,
      F64.findNearest refPlatform (Dbl.fin 10, Dbl.fin 20) memberTable64 = some b ∧
      F64.distanceTo refPlatform (Dbl.fin 10, Dbl.fin 20) b = 0 ∧
      ((∀ c ∈ memberTable64.data,
          F64.distanceTo refPlatform (Dbl.fin 10, Dbl.fin 20) c = 0 →
          c Label.LONGTITUDE = Dbl.fin 10 ∧ c Label.LATITIDE = Dbl.fin 20) →
        b Label.LONGTITUDE = Dbl.fin 10 ∧ b Label.LATITIDE = Dbl.fin 20) :=
  have hnum : F64.NumericDistances refPlatform (Dbl.fin 10, Dbl.fin 20) memberTable64 := by
    unfold F64.NumericDistances
    decide!
  have hmem : ∃ c ∈ memberTable64.data,
      c Label.LONGTITUDE = Dbl.fin 10 ∧ c Label.LATITIDE = Dbl.fin 20 := by decide!
  ⟨refPlatform_conforming, refPlatform_libm, memberTable64_finite, hnum, hmem, by decide!,
    by decide!,
    findNearest_literal refPlatform refPlatform_conforming refPlatform_libm 10 20
      memberTable64 memberTable64_finite hnum hmem⟩

/-- C13 (as stated) fails in two ways.  (1) The table holds a record at `(0, 0)`, the query
position, behind a record at longitude `2 ^ -700` on the equator.  The east-west displacement
of the first record is about `2 ^ -683` m and its square underflows to 0: both records are at
the computed distance 0, `std::sort` leaves the first location first, and `findNearest` returns
the first record, whose longitude is not that of the query.  (2) The bounding-box candidates of
the position `(0, 1e308)` hold a record at that position behind a record 0.1 degrees east of
it: both distances are NaN (`pi * latitude` overflows), no comparison holds, and `findNearest`
returns the first record, whose longitude is not that of the query. -/
theorem findNearest_literal_counterexample :
    FiniteCoords underflowTable ∧
    underflowTable.data.map (fun c => (c Label.LONGTITUDE, c Label.LATITIDE)) =
      [(Dbl.fin (1 / 2 ^ 700), 0), (0, 0)] ∧
    underflowTable.data.map (F64.distanceTo refPlatform (0, 0)) = [0, 0] ∧
    (F64.findNearest refPlatform (0, 0) underflowTable).map
      (fun b => (b Label.INDEX, b Label.LONGTITUDE)) = some (0, Dbl.fin (1 / 2 ^ 700)) ∧
    (F64.findNearest gnuPlatform (0, 0) underflowTable).map
      (fun b => (b Label.INDEX, b Label.LONGTITUDE)) = some (0, Dbl.fin (1 / 2 ^ 700)) ∧
    Dbl.fin (1 / 2 ^ 700) ≠ (0 : Dbl) ∧ Dbl.IsDouble (Dbl.fin (1 / 2 ^ 700)) ∧
    (F64.block 0 (Dbl.lit (10 ^ 308)) overflowPair).data.map
      (fun c => (c Label.INDEX, c Label.LONGTITUDE, (c Label.LATITIDE).eq (Dbl.lit (10 ^ 308)))) =
      [(0, Dbl.lit (1 / 10), true), (1, 0, true)] ∧
    (F64.block 0 (Dbl.lit (10 ^ 308)) overflowPair).data.map
      (F64.distanceTo refPlatform (0, Dbl.lit (10 ^ 308))) = [Dbl.nan, Dbl.nan] ∧
    (F64.findNearest refPlatform (0, Dbl.lit (10 ^ 308))
      (F64.block 0 (Dbl.lit (10 ^ 308)) overflowPair)).map
      (fun b => (b Label.INDEX, (b Label.LONGTITUDE).eq 0)) = some (0, false) ∧
    (F64.findNearest gnuPlatform (0, Dbl.lit (10 ^ 308))
      (F64.block 0 (Dbl.lit (10 ^ 308)) overflowPair)).map
      (fun b => (b Label.INDEX, (b Label.LONGTITUDE).eq 0)) = some (0, false) := by
  refine ⟨?_, by decide!, by decide!, by decide!, by decide!, by decide!, by decide!,
    by decide!, by decide!, by decide!, by decide!⟩
  intro b hb
  simp only [underflowTable, List.mem_cons, List.mem_singleton, List.not_mem_nil,
    or_false] at hb
  rcases hb with rfl | rfl <;> exact ⟨by decide!, by decide!⟩

/-! ## The validity gate, in binary64 arithmetic -/

theorem f64_gateRejects_of_or (P : Platform) (lng lat : Dbl) (cell : Cid_t)
    (nearest : Datablock)
    (h : (F64.distanceTo P (lng, lat) nearest).gt 100 = true ∨
      (nearest Label.CELLID).ne (Dbl.ofInt cell) = true) :
    F64.gateRejects P lng lat cell nearest = true := by
  simp only [F64.gateRejects, SAME_LOCATION_THRESHOLD, Bool.or_eq_true]
  exact h

theorem f64_gateRejects_of_and (P : Platform) (lng lat : Dbl) (cell : Cid_t)
    (nearest : Datablock)
    (h : (F64.distanceTo P (lng, lat) nearest).le 100 = true ∧
      (nearest Label.CELLID).eq (Dbl.ofInt cell) = true) :
    ¬ F64.gateRejects P lng lat cell nearest = true := by
  have h1 := Dbl.lt_false_of_le _ _ h.1
  have h2 := Dbl.ne_false_of_eq _ _ h.2
  simp only [F64.distanceTo] at h1
  simp [F64.gateRejects, SAME_LOCATION_THRESHOLD, Dbl.gt, h1, h2]

theorem gate_exhaustive_of_number (d c x : Dbl) (hd : d.isNaN = false) :
    (d.gt 100 = true ∨ c.ne x = true) ∨ (d.le 100 = true ∧ c.eq x = true) := by
  by_cases h1 : d.gt 100 = true
  · exact Or.inl (Or.inl h1)
  · by_cases h2 : c.eq x = true
    · right
      refine ⟨?_, h2⟩
      simp only [Dbl.gt, Bool.not_eq_true] at h1
      exact Dbl.le_of_not_lt_dbl _ _ (by simp [Dbl.isNaN, Dbl.ofNat_lit]) hd h1
    · left; right
      simp [Dbl.ne, h2]

/-- C2 (amended): for every day whose bounding-box candidate set is non-empty and whose
candidates' distances to the position are not NaN, `findNearest` returns a candidate `nearest`
at least as near as every candidate, and: if its distance to the position exceeds 100 m or its
cell identifier differs from the current cell, the day adds no row to the combined frame; if
its distance is at most 100 m and its cell identifier is the current cell, the day adds its
match window, anchored at the time of `nearest`; one of the two cases holds. -/
theorem dayStep_validity_gate (P : Platform) (hP : P.Conforming) (lng lat : Dbl) (cell : Cid_t)
    (allFrame : DataFrame) (i : Nat) (day : DataFrame)
    (hne : (F64.block lng lat day).rows ≠ 0)
    (hnum : F64.NumericDistances P (lng, lat) (F64.block lng lat day)) :
    ∃ nearest ∈ (F64.block lng lat day).data,
      F64.findNearest P (lng, lat) (F64.block lng lat day) = some nearest ∧
      (∀ c ∈ (F64.block lng lat day).data,
        (F64.distanceTo P (lng, lat) nearest).le (F64.distanceTo P (lng, lat) c) = true) ∧
      (((F64.distanceTo P (lng, lat) nearest).gt 100 = true ∨
          (nearest Label.CELLID).ne (Dbl.ofInt cell) = true) →
        F64.dayStep P lng lat cell allFrame i day = some allFrame) ∧
      (((F64.distanceTo P (lng, lat) nearest).le 100 = true ∧
          (nearest Label.CELLID).eq (Dbl.ofInt cell) = true) →
        F64.dayStep P lng lat cell allFrame i day =
          some (allFrame.extend (F64.next_5sec day (nearest Label.TIME) i))) ∧
      (((F64.distanceTo P (lng, lat) nearest).gt 100 = true ∨
          (nearest Label.CELLID).ne (Dbl.ofInt cell) = true) ∨
        ((F64.distanceTo P (lng, lat) nearest).le 100 = true ∧
          (nearest Label.CELLID).eq (Dbl.ofInt cell) = true)) := by
  obtain ⟨nearest, hmem, hnear, hmin⟩ := f64_findNearest_block P hP lng lat day hne hnum
  have hstep := f64_dayStep_of_nearest P lng lat cell allFrame i day nearest hne hnear
  refine ⟨nearest, hmem, hnear, hmin, ?_, ?_,
    gate_exhaustive_of_number _ _ _ (hnum nearest hmem)⟩
  · intro h
    rw [hstep, if_pos (f64_gateRejects_of_or P lng lat cell nearest h)]
  · intro h
    rw [hstep, if_neg (f64_gateRejects_of_and P lng lat cell nearest h)]

/-- The gate examples of the specification, at position `(10, 20)` with current cell 5: a day
whose nearest candidate is about 150 m away adds no row; a day whose nearest candidate is about
50 m away in cell 6 adds no row; a day whose nearest candidate is about 50 m away in cell 5 adds
its window (here the anchor and the record at time 12.3). -/
theorem dayStep_validity_gate_witness :
    (F64.block 10 20 dayNear64).rows ≠ 0 ∧ refPlatform.Conforming ∧
    F64.NumericDistances refPlatform (10, 20) (F64.block 10 20 dayNear64) ∧
    (F64.block 10 20 dayFar64).data.map
      (fun b => ((F64.distanceTo refPlatform (10, 20) b).gt 100, b Label.CELLID)) =
      [(true, 5)] ∧
    (F64.dayStep refPlatform 10 20 5 DataFrame.empty 0 dayFar64).map DataFrame.rows = some 0 ∧
    (F64.block 10 20 dayOtherCell64).data.map
      (fun b => ((F64.distanceTo refPlatform (10, 20) b).le 100, b Label.CELLID)) =
      [(true, 6)] ∧
    (F64.dayStep refPlatform 10 20 5 DataFrame.empty 0 dayOtherCell64).map DataFrame.rows =
      some 0 ∧
    (F64.block 10 20 dayNear64).data.map
      (fun b => ((F64.distanceTo refPlatform (10, 20) b).le 100, b Label.CELLID)) =
      [(true, 5)] ∧
    (F64.dayStep refPlatform 10 20 5 DataFrame.empty 0 dayNear64).map
      (fun f => f.data.map (fun r => r Label.INDEX)) = some [0, 1] ∧
    ∃ nearest ∈ (F64.block 10 20 dayNear64).data,
      F64.findNearest refPlatform (10, 20) (F64.block 10 20 dayNear64) = some nearest ∧
      (∀ c ∈ (F64.block 10 20 dayNear64).data,
        (F64.distanceTo refPlatform (10, 20) nearest).le
          (F64.distanceTo refPlatform (10, 20) c) = true) ∧
      (((F64.distanceTo refPlatform (10, 20) nearest).gt 100 = true ∨
          (nearest Label.CELLID).ne (Dbl.ofInt 5) = true) →
        F64.dayStep refPlatform 10 20 5 DataFrame.empty 0 dayNear64 = some DataFrame.empty) ∧
      (((F64.distanceTo refPlatform (10, 20) nearest).le 100 = true ∧
          (nearest Label.CELLID).eq (Dbl.ofInt 5) = true) →
        F64.dayStep refPlatform 10 20 5 DataFrame.empty 0 dayNear64 =
          some (DataFrame.empty.extend (F64.next_5sec dayNear64 (nearest Label.TIME) 0))) ∧
      (((F64.distanceTo refPlatform (10, 20) nearest).gt 100 = true ∨
          (nearest Label.CELLID).ne (Dbl.ofInt 5) = true) ∨
        ((F64.distanceTo refPlatform (10, 20) nearest).le 100 = true ∧
          (nearest Label.CELLID).eq (Dbl.ofInt 5) = true)) :=
  have hne : (F64.block 10 20 dayNear64).rows ≠ 0 := by decide!
  have hnum : F64.NumericDistances refPlatform (10, 20) (F64.block 10 20 dayNear64) := by
    unfold F64.NumericDistances
    decide!
  ⟨hne, refPlatform_conforming, hnum, by decide!, by decide!, by decide!, by decide!,
    by decide!, by decide!,
    dayStep_validity_gate refPlatform refPlatform_conforming 10 20 5 DataFrame.empty 0
      dayNear64 hne hnum⟩

/-- C2 (as stated) fails: the position `(0, 1e308)` and a day whose only record lies 0.1
degrees east of it, at the same latitude, in the current cell 5.  The record is a bounding-box
candidate (the differences are 0.1 and 0 degrees); its distance is NaN (`pi * latitude`
overflows and the cosine of an infinity is NaN), which neither exceeds 100 nor is at most 100;
the test `distance > 100` is false, the cell matches, and the day is included: its record
enters the combined frame. -/
theorem dayStep_validity_gate_counterexample :
    (F64.block 0 (Dbl.lit (10 ^ 308)) dayHuge).rows = 1 ∧
    (F64.block 0 (Dbl.lit (10 ^ 308)) dayHuge).data.map
      (F64.distanceTo refPlatform (0, Dbl.lit (10 ^ 308))) = [Dbl.nan] ∧
    Dbl.nan.gt 100 = false ∧ Dbl.nan.le 100 = false ∧
    (F64.dayStep refPlatform 0 (Dbl.lit (10 ^ 308)) 5 DataFrame.empty 0 dayHuge).map
      (fun f => f.data.map (fun r => r Label.INDEX)) = some [0] := by
  decide!

/-! ## The match window, in binary64 arithmetic -/

namespace Dbl

theorem isDouble_fin (q : ℚ) : (fin q).IsDouble ↔ round64 q = fin q := Iff.rfl

theorem window_fin (t0 s : Dbl) (hs : s.IsDouble) (h1 : t0.le s = true)
    (h2 : s.lt (fadd t0 5) = true) :
    ∃ q0 q, t0 = fin q0 ∧ s = fin q ∧ q0 ≤ q ∧ q < q0 + 5 := by
  cases t0 with
  | fin q0 =>
    cases s with
    | fin q =>
      refine ⟨q0, q, rfl, rfl, ?_, ?_⟩
      · simpa [Dbl.le] using h1
      · rw [ofNat_lit, fadd_fin] at h2
        have := lt_of_lt_round64 q (q0 + ((5 : Nat) : ℚ)) hs h2
        simpa using this
    | pinf =>
      generalize fadd (fin q0) 5 = z at h2
      cases z <;> simp [Dbl.lt] at h2
    | ninf => simp [Dbl.le] at h1
    | nan => simp [Dbl.le] at h1
  | pinf =>
    cases s <;> simp [Dbl.le, Dbl.lt, fadd, Dbl.add, rnd, ofNat_lit] at h1 h2
  | ninf =>
    cases s <;> simp [Dbl.le, Dbl.lt, fadd, Dbl.add, rnd, ofNat_lit] at h1 h2
  | nan => cases s <;> simp [Dbl.le] at h1

theorem round64_five : round64 0 = fin 0 ∧ round64 5 = fin 5 := by decide!

theorem rebase_bounds64 (t0 s : Dbl) (hs : s.IsDouble) (h1 : t0.le s = true)
    (h2 : s.lt (fadd t0 5) = true) : ∃ r, fsub s t0 = fin r ∧ 0 ≤ r ∧ r ≤ 5 := by
  obtain ⟨q0, q, rfl, rfl, h3, h4⟩ := window_fin t0 s hs h1 h2
  rw [fsub_fin]
  exact round64_between (q - q0) 0 5 round64_five.1 round64_five.2 (by linarith) (by linarith)

theorem fadd_of_isDouble (a b : Dbl) (h : (Dbl.add a b).IsDouble) : fadd a b = Dbl.add a b := h

theorem fsub_of_isDouble (a b : Dbl) (h : (Dbl.sub a b).IsDouble) : fsub a b = Dbl.sub a b := h

end Dbl

theorem f64_rebased_time_bounds (t0 : Dbl) (i : Nat) (b : Datablock)
    (hd : (b Label.TIME).IsDouble) (hw : F64.inWindow t0 b = true) :
    ∃ r, (F64.rebased t0 i b) Label.TIME = Dbl.fin r ∧ 0 ≤ r ∧ r ≤ 5 := by
  simp only [F64.inWindow, Bool.and_eq_true] at hw
  have : (F64.rebased t0 i b) Label.TIME = Dbl.fsub (b Label.TIME) t0 := by simp [F64.rebased]
  rw [this]
  exact Dbl.rebase_bounds64 _ _ hd hw.1 hw.2

/-- C3 (amended): for every day table, anchor time `t0` and day index `i`, the match window
holds exactly the day's records, in their order, whose time lies in `[t0, t0 ⊕ 5)`, where
`t0 ⊕ 5` is the double sum, each with its time replaced by the double difference `time ⊖ t0`
(the column `"day"` set to `i`, every other field unchanged); the rebased time of a record
whose time is a double lies in `[0, 5]`; a record whose time is the double sum `t0 ⊕ 5`, or is
exactly `t0 + 5`, is not in the window; where the sum `t0 + 5` is a double the window is the
interval `[t0, t0 + 5)`, and where the difference `time - t0` is a double it is the rebased
time. -/
theorem next_5sec_window (day : DataFrame) (t0 : Dbl) (i : Nat) :
    (F64.next_5sec day t0 i).data =
      (day.data.filter (fun b => t0.le (b Label.TIME) && (b Label.TIME).lt (Dbl.fadd t0 5))).map
        (F64.rebased t0 i) ∧
    (∀ b : Datablock, (F64.rebased t0 i b) Label.TIME = Dbl.fsub (b Label.TIME) t0 ∧
      (F64.rebased t0 i b) Label.DAY = Dbl.ofNat64 i ∧
      ∀ l, l ≠ Label.TIME → l ≠ Label.DAY → (F64.rebased t0 i b) l = b l) ∧
    (∀ b : Datablock, (b Label.TIME).IsDouble → t0.le (b Label.TIME) = true →
      (b Label.TIME).lt (Dbl.fadd t0 5) = true →
      ∃ r, (F64.rebased t0 i b) Label.TIME = Dbl.fin r ∧ 0 ≤ r ∧ r ≤ 5) ∧
    (∀ b : Datablock, b Label.TIME = Dbl.fadd t0 5 →
      (t0.le (b Label.TIME) && (b Label.TIME).lt (Dbl.fadd t0 5)) = false) ∧
    (∀ b : Datablock, (b Label.TIME).IsDouble → b Label.TIME = t0 + 5 →
      (t0.le (b Label.TIME) && (b Label.TIME).lt (Dbl.fadd t0 5)) = false) ∧
    ((t0 + 5).IsDouble → ∀ b : Datablock,
      (t0.le (b Label.TIME) && (b Label.TIME).lt (Dbl.fadd t0 5)) =
        (t0.le (b Label.TIME) && (b Label.TIME).lt (t0 + 5))) ∧
    (∀ b : Datablock, (b Label.TIME - t0).IsDouble →
      (F64.rebased t0 i b) Label.TIME = b Label.TIME - t0) := by
  refine ⟨f64_next_5sec_data day t0 i, ?_, ?_, ?_, ?_, ?_, ?_⟩
  · intro b
    refine ⟨by simp [F64.rebased], by simp [F64.rebased], ?_⟩
    intro l h1 h2
    simp [F64.rebased, h1, h2]
  · intro b hd h1 h2
    have : (F64.rebased t0 i b) Label.TIME = Dbl.fsub (b Label.TIME) t0 := by simp [F64.rebased]
    rw [this]
    exact Dbl.rebase_bounds64 _ _ hd h1 h2
  · intro b hb
    simp [hb, Dbl.lt_irrefl]
  · intro b hd hb
    have : Dbl.fadd t0 5 = b Label.TIME := by
      rw [hb] at hd
      rw [hb]
      exact hd
    simp [this, Dbl.lt_irrefl]
  · intro hd b
    have : Dbl.fadd t0 5 = t0 + 5 := hd
    rw [this]
  · intro b hd
    have : (F64.rebased t0 i b) Label.TIME = Dbl.fsub (b Label.TIME) t0 := by simp [F64.rebased]
    rw [this]
    exact hd

/-- The window example of the specification, in doubles: with `t0 = 10`, the record at time
12.3 is in the window with rebased time `12.3 ⊖ 10 = 2.3000000000000007`, and the record at
time 15 is not in the window. -/
theorem next_5sec_window_witness :
    (F64.next_5sec dayNear64 10 0).data.map (fun r => (r Label.INDEX, r Label.TIME)) =
      [(0, 0), (1, Dbl.fin (647392446434509 / 281474976710656))] ∧
    (Dbl.fin (647392446434509 / 281474976710656)).IsDouble ∧
    (F64.next_5sec dayNear64 10 0).data =
      (dayNear64.data.filter
        (fun b => (10 : Dbl).le (b Label.TIME) && (b Label.TIME).lt (Dbl.fadd 10 5))).map
        (F64.rebased 10 0) :=
  ⟨by decide!, by decide!, (next_5sec_window dayNear64 10 0).1⟩

/-- C3 (as stated) fails in three ways.  With anchor time 2.653, the record at time 7.653 is
in the window and its rebased time is exactly 5, outside `[0, 5)`.  With anchor time 0.1, the
record at time 5.1 lies in the interval `[t0, t0 + 5)` and is not in the window, because the
double sum `0.1 ⊕ 5` is the double 5.1.  With anchor time 10, the rebased time of the record
at time 12.3 is not the double 2.3. -/
theorem next_5sec_window_counterexample :
    (F64.next_5sec dayEdge64 (Dbl.lit (2653 / 1000)) 0).data.map
      (fun r => (r Label.INDEX, r Label.TIME)) = [(0, 0), (1, 5)] ∧
    (5 : Dbl).lt 5 = false ∧
    (F64.next_5sec dayTenth64 (Dbl.lit (1 / 10)) 0).data.map
      (fun r => (r Label.INDEX, r Label.TIME)) = [(0, 0)] ∧
    (dayTenth64.data.filter (fun b => (Dbl.lit (1 / 10)).le (b Label.TIME) &&
      (b Label.TIME).lt (Dbl.lit (1 / 10) + 5))).map (fun r => r Label.INDEX) = [0, 1] ∧
    (F64.next_5sec dayNear64 10 0).data.map (fun r => (r Label.TIME).eq (Dbl.lit (23 / 10))) =
      [false, false] := by
  decide!

/-! ## The prediction, in binary64 arithmetic -/

theorem envTwo64_df_ne_nil : envTwo64.df ≠ [] := by
  simp [envTwo64, CarrierEnv.new, CarrierEnv.updateCell]

theorem envTwo64_numeric :
    ∀ day ∈ envTwo64.df, F64.NumericDistances refPlatform (10, 20) (F64.block 10 20 day) := by
  intro day hday
  simp only [envTwo64, CarrierEnv.new, CarrierEnv.updateCell, List.map_cons, List.map_nil,
    List.mem_cons, List.mem_singleton, List.not_mem_nil, or_false] at hday
  rcases hday with rfl | rfl <;>
  · unfold F64.NumericDistances
    decide!

theorem frameTwo64_eq : F64.combinedFrame refPlatform envTwo64 10 20 = some frameTwo64 :=
  eq_some_getD_of_isSome _ _ (by decide!)

/-- C4 (amended): for every engine state with at least one day dataset and every call
`updateLocation(lng, lat, T)`: whenever the call returns, the published prediction has exactly
5 rows, and the time field of row `t` is the double sum `T ⊕ t` for `t = 0, .., 4`, which is
`T + t` where `T + t` is a double, whatever days matched and whatever records fell into each
second; and the call returns on a platform whose `std::sort` conforms when no distance of a
bounding-box candidate to the position is NaN, as when every recorded latitude lies between
-90 and 90 degrees. -/
theorem updateLocation_five_rows (P : Platform) (hP : P.Conforming) (env : CarrierEnv)
    (hdf : env.df ≠ []) (lng lat T : Dbl) :
    ((∀ day ∈ env.df, F64.NumericDistances P (lng, lat) (F64.block lng lat day)) →
      ∃ env', F64.updateLocation P env lng lat T = some env') ∧
    (P.Libm →
      (∀ day ∈ env.df, ∀ b ∈ day.data, ∀ β : ℚ, b Label.LATITIDE = Dbl.fin β → |β| ≤ 90) →
      ∃ env', F64.updateLocation P env lng lat T = some env') ∧
    ∀ env', F64.updateLocation P env lng lat T = some env' →
      env'.prediction.data.length = 5 ∧
      ∀ t, t < 5 →
        cell? env'.prediction t Label.TIME = some (Dbl.fadd T (Dbl.ofNat t)) ∧
        ((T + Dbl.ofNat t).IsDouble →
          cell? env'.prediction t Label.TIME = some (T + Dbl.ofNat t)) := by
  have total : (∀ day ∈ env.df, F64.NumericDistances P (lng, lat) (F64.block lng lat day)) →
      ∃ env', F64.updateLocation P env lng lat T = some env' := by
    intro hnum
    obtain ⟨allFrame, hframe⟩ := f64_combinedFrame_total P hP env hdf lng lat hnum
    obtain ⟨env', h, -⟩ := f64_updateLocation_frame P env lng lat T allFrame hframe
    exact ⟨env', h⟩
  refine ⟨total, ?_, ?_⟩
  · intro hL hgeo
    exact total (fun day hday =>
      f64_numericDistances_of_latitudes P hP hL lng lat day (hgeo day hday))
  · intro env' h
    obtain ⟨allFrame, -, hp, -, -⟩ := f64_updateLocation_inv P env env' lng lat T h
    refine ⟨by rw [hp, f64_predict_length], ?_⟩
    intro t ht
    have key : cell? env'.prediction t Label.TIME = some (Dbl.fadd T (Dbl.ofNat t)) := by
      rw [hp, f64_cell?_predict allFrame _ T t ht, f64_secondRow_time]
    refine ⟨key, ?_⟩
    intro hd
    rw [key, Dbl.fadd_of_isDouble _ _ hd]
    rfl

/-- The end-to-end scenario at request time 7: the call returns, five rows, at times 7, 8, 9,
10, 11. -/
theorem updateLocation_five_rows_witness :
    envTwo64.df ≠ [] ∧ refPlatform.Conforming ∧
    (∀ day ∈ envTwo64.df, F64.NumericDistances refPlatform (10, 20) (F64.block 10 20 day)) ∧
    (F64.updateLocation refPlatform envTwo64 10 20 7).map
      (fun e => e.prediction.data.map (fun r => r Label.TIME)) = some [7, 8, 9, 10, 11] ∧
    ((∀ day ∈ envTwo64.df, F64.NumericDistances refPlatform (10, 20) (F64.block 10 20 day)) →
      ∃ env', F64.updateLocation refPlatform envTwo64 10 20 7 = some env') ∧
    (refPlatform.Libm →
      (∀ day ∈ envTwo64.df, ∀ b ∈ day.data, ∀ β : ℚ, b Label.LATITIDE = Dbl.fin β →
        |β| ≤ 90) →
      ∃ env', F64.updateLocation refPlatform envTwo64 10 20 7 = some env') ∧
    ∀ env', F64.updateLocation refPlatform envTwo64 10 20 7 = some env' →
      env'.prediction.data.length = 5 ∧
      ∀ t, t < 5 →
        cell? env'.prediction t Label.TIME = some (Dbl.fadd 7 (Dbl.ofNat t)) ∧
        (((7 : Dbl) + Dbl.ofNat t).IsDouble →
          cell? env'.prediction t Label.TIME = some (7 + Dbl.ofNat t)) :=
  ⟨envTwo64_df_ne_nil, refPlatform_conforming, envTwo64_numeric, by decide!,
    updateLocation_five_rows refPlatform refPlatform_conforming envTwo64 envTwo64_df_ne_nil
      10 20 7⟩

/-- C4 (as stated) fails: at the request time `T = 2^53` the end-to-end scenario publishes the
times `2^53, 2^53, 2^53 + 2, 2^53 + 4, 2^53 + 4`: the time of row 1 is not `T + 1`, the time of
row 3 is not `T + 3`. -/
theorem updateLocation_five_rows_counterexample :
    (F64.updateLocation refPlatform envTwo64 10 20 (Dbl.fin (2 ^ 53))).map
      (fun e => e.prediction.data.map (fun r => r Label.TIME)) =
      some [Dbl.fin (2 ^ 53), Dbl.fin (2 ^ 53), Dbl.fin (2 ^ 53 + 2), Dbl.fin (2 ^ 53 + 4),
        Dbl.fin (2 ^ 53 + 4)] ∧
    (Dbl.fin (2 ^ 53)).IsDouble ∧
    (Dbl.fin (2 ^ 53) + Dbl.ofNat 1).eq (Dbl.fin (2 ^ 53)) = false ∧
    (Dbl.fin (2 ^ 53) + Dbl.ofNat 3).eq (Dbl.fin (2 ^ 53 + 4)) = false := by
  decide!

/-! ## The mean of a metric, in binary64 arithmetic -/

theorem f64_foldl_exact : ∀ (qs : List ℚ) (a : ℚ),
    (∀ k, 1 ≤ k → k ≤ qs.length →
      Dbl.round64 (a + (qs.take k).sum) = Dbl.fin (a + (qs.take k).sum)) →
    (qs.map Dbl.fin).foldl (fun s v => Dbl.fadd s v) (Dbl.fin a) = Dbl.fin (a + qs.sum)
  | [], a, _ => by simp
  | q :: qs, a, h => by
    have h1 := h 1 (le_refl 1) (by simp)
    simp only [List.take_succ_cons, List.take_zero, List.sum_cons, List.sum_nil, add_zero] at h1
    simp only [List.map_cons, List.foldl_cons, Dbl.fadd_fin, h1, List.sum_cons]
    rw [f64_foldl_exact qs (a + q), add_assoc]
    intro k hk1 hk2
    have := h (k + 1) (by omega) (by simpa using hk2)
    simpa [List.take_succ_cons, add_assoc] using this

theorem f64_mean_exact (qs : List ℚ) (hne : qs ≠ [])
    (hsum : ∀ k, 1 ≤ k → k ≤ qs.length →
      Dbl.round64 ((qs.take k).sum) = Dbl.fin ((qs.take k).sum))
    (hcount : Dbl.round64 (qs.length : ℚ) = Dbl.fin (qs.length : ℚ))
    (hquot : Dbl.round64 (F64.exactMean qs) = Dbl.fin (F64.exactMean qs)) :
    F64.mean (qs.map Dbl.fin) = Dbl.fin (F64.exactMean qs) := by
  have h0 : (0 : Dbl) = Dbl.fin 0 := Dbl.zero_def
  have hlen : (qs.length : ℚ) ≠ 0 := by
    have : 0 < qs.length := List.length_pos.2 hne
    exact_mod_cast this.ne'
  simp only [F64.mean, F64.sum, h0, List.length_map, Dbl.ofNat64, hcount]
  rw [f64_foldl_exact qs 0 (by simpa using hsum), zero_add, Dbl.fdiv_fin _ _ hlen]
  exact hquot

/-- C1 (amended): for every combined frame, request time `T`, forward second `t < 5` with at
least one record whose rebased time rounds to `t`, and each of throughput, round-trip time and
loss, the value in row `t` of the prediction is the mean of that metric over exactly the
records whose rebased time rounds to `t` as doubles compute it: the values are added one by
one in the order of the frame, every partial sum rounded to a double, and the last sum is
divided by the count, the quotient rounded to a double; it is the arithmetic mean (sum divided
by count) where the partial sums, the count and the quotient are doubles; and
`updateLocation` publishes that prediction whenever the frame is the one it has combined. -/
theorem updateLocation_metric_mean (allFrame : DataFrame) (T : Dbl) (t : Nat) (m : Label)
    (ht : t < 5) (hm : m = Label.THROUGHPUT ∨ m = Label.RTT ∨ m = Label.LOSS)
    (hsel : selected allFrame t ≠ []) :
    (∀ labels, cell? (F64.predict allFrame labels T) t m =
        some (F64.mean ((selected allFrame t).map (fun b => b m)))) ∧
    (∀ (P : Platform) (env : CarrierEnv) (lng lat : Dbl),
      F64.combinedFrame P env lng lat = some allFrame →
      ∃ env', F64.updateLocation P env lng lat T = some env' ∧
        cell? env'.prediction t m =
          some (F64.mean ((selected allFrame t).map (fun b => b m)))) ∧
    F64.mean ((selected allFrame t).map (fun b => b m)) =
      Dbl.fdiv (((selected allFrame t).map (fun b => b m)).foldl (fun s v => Dbl.fadd s v) 0)
        (Dbl.ofNat64 (selected allFrame t).length) ∧
    ∀ qs : List ℚ, (selected allFrame t).map (fun b => b m) = qs.map Dbl.fin →
      (∀ k, 1 ≤ k → k ≤ qs.length →
        Dbl.round64 ((qs.take k).sum) = Dbl.fin ((qs.take k).sum)) →
      Dbl.round64 (qs.length : ℚ) = Dbl.fin (qs.length : ℚ) →
      Dbl.round64 (qs.sum / qs.length) = Dbl.fin (qs.sum / qs.length) →
      F64.mean ((selected allFrame t).map (fun b => b m)) = Dbl.fin (qs.sum / qs.length) := by
  have key : ∀ labels, cell? (F64.predict allFrame labels T) t m =
      some (F64.mean ((selected allFrame t).map (fun b => b m))) := by
    intro labels
    rw [f64_cell?_predict allFrame labels T t ht, f64_secondRow_metric allFrame T t m hm]
  refine ⟨key, ?_, ?_, ?_⟩
  · intro P env lng lat hframe
    obtain ⟨env', h, hp, -, -⟩ := f64_updateLocation_frame P env lng lat T allFrame hframe
    refine ⟨env', h, ?_⟩
    rw [hp]
    exact key env.prediction.labels
  · simp [F64.mean, F64.sum]
  · intro qs hqs hsum hcount hquot
    have hne : qs ≠ [] := by
      intro hnil
      rw [hnil, List.map_nil, List.map_eq_nil_iff] at hqs
      exact hsel hqs
    rw [hqs]
    exact f64_mean_exact qs hne hsum hcount hquot

/-- The end-to-end scenario: two days with anchors at times 100 and 200 and throughputs 70 and
110 one second later give throughput 90 in row 1. -/
theorem updateLocation_metric_mean_witness :
    selected frameTwo64 1 ≠ [] ∧ F64.combinedFrame refPlatform envTwo64 10 20 = some frameTwo64 ∧
    (selected frameTwo64 1).map (fun b => b Label.THROUGHPUT) = [70, 110] ∧
    F64.mean ((selected frameTwo64 1).map (fun b => b Label.THROUGHPUT)) = 90 ∧
    ∃ env', F64.updateLocation refPlatform envTwo64 10 20 0 = some env' ∧
      cell? env'.prediction 1 Label.THROUGHPUT =
        some (F64.mean ((selected frameTwo64 1).map (fun b => b Label.THROUGHPUT))) :=
  have hsel : selected frameTwo64 1 ≠ [] := ne_nil_of_length_pos _ (by decide!)
  ⟨hsel, frameTwo64_eq, by decide!, by decide!,
    (updateLocation_metric_mean frameTwo64 0 1 Label.THROUGHPUT (by decide) (Or.inl rfl)
      hsel).2.1 refPlatform envTwo64 10 20 frameTwo64_eq⟩

/-- C1 (as stated) fails: three days whose anchors hold the throughputs 0.1, 0.2 and 0.3.
Row 0 of the prediction holds 0.20000000000000004, the double that the rounded sums give; the
arithmetic mean of the three doubles is another number, and the double nearest to it is 0.2. -/
theorem updateLocation_metric_mean_counterexample :
    (F64.updateLocation refPlatform envMixed64 0 0 0).map
      (fun e => cell? e.prediction 0 Label.THROUGHPUT) =
      some (some (Dbl.fin (7205759403792795 / 36028797018963968))) ∧
    (F64.combinedFrame refPlatform envMixed64 0 0).map
      (fun f => (selected f 0).map (fun b => b Label.THROUGHPUT)) =
      some [Dbl.fin (3602879701896397 / 36028797018963968),
        Dbl.fin (3602879701896397 / 18014398509481984),
        Dbl.fin (5404319552844595 / 18014398509481984)] ∧
    F64.exactMean [3602879701896397 / 36028797018963968, 3602879701896397 / 18014398509481984,
      5404319552844595 / 18014398509481984] = 21617278211378381 / 108086391056891904 ∧
    Dbl.round64 (21617278211378381 / 108086391056891904) =
      Dbl.fin (3602879701896397 / 18014398509481984) := by
  decide!

/-! ## The mean of a constant column, in binary64 arithmetic -/

theorem f64_foldl_replicate_absorb (v : Dbl) (hv : Dbl.fadd v v = v) (n : Nat) :
    (List.replicate n v).foldl (fun s w => Dbl.fadd s w) v = v := by
  induction n with
  | zero => rfl
  | succ n ih => simp only [List.replicate_succ, List.foldl_cons, hv, ih]

theorem f64_ofNat64_pos (n : Nat) (h1 : 1 ≤ n) (h2 : n ≤ 2 ^ 64) :
    ∃ r : ℚ, Dbl.ofNat64 n = Dbl.fin r ∧ 1 ≤ r := by
  have c : Dbl.round64 1 = Dbl.fin 1 ∧ Dbl.round64 (2 ^ 64) = Dbl.fin (2 ^ 64) := by decide!
  obtain ⟨r, hr, hr1, -⟩ := Dbl.round64_between (n : ℚ) 1 (2 ^ 64) c.1 c.2
    (by exact_mod_cast h1) (by exact_mod_cast h2)
  exact ⟨r, hr, hr1⟩

theorem f64_mean_replicate (n : Nat) (hn : 1 ≤ n) (v : Dbl)
    (hmult : ∀ q, v = Dbl.fin q → ∀ k : Nat, 1 ≤ k → k ≤ n →
      Dbl.round64 (k * q) = Dbl.fin (k * q))
    (hcount : Dbl.round64 (n : ℚ) = Dbl.fin (n : ℚ)) :
    F64.mean (List.replicate n v) = v := by
  have hn' : (n : ℚ) ≠ 0 := by
    have : 0 < n := hn
    exact_mod_cast this.ne'
  have hpos : (0 : ℚ) ≤ n := by positivity
  cases v with
  | fin q =>
    have hq := hmult q rfl
    have hmap : List.replicate n (Dbl.fin q) = (List.replicate n q).map Dbl.fin := by simp
    have hne : List.replicate n q ≠ [] := by
      intro h
      have := congrArg List.length h
      simp at this
      omega
    rw [hmap, f64_mean_exact (List.replicate n q) hne]
    · simp only [F64.exactMean, List.sum_replicate, List.length_replicate, nsmul_eq_mul]
      congr 1
      field_simp
    · intro k hk1 hk2
      simp only [List.length_replicate] at hk2
      simp only [List.take_replicate, min_eq_left hk2, List.sum_replicate, nsmul_eq_mul]
      exact hq k hk1 hk2
    · simpa using hcount
    · have h1 := hq 1 (le_refl 1) hn
      simp only [F64.exactMean, List.sum_replicate, List.length_replicate, nsmul_eq_mul]
      have : (n : ℚ) * q / n = q := by field_simp
      rw [this]
      simpa using h1
  | pinf =>
    obtain ⟨k, rfl⟩ : ∃ k, n = k + 1 := ⟨n - 1, by omega⟩
    have h1 : Dbl.fadd 0 Dbl.pinf = Dbl.pinf := rfl
    simp only [F64.mean, F64.sum, List.replicate_succ, List.foldl_cons, h1,
      f64_foldl_replicate_absorb Dbl.pinf rfl, List.length_cons, List.length_replicate,
      Dbl.ofNat64, hcount, Dbl.fdiv, Dbl.div]
    have hk : (0 : ℚ) ≤ (k : ℚ) + 1 := by positivity
    simp [hk]
    rfl
  | ninf =>
    obtain ⟨k, rfl⟩ : ∃ k, n = k + 1 := ⟨n - 1, by omega⟩
    have h1 : Dbl.fadd 0 Dbl.ninf = Dbl.ninf := rfl
    simp only [F64.mean, F64.sum, List.replicate_succ, List.foldl_cons, h1,
      f64_foldl_replicate_absorb Dbl.ninf rfl, List.length_cons, List.length_replicate,
      Dbl.ofNat64, hcount, Dbl.fdiv, Dbl.div]
    have hk : (0 : ℚ) ≤ (k : ℚ) + 1 := by positivity
    simp [hk]
    rfl
  | nan =>
    obtain ⟨k, rfl⟩ : ∃ k, n = k + 1 := ⟨n - 1, by omega⟩
    have h1 : Dbl.fadd 0 Dbl.nan = Dbl.nan := rfl
    simp only [F64.mean, F64.sum, List.replicate_succ, List.foldl_cons, h1,
      f64_foldl_replicate_absorb Dbl.nan rfl, List.length_cons, List.length_replicate,
      Dbl.ofNat64, hcount, Dbl.fdiv, Dbl.div, Dbl.rnd]

theorem frameThree64_eq : F64.combinedFrame refPlatform envThree 0 0 = some frameThree64 :=
  eq_some_getD_of_isSome _ _ (by decide!)

/-- C14 (amended): for every value `v`, every forward second `t < 5` and every non-empty set of
`n` contributing records for `t` in which a column of throughput, round-trip time or loss holds
the constant value `v`, where the multiples `v, 2 v, .., n v` of a finite `v` are doubles and
the count `n` is a double, the aggregated value of that metric in row `t` of the prediction is
exactly `v`, and `updateLocation` publishes it whenever the frame is the one it has
combined. -/
theorem updateLocation_constant_mean (allFrame : DataFrame) (T : Dbl) (t : Nat) (m : Label)
    (v : Dbl) (ht : t < 5) (hm : m = Label.THROUGHPUT ∨ m = Label.RTT ∨ m = Label.LOSS)
    (hsel : selected allFrame t ≠ [])
    (hconst : ∀ b ∈ selected allFrame t, b m = v)
    (hmult : ∀ q, v = Dbl.fin q → ∀ k : Nat, 1 ≤ k → k ≤ (selected allFrame t).length →
      Dbl.round64 (k * q) = Dbl.fin (k * q))
    (hcount : Dbl.round64 ((selected allFrame t).length : ℚ) =
      Dbl.fin ((selected allFrame t).length : ℚ)) :
    (∀ labels, cell? (F64.predict allFrame labels T) t m = some v) ∧
    ∀ (P : Platform) (env : CarrierEnv) (lng lat : Dbl),
      F64.combinedFrame P env lng lat = some allFrame →
      ∃ env', F64.updateLocation P env lng lat T = some env' ∧
        cell? env'.prediction t m = some v := by
  have hlen : 1 ≤ (selected allFrame t).length := List.length_pos.2 hsel
  have hrep : (selected allFrame t).map (fun b => b m) =
      List.replicate (selected allFrame t).length v := by
    have := eq_replicate_of_const ((selected allFrame t).map (fun b => b m)) v
      (by
        intro w hw
        obtain ⟨b, hb, rfl⟩ := List.mem_map.1 hw
        exact hconst b hb)
    rwa [List.length_map] at this
  have key : ∀ labels, cell? (F64.predict allFrame labels T) t m = some v := by
    intro labels
    rw [f64_cell?_predict allFrame labels T t ht, f64_secondRow_metric allFrame T t m hm, hrep,
      f64_mean_replicate _ hlen v hmult hcount]
  refine ⟨key, ?_⟩
  intro P env lng lat hframe
  obtain ⟨env', h, hp, -, -⟩ := f64_updateLocation_frame P env lng lat T allFrame hframe
  refine ⟨env', h, ?_⟩
  rw [hp]
  exact key env.prediction.labels

/-- Three days, each with one record whose throughput is 1, all matched at forward second 0:
the multiples 1, 2 and 3 are doubles, and row 0 holds the throughput 1. -/
theorem updateLocation_constant_mean_witness :
    selected frameThree64 0 ≠ [] ∧ (selected frameThree64 0).length = 3 ∧
    (∀ b ∈ selected frameThree64 0, b Label.THROUGHPUT = 1) ∧
    F64.combinedFrame refPlatform envThree 0 0 = some frameThree64 ∧
    ∃ env', F64.updateLocation refPlatform envThree 0 0 0 = some env' ∧
      cell? env'.prediction 0 Label.THROUGHPUT = some 1 :=
  have hlen : (selected frameThree64 0).length = 3 := by decide!
  have hsel : selected frameThree64 0 ≠ [] := ne_nil_of_length_pos _ (by rw [hlen]; decide)
  have hconst : ∀ b ∈ selected frameThree64 0, b Label.THROUGHPUT = 1 := by decide!
  ⟨hsel, hlen, hconst, frameThree64_eq,
    (updateLocation_constant_mean frameThree64 0 0 Label.THROUGHPUT 1 (by decide) (Or.inl rfl)
      hsel hconst
      (by
        intro q hq k hk1 hk2
        rw [hlen] at hk2
        have hq1 : q = 1 := by
          have h1 : (1 : Dbl) = Dbl.fin 1 := Dbl.one_def
          rw [h1] at hq
          exact (Dbl.fin.inj hq).symm
        subst hq1
        interval_cases k <;> decide!)
      (by rw [hlen]; decide!)).2 refPlatform envThree 0 0 frameThree64_eq⟩

/-- C14 (as stated) fails: three days, each with one record whose throughput is the double
0.1, all matched at forward second 0.  The double sum of 0.1, 0.1 and 0.1 is
0.30000000000000004, and row 0 of the prediction that `updateLocation` publishes holds the
throughput 0.10000000000000002, not 0.1. -/
theorem updateLocation_constant_mean_counterexample :
    (F64.combinedFrame refPlatform envTenth64 0 0).map
      (fun f => (selected f 0).map (fun b => b Label.THROUGHPUT)) =
      some [Dbl.lit (1 / 10), Dbl.lit (1 / 10), Dbl.lit (1 / 10)] ∧
    Dbl.lit (1 / 10) = Dbl.fin (3602879701896397 / 36028797018963968) ∧
    Dbl.fadd (Dbl.fadd (Dbl.fadd 0 (Dbl.lit (1 / 10))) (Dbl.lit (1 / 10))) (Dbl.lit (1 / 10)) =
      Dbl.fin (1351079888211149 / 4503599627370496) ∧
    (F64.updateLocation refPlatform envTenth64 0 0 0).map
      (fun e => cell? e.prediction 0 Label.THROUGHPUT) =
      some (some (Dbl.fin (7205759403792795 / 72057594037927936))) ∧
    (Dbl.fin (7205759403792795 / 72057594037927936)).eq (Dbl.lit (1 / 10)) = false := by
  decide!

/-! ## The row of a record of the combined frame, in binary64 arithmetic -/

theorem frameLate64_eq : F64.combinedFrame refPlatform envLate64 10 20 = some frameLate64 :=
  eq_some_getD_of_isSome _ _ (by decide!)

/-- C19: every record of the combined frame comes from the match window of a day that passed
the gate; where the times of the days' records are doubles its rebased time is a number `q`
with `0 ≤ q ≤ 5`, and it is selected for row `t` exactly when `t` is `q` rounded to the
nearest integer, halves away from zero, that is when `t - 1/2 ≤ q < t + 1/2`; so it is selected
for at most one row: row 0 when `q < 1/2`, row `k` when `k - 1/2 ≤ q < k + 1/2` for `k` from 1
to 4, and no row of the snapshot when `9/2 ≤ q`, which rounds to 5.  The metrics of row `t` are
computed from the selected records only. -/
theorem combinedFrame_record_row (P : Platform) (env : CarrierEnv) (lng lat : Dbl)
    (allFrame : DataFrame) (h : F64.combinedFrame P env lng lat = some allFrame)
    (hd : ∀ day ∈ env.df, ∀ b ∈ day.data, (b Label.TIME).IsDouble) (r : Datablock)
    (hr : r ∈ allFrame.data) :
    (∃ j day nearest, env.df[j]? = some day ∧
      F64.anchor? P lng lat env.current_cell day = some nearest ∧
      r ∈ (F64.next_5sec day (nearest Label.TIME) j).data) ∧
    (∃ q : ℚ, r Label.TIME = Dbl.fin q ∧ 0 ≤ q ∧ q ≤ 5 ∧
      (∀ t : Nat, r ∈ selected allFrame t ↔ (t : Int) = Dbl.roundHalfAway q) ∧
      (∀ t : Nat, r ∈ selected allFrame t ↔ (t : ℚ) - 1 / 2 ≤ q ∧ q < t + 1 / 2) ∧
      (∀ t u : Nat, r ∈ selected allFrame t → r ∈ selected allFrame u → t = u) ∧
      (q < 1 / 2 → r ∈ selected allFrame 0) ∧
      (∀ k : Nat, 1 ≤ k → k ≤ 4 → (k : ℚ) - 1 / 2 ≤ q → q < k + 1 / 2 →
        r ∈ selected allFrame k) ∧
      (9 / 2 ≤ q → Dbl.roundHalfAway q = 5 ∧ ∀ t, t < 5 → r ∉ selected allFrame t)) ∧
    (∀ (T : Dbl) (labels : List Label) (t : Nat), t < 5 →
      (∀ m, m = Label.THROUGHPUT ∨ m = Label.RTT ∨ m = Label.LOSS →
        cell? (F64.predict allFrame labels T) t m =
          some (F64.mean ((selected allFrame t).map (fun b => b m)))) ∧
      cell? (F64.predict allFrame labels T) t Label.HANDOVER =
        some (F64.mean
          ((selected allFrame t).map (fun b => castIndicator (b Label.HANDOVER))))) := by
  obtain ⟨j, day, nearest, hj, ha, b, hb, hw, rfl⟩ :=
    (f64_combinedFrame_source P env lng lat allFrame h r).1 hr
  have hday : day ∈ env.df := by
    obtain ⟨hlt, hget⟩ := List.getElem?_eq_some.1 hj
    rw [← hget]
    exact List.getElem_mem hlt
  obtain ⟨q, hq, h0, h5⟩ := f64_rebased_time_bounds (nearest Label.TIME) j b (hd day hday b hb) hw
  have hsel := mem_selected allFrame _ hr q hq
  have hiff : ∀ t : Nat, F64.rebased (nearest Label.TIME) j b ∈ selected allFrame t ↔
      (t : ℚ) - 1 / 2 ≤ q ∧ q < t + 1 / 2 := fun t =>
    (hsel t).trans (roundHalfAway_eq_iff q h0 t)
  refine ⟨⟨j, day, nearest, hj, ha, ?_⟩, ⟨q, hq, h0, h5, hsel, hiff, ?_, ?_, ?_, ?_⟩, ?_⟩
  · rw [f64_next_5sec_data]
    exact List.mem_map.2 ⟨b, List.mem_filter.2 ⟨hb, hw⟩, rfl⟩
  · intro t u ht hu
    have h1 := (hsel t).1 ht
    have h2 := (hsel u).1 hu
    exact_mod_cast h1.trans h2.symm
  · intro hlt
    exact (hiff 0).2 ⟨by push_cast; linarith, by push_cast; linarith⟩
  · intro k _ _ h1 h2
    exact (hiff k).2 ⟨h1, h2⟩
  · intro h9
    have h5' : Dbl.roundHalfAway q = 5 := by
      have := (roundHalfAway_eq_iff q h0 5).2 ⟨by push_cast; linarith, by push_cast; linarith⟩
      exact_mod_cast this.symm
    refine ⟨h5', ?_⟩
    intro t ht hmem
    have := (hsel t).1 hmem
    rw [h5'] at this
    omega
  · intro T labels t ht
    refine ⟨fun m hm => ?_, ?_⟩
    · rw [f64_cell?_predict allFrame labels T t ht, f64_secondRow_metric allFrame T t m hm]
    · rw [f64_cell?_predict allFrame labels T t ht, f64_secondRow_handover]

/-- A day of doubles with records 0.4, 0.5, 4.4, 4.5, 4.7 and 5 seconds (in decimals) after the
anchor at time 2.653: all seven records are in the combined frame, the last with the rebased
time 5; the rows 0 to 4 select 2, 1, 0, 0 and 1 of them, and the records at 4.5, 4.7 and 5,
which round to 5, are selected for no row. -/
theorem combinedFrame_record_row_witness :
    F64.combinedFrame refPlatform envLate64 10 20 = some frameLate64 ∧
    (∀ day ∈ envLate64.df, ∀ b ∈ day.data, (b Label.TIME).IsDouble) ∧
    frameLate64.data.map (fun r => r Label.TIME) =
      [0, Dbl.fin (900719925474099 / 2251799813685248), Dbl.fin (1 / 2),
        Dbl.fin (2476979795053773 / 562949953421312), Dbl.fin (9 / 2),
        Dbl.fin (1322932390540083 / 281474976710656), 5] ∧
    (List.range 5).map (fun t => (selected frameLate64 t).map (fun r => r Label.INDEX)) =
      [[0, 1], [2], [], [], [3]] ∧
    ∀ r ∈ frameLate64.data,
      ∃ q : ℚ, r Label.TIME = Dbl.fin q ∧ 0 ≤ q ∧ q ≤ 5 ∧
        (∀ t : Nat, r ∈ selected frameLate64 t ↔ (t : Int) = Dbl.roundHalfAway q) ∧
        (∀ t : Nat, r ∈ selected frameLate64 t ↔ (t : ℚ) - 1 / 2 ≤ q ∧ q < t + 1 / 2) ∧
        (∀ t u : Nat, r ∈ selected frameLate64 t → r ∈ selected frameLate64 u → t = u) ∧
        (q < 1 / 2 → r ∈ selected frameLate64 0) ∧
        (∀ k : Nat, 1 ≤ k → k ≤ 4 → (k : ℚ) - 1 / 2 ≤ q → q < k + 1 / 2 →
          r ∈ selected frameLate64 k) ∧
        (9 / 2 ≤ q → Dbl.roundHalfAway q = 5 ∧ ∀ t, t < 5 → r ∉ selected frameLate64 t) :=
  have hd : ∀ day ∈ envLate64.df, ∀ b ∈ day.data, (b Label.TIME).IsDouble := by decide!
  ⟨frameLate64_eq, hd, by decide!, by decide!, fun r hr =>
    (combinedFrame_record_row refPlatform envLate64 10 20 frameLate64 frameLate64_eq hd
      r hr).2.1⟩

/-! ## The anchor record and row 0, in binary64 arithmetic -/

theorem f64_anchor_finite (t0 : Dbl) (h : t0.lt (Dbl.fadd t0 5) = true) : ∃ q, t0 = Dbl.fin q := by
  cases t0 with
  | fin q => exact ⟨q, rfl⟩
  | pinf => exact absurd h (by decide)
  | ninf => exact absurd h (by decide)
  | nan => simp [Dbl.lt] at h

theorem f64_inWindow_self (b : Datablock)
    (h : (b Label.TIME).lt (Dbl.fadd (b Label.TIME) 5) = true) :
    F64.inWindow (b Label.TIME) b = true := by
  obtain ⟨q, hq⟩ := f64_anchor_finite _ h
  simp only [F64.inWindow, Bool.and_eq_true]
  refine ⟨?_, h⟩
  rw [hq]
  simp [Dbl.le]

theorem f64_rebased_self_time (i : Nat) (b : Datablock)
    (h : (b Label.TIME).lt (Dbl.fadd (b Label.TIME) 5) = true) :
    F64.rebased (b Label.TIME) i b Label.TIME = 0 := by
  obtain ⟨q, hq⟩ := f64_anchor_finite _ h
  have : F64.rebased (b Label.TIME) i b Label.TIME = Dbl.fsub (b Label.TIME) (b Label.TIME) := by
    simp [F64.rebased]
  rw [this, hq, Dbl.fsub_fin, sub_self, Dbl.round64_zero, Dbl.zero_def]

theorem f64_foldl_ne_nan (vs : List Dbl) (h : ∀ v ∈ vs, v.isFinite = true) :
    ∀ a : Dbl, a.isNaN = false →
      (vs.foldl (fun s v => Dbl.fadd s v) a).isNaN = false := by
  induction vs with
  | nil => intro a ha; exact ha
  | cons v vs ih =>
    intro a ha
    obtain ⟨q, rfl⟩ := (Dbl.isFinite_iff _).1 (h v (List.mem_cons_self _ _))
    simp only [List.foldl_cons]
    apply ih (fun w hw => h w (List.mem_cons_of_mem _ hw))
    apply Dbl.rnd_ne_nan
    cases a <;> simp_all [Dbl.add, Dbl.isNaN]

theorem f64_mean_ne_nan (vs : List Dbl) (h : ∀ v ∈ vs, v.isFinite = true) (hne : vs ≠ [])
    (hlen : vs.length ≤ 2 ^ 64) : (F64.mean vs).isNaN = false := by
  have hs := f64_foldl_ne_nan vs h 0 (by decide)
  obtain ⟨r, hr, hr1⟩ := f64_ofNat64_pos vs.length (List.length_pos.2 hne) hlen
  simp only [F64.mean, F64.sum, hr, Dbl.fdiv]
  apply Dbl.rnd_ne_nan
  have hr0 : ¬ r = 0 := by linarith
  have hr2 : (0 : ℚ) ≤ r := by linarith
  generalize List.foldl (fun s v => Dbl.fadd s v) 0 vs = s at hs
  cases s <;> simp_all [Dbl.div, Dbl.isNaN]

/-- C20 (amended): whenever a day passes the validity gate and the time `t0` of its anchor
record is less than the double sum `t0 ⊕ 5`, the anchor record is itself in the day's match
window, with rebased time 0; so at least one record is selected for forward second 0, each
metric of row 0 is a mean over a count of at least one (no division by a zero count), and it is
not the no-data marker NaN when the selected records' values of it are finite (their count
being at most `2^64`). -/
theorem anchor_row_zero (P : Platform) (env : CarrierEnv) (lng lat : Dbl) (allFrame : DataFrame)
    (h : F64.combinedFrame P env lng lat = some allFrame) (j : Nat) (day : DataFrame)
    (nearest : Datablock) (hday : env.df[j]? = some day)
    (hanchor : F64.anchor? P lng lat env.current_cell day = some nearest)
    (hlt : (nearest Label.TIME).lt (Dbl.fadd (nearest Label.TIME) 5) = true) :
    nearest ∈ day.data ∧
    (F64.next_5sec day (nearest Label.TIME) j).data.map (fun r => r Label.INDEX) =
      (day.data.filter (fun b => (nearest Label.TIME).le (b Label.TIME) &&
        (b Label.TIME).lt (Dbl.fadd (nearest Label.TIME) 5))).map (fun r => r Label.INDEX) ∧
    ((nearest Label.TIME).le (nearest Label.TIME) &&
      (nearest Label.TIME).lt (Dbl.fadd (nearest Label.TIME) 5)) = true ∧
    F64.rebased (nearest Label.TIME) j nearest ∈
      (F64.next_5sec day (nearest Label.TIME) j).data ∧
    F64.rebased (nearest Label.TIME) j nearest Label.TIME = 0 ∧
    F64.rebased (nearest Label.TIME) j nearest ∈ selected allFrame 0 ∧
    0 < (selected allFrame 0).length ∧
    (∀ (T : Dbl) (labels : List Label),
      (∀ m, m = Label.THROUGHPUT ∨ m = Label.RTT ∨ m = Label.LOSS →
        cell? (F64.predict allFrame labels T) 0 m =
          some (F64.mean ((selected allFrame 0).map (fun b => b m))) ∧
        ((∀ b ∈ selected allFrame 0, (b m).isFinite = true) →
          (selected allFrame 0).length ≤ 2 ^ 64 →
          ∃ v, cell? (F64.predict allFrame labels T) 0 m = some v ∧ v.isNaN = false)) ∧
      cell? (F64.predict allFrame labels T) 0 Label.HANDOVER =
        some (F64.mean
          ((selected allFrame 0).map (fun b => castIndicator (b Label.HANDOVER)))) ∧
      ((selected allFrame 0).length ≤ 2 ^ 64 →
        ∃ v, cell? (F64.predict allFrame labels T) 0 Label.HANDOVER = some v ∧
          v.isNaN = false)) ∧
    ∀ T, ∃ env', F64.updateLocation P env lng lat T = some env' ∧
      env'.prediction = F64.predict allFrame env.prediction.labels T := by
  have hmem := f64_anchor?_mem P lng lat env.current_cell day nearest hanchor
  have hw := f64_inWindow_self nearest hlt
  have hr : F64.rebased (nearest Label.TIME) j nearest ∈ allFrame.data :=
    (f64_combinedFrame_source P env lng lat allFrame h _).2
      ⟨j, day, nearest, hday, hanchor, nearest, hmem, hw, rfl⟩
  have ht0 := f64_rebased_self_time j nearest hlt
  have hsel : F64.rebased (nearest Label.TIME) j nearest ∈ selected allFrame 0 := by
    rw [Dbl.zero_def] at ht0
    rw [mem_selected allFrame _ hr 0 ht0 0, roundHalfAway_eq_iff 0 (le_refl 0) 0]
    norm_num
  have hne : selected allFrame 0 ≠ [] := List.ne_nil_of_mem hsel
  refine ⟨hmem, ?_, hw, ?_, ht0, hsel, List.length_pos.2 hne, ?_, ?_⟩
  · rw [f64_next_5sec_data, List.map_map]
    have : (fun r : Datablock => r Label.INDEX) ∘ F64.rebased (nearest Label.TIME) j =
        fun r => r Label.INDEX := by
      funext b
      simp [F64.rebased]
    rw [this]
    rfl
  · rw [f64_next_5sec_data]
    exact List.mem_map.2 ⟨nearest, List.mem_filter.2 ⟨hmem, hw⟩, rfl⟩
  · intro T labels
    refine ⟨fun m hm => ?_, ?_, ?_⟩
    · have hc : cell? (F64.predict allFrame labels T) 0 m =
          some (F64.mean ((selected allFrame 0).map (fun b => b m))) := by
        rw [f64_cell?_predict allFrame labels T 0 (by decide),
          f64_secondRow_metric allFrame T 0 m hm]
      refine ⟨hc, fun hf hlen => ⟨_, hc, ?_⟩⟩
      exact f64_mean_ne_nan _
        (by
          intro v hv
          obtain ⟨b, hb, rfl⟩ := List.mem_map.1 hv
          exact hf b hb)
        (by
          intro hnil
          exact hne (List.map_eq_nil_iff.1 hnil))
        (by rw [List.length_map]; exact hlen)
    · rw [f64_cell?_predict allFrame labels T 0 (by decide), f64_secondRow_handover]
    · intro hlen
      refine ⟨_, by rw [f64_cell?_predict allFrame labels T 0 (by decide),
        f64_secondRow_handover], ?_⟩
      exact f64_mean_ne_nan _
        (by
          intro v hv
          obtain ⟨b, -, rfl⟩ := List.mem_map.1 hv
          rcases castIndicator_cases (b Label.HANDOVER) with h0 | h1
          · rw [h0]; rfl
          · rw [h1]; rfl)
        (by
          intro hnil
          exact hne (List.map_eq_nil_iff.1 hnil))
        (by rw [List.length_map]; exact hlen)
  · intro T
    obtain ⟨env', hu, hp, -, -⟩ := f64_updateLocation_frame P env lng lat T allFrame h
    exact ⟨env', hu, hp⟩

/-- The end-to-end scenario: day 1 passes the gate with the anchor at time 100, and
`100 < 100 ⊕ 5`; the anchor is in the window of day 1 and selected for forward second 0 (with
the anchor of day 2), and row 0 holds the throughput 70, the mean of 50 and 90. -/
theorem anchor_row_zero_witness :
    F64.combinedFrame refPlatform envTwo64 10 20 = some frameTwo64 ∧
    envTwo64.df[0]? = some day1 ∧
    F64.anchor? refPlatform 10 20 envTwo64.current_cell day1 = some anchorOne64 ∧
    anchorOne64 Label.TIME = 100 ∧
    (anchorOne64 Label.TIME).lt (Dbl.fadd (anchorOne64 Label.TIME) 5) = true ∧
    (selected frameTwo64 0).length = 2 ∧
    F64.mean ((selected frameTwo64 0).map (fun b => b Label.THROUGHPUT)) = 70 ∧
    F64.rebased (anchorOne64 Label.TIME) 0 anchorOne64 ∈ selected frameTwo64 0 ∧
    ∀ T, ∃ env', F64.updateLocation refPlatform envTwo64 10 20 T = some env' ∧
      env'.prediction = F64.predict frameTwo64 envTwo64.prediction.labels T :=
  have hday : envTwo64.df[0]? = some day1 := rfl
  have hanchor : F64.anchor? refPlatform 10 20 envTwo64.current_cell day1 = some anchorOne64 :=
    eq_some_getD_of_isSome _ _ (by decide!)
  have hlt : (anchorOne64 Label.TIME).lt (Dbl.fadd (anchorOne64 Label.TIME) 5) = true := by
    decide!
  have hthm := anchor_row_zero refPlatform envTwo64 10 20 frameTwo64 frameTwo64_eq 0 day1
    anchorOne64 hday hanchor hlt
  ⟨frameTwo64_eq, hday, hanchor, by decide!, hlt, by decide!, by decide!,
    hthm.2.2.2.2.2.1, hthm.2.2.2.2.2.2.2.2⟩

/-- C20 (as stated) fails.  A day of one record at the query position, in the current cell,
whose time is `1e17`, passes the validity gate, but the double sum `1e17 ⊕ 5` is `1e17`: the
window `[1e17, 1e17)` is empty, no record is selected for forward second 0 and row 0 holds
NaN.  And a day whose anchor has the throughput NaN passes the gate and is selected for forward
second 0 (a count of one), and the throughput of row 0 is NaN all the same. -/
theorem anchor_row_zero_counterexample :
    envHugeTime.df.map
      (fun day => (F64.anchor? refPlatform 0 0 envHugeTime.current_cell day).map
        (fun b => b Label.TIME)) = [some (Dbl.fin (10 ^ 17))] ∧
    Dbl.fadd (Dbl.fin (10 ^ 17)) 5 = Dbl.fin (10 ^ 17) ∧
    (F64.combinedFrame refPlatform envHugeTime 0 0).map (fun af => af.data.length) = some 0 ∧
    (F64.updateLocation refPlatform envHugeTime 0 0 0).bind
      (fun env' => cell? env'.prediction 0 Label.THROUGHPUT) = some Dbl.nan ∧
    envNanThroughput.df.map
      (fun day => (F64.anchor? refPlatform 0 0 envNanThroughput.current_cell day).isSome) =
      [true] ∧
    (F64.combinedFrame refPlatform envNanThroughput 0 0).map
      (fun af => (selected af 0).length) = some 1 ∧
    (F64.updateLocation refPlatform envNanThroughput 0 0 0).bind
      (fun env' => cell? env'.prediction 0 Label.THROUGHPUT) = some Dbl.nan := by
  decide!

end M3
